import Mathlib

/-!
# FISCO-BCOS core: nonce cache, peer host and channel router

A shallow embedding of three source files of the repository,
`libethereum/NonceCheck.cpp`, `libp2p/HostSSL.cpp` and
`libweb3jsonrpc/ChannelRPCServer.cpp`, followed by the theorems that settle
the claims of the specification against them.

Conventions of the embedding:
* `unsigned` is a natural number below `2 ^ 32`; arithmetic that can wrap is
  written with an explicit `% 2 ^ 32`;
* a `std::map` or `std::set` whose order is never observed is a `Finset`, one
  whose order is observed is an association list kept in key order;
* a C++ exception is an explicit result constructor; a handler that catches it
  is a `match` on that constructor;
* locks are not modelled: every function below runs under its lock from its
  first to its last statement, so it is one atomic step on the state.
-/

namespace NonceCheck

/-! ## `libethereum/NonceCheck.cpp` -/

/-- A transaction as far as the nonce cache reads it: `from()` (the bytes of
the sender address, 20 in the source) and `randomid()` (a `u256`). -/
structure Transaction where
  sender : List (Fin 256)
  randomid : Nat
  deriving DecidableEq, Repr

/-- Lower-case hexadecimal of a byte string, two characters a byte
(`dev::toHex`). -/
def toHex (bs : List (Fin 256)) : String :=
  String.mk (bs.flatMap fun b => [Nat.digitChar (b.val / 16), Nat.digitChar (b.val % 16)])

/-- Embedding of `NonceCheck::generateKey`: hex of the account, an underscore, the
decimal `randomid`. -/
def generateKey (t : Transaction) : String :=
  toHex t.sender ++ ("_" ++ toString t.randomid)

/-- The block chain as `updateCache` consults it. `number` is `_bc.number()`;
`transactions i` is `_bc.transactions(_bc.numberHash(i))` with every element
already passed to the `Transaction` constructor: the outer `none` is a chain
read that throws, an inner `none` a transaction whose decoding throws. -/
structure BlockChain where
  number : Nat
  transactions : Nat → Option (List (Option Transaction))

/-- The members of `NonceCheck`. `m_cache` is a `std::map<std::string, bool>`
whose mapped value is always `true` and never read, hence a set of keys.
`maxblocksize` is the static `u256` (1000 unless changed). -/
structure State where
  m_startblk : Nat
  m_endblk : Nat
  m_cache : Finset String
  maxblocksize : Nat
  deriving DecidableEq

/-- How a loop or a call ends: normally, by a C++ exception (with the state at
the throw), or not within the given number of iterations. -/
inductive Outcome (σ : Type) where
  | done (s : σ)
  | threw (s : σ)
  | outOfFuel
  deriving DecidableEq, Repr

/-- Embedding of `NonceCheck::ok`: the result and the state afterwards. -/
def ok (t : Transaction) (needinsert : Bool) (s : State) : Bool × State :=
  let key := generateKey t
  if key ∈ s.m_cache then (false, s)
  else if needinsert then (true, { s with m_cache := insert key s.m_cache })
  else (true, s)

/-- Inner loop of the delete step: decode each transaction of a block and
erase its key when present. -/
def eraseKeys : List (Option Transaction) → Finset String → Except (Finset String) (Finset String)
  | [], c => .ok c
  | none :: _, c => .error c
  | some t :: ts, c => eraseKeys ts (c.erase (generateKey t))

/-- Inner loop of the insert step: decode each transaction of a block and
insert its key when absent. -/
def insertKeys : List (Option Transaction) → Finset String → Except (Finset String) (Finset String)
  | [], c => .ok c
  | none :: _, c => .error c
  | some t :: ts, c => insertKeys ts (insert (generateKey t) c)

/-- Body of the delete loop for block height `i`. -/
def eraseBlock (bc : BlockChain) (i : Nat) (c : Finset String) :
    Except (Finset String) (Finset String) :=
  match bc.transactions i with
  | none => .error c
  | some txs => eraseKeys txs c

/-- Body of the insert loop for block height `i`. -/
def insertBlock (bc : BlockChain) (i : Nat) (c : Finset String) :
    Except (Finset String) (Finset String) :=
  match bc.transactions i with
  | none => .error c
  | some txs => insertKeys txs c

/-- A loop `for (unsigned i = start; cond(i); i++) body(i)` run for at most
`fuel` tests of the condition; the counter wraps at `2 ^ 32` like the
source's. -/
def forLoop (cond : Nat → Bool)
    (body : Nat → Finset String → Except (Finset String) (Finset String)) :
    Nat → Nat → Finset String → Outcome (Finset String)
  | 0, _, _ => .outOfFuel
  | fuel + 1, i, c =>
    if cond i then
      match body i c with
      | .ok c' => forLoop cond body fuel ((i + 1) % 2 ^ 32) c'
      | .error c' => .threw c'
    else .done c

/-- Embedding of `NonceCheck::updateCache`. `threw` is the path through
`catch (...)`, which logs and returns: its state is what the object holds
then. -/
def updateCache (fuel : Nat) (bc : BlockChain) (rebuild : Bool) (s : State) : Outcome State :=
  let lastnumber := bc.number % 2 ^ 32
  let prestartblk := s.m_startblk
  let preendblk := s.m_endblk
  let w := s.maxblocksize % 2 ^ 32
  let s1 : State :=
    { s with m_endblk := lastnumber,
             m_startblk := if lastnumber > w then lastnumber - w else 0 }
  let cleared : Outcome (Finset String × Nat) :=
    if rebuild then .done (∅, 0)
    else
      match forLoop (fun i => decide (i < s1.m_startblk)) (eraseBlock bc) fuel prestartblk s.m_cache with
      | .done c => .done (c, preendblk)
      | .threw c => .threw (c, preendblk)
      | .outOfFuel => .outOfFuel
  match cleared with
  | .outOfFuel => .outOfFuel
  | .threw (c, _) => .threw { s1 with m_cache := c }
  | .done (c, preendblk) =>
    match forLoop (fun i => decide (i ≤ s1.m_endblk)) (insertBlock bc) fuel
        (max ((preendblk + 1) % 2 ^ 32) s1.m_startblk) c with
    | .done c' => .done { s1 with m_cache := c' }
    | .threw c' => .threw { s1 with m_cache := c' }
    | .outOfFuel => .outOfFuel

/-- Embedding of `NonceCheck::init`. -/
def init (fuel : Nat) (bc : BlockChain) (s : State) : Outcome State :=
  updateCache fuel bc true { s with m_startblk := 0, m_endblk := 0 }

/-- Keys of the transactions of a block that decode. -/
def keysOf (txs : List (Option Transaction)) : Finset String :=
  ((txs.filterMap id).map generateKey).toFinset

/-- Keys of the transactions of the block at height `i`; empty when the
block cannot be read. -/
def blockKeys (bc : BlockChain) (i : Nat) : Finset String :=
  match bc.transactions i with
  | none => ∅
  | some txs => keysOf txs

/-- The union of `generateKey t` over the transactions `t` of the blocks at
heights `a..b` inclusive. -/
def windowKeys (bc : BlockChain) (a b : Nat) : Finset String :=
  (Finset.Icc a b).biUnion (blockKeys bc)

/-- A block that can be read and whose transactions all decode. -/
def readable (bc : BlockChain) (i : Nat) : Prop :=
  ∃ txs, bc.transactions i = some txs ∧ ∀ x ∈ txs, x ≠ none

/-- The loop body run over an explicit list of heights, stopping at the first
throw. -/
def runBlocks (body : Nat → Finset String → Except (Finset String) (Finset String)) :
    List Nat → Finset String → Except (Finset String) (Finset String)
  | [], c => .ok c
  | i :: is, c =>
    match body i c with
    | .ok c' => runBlocks body is c'
    | .error c' => .error c'

/-- A chain that holds only a genesis block without transactions. -/
def genesisChain : BlockChain :=
  { number := 0, transactions := fun i => if i = 0 then some [] else none }

/-- A transaction submitted to the node and not yet in any block. -/
def pendingTx : Transaction := { sender := List.replicate 20 1, randomid := 7 }

/-- The checker right after `init` on `genesisChain`. -/
def freshState : State := { m_startblk := 0, m_endblk := 0, m_cache := ∅, maxblocksize := 1000 }

/-- The checker after `ok pendingTx true` has admitted `pendingTx`. -/
def admittedState : State :=
  { m_startblk := 0, m_endblk := 0, m_cache := {generateKey pendingTx}, maxblocksize := 1000 }

/-- The transaction of block `i` in the sliding-window scenario. -/
def slideTx (i : Nat) : Transaction := { sender := List.replicate 20 (Fin.ofNat i), randomid := i }

/-- The chain of the sliding-window scenario at height `h`: one transaction a
block. -/
def slideChain (h : Nat) : BlockChain :=
  { number := h, transactions := fun i => if i ≤ h then some [some (slideTx i)] else none }

end NonceCheck

namespace Cpp

/-! ## Containers of the standard library -/

/-- Lookup in a `std::map` kept as an association list. -/
def mapFind {κ α : Type} [DecidableEq κ] (k : κ) : List (κ × α) → Option α
  | [] => none
  | (k', v) :: rest => if k = k' then some v else mapFind k rest

/-- The assignment `m[k] = v` on a `std::map` kept in key order. -/
def mapInsert {κ α : Type} [DecidableEq κ] [LT κ] [DecidableRel (fun a b : κ => a < b)]
    (k : κ) (v : α) : List (κ × α) → List (κ × α)
  | [] => [(k, v)]
  | (k', v') :: rest =>
    if k = k' then (k, v) :: rest
    else if k < k' then (k, v) :: (k', v') :: rest
    else (k', v') :: mapInsert k v rest

/-- The call `m.erase(k)` on a `std::map`. -/
def mapErase {κ α : Type} [DecidableEq κ] (k : κ) (m : List (κ × α)) : List (κ × α) :=
  m.filter fun e => decide (e.1 ≠ k)

/-- The call `m.insert(make_pair(k, v))` on a `std::map`: nothing changes when
the key is present. -/
def mapInsertNew {κ α : Type} [DecidableEq κ] [LT κ] [DecidableRel (fun a b : κ => a < b)]
    (k : κ) (v : α) (m : List (κ × α)) : List (κ × α) :=
  match mapFind k m with
  | some _ => m
  | none => mapInsert k v m

end Cpp

namespace NonceCheck

/-- The number of transactions of the block at height `i`; 0 when the block
cannot be read. -/
def txCount (bc : BlockChain) (i : Nat) : Nat :=
  match bc.transactions i with
  | none => 0
  | some txs => txs.length

/-- The keys of the transactions of the `n` blocks from height `a` on, block
by block and in block order, with repetitions. -/
def keyList (bc : BlockChain) (a n : Nat) : List String :=
  (List.range' a n).flatMap fun i =>
    match bc.transactions i with
    | none => []
    | some txs => (txs.filterMap id).map generateKey

/-- A chain of height 2 whose block 1 cannot be read. -/
def brokenChain : BlockChain :=
  { number := 2, transactions := fun i => if i = 1 then none else some [some (slideTx i)] }

/-- The characters of `toHex`. -/
def hexChars (bs : List (Fin 256)) : List Char :=
  bs.flatMap fun b => [Nat.digitChar (b.val / 16), Nat.digitChar (b.val % 16)]

end NonceCheck

namespace HostSSL

open Cpp

/-! ## `libp2p/HostSSL.cpp` -/

/-- What `ParseCert::ParseInfo` extracts from the certificate under
verification. -/
structure ParseCert where
  subjectName : String
  certType : Int
  isExpire : Bool
  serialNumber : String
  deriving DecidableEq, Repr

/-- Embedding of `HostSSL::sslVerifyCert`. `checkCertOut` is
`NodeConnManagerSingleton::GetInstance().checkCertOut`. -/
def sslVerifyCert (checkCertOut : String → Bool) (preverified : Bool) (cert : ParseCert) : Bool :=
  if cert.isExpire then false
  else if cert.certType = 1 then
    if checkCertOut cert.serialNumber = true then false else preverified
  else preverified

/-- A node identifier (`Public`, 512 bits). -/
abbrev NodeId := Nat

/-- A capability descriptor: name and version. -/
abbrev CapDesc := String × Nat

/-- The disconnect reasons the host uses. -/
inductive DisconnectReason where
  | ClientQuit
  | LocalIdentity
  | IncompatibleProtocol
  | UselessPeer
  | UnexpectedIdentity
  | DuplicatePeer
  | TooManyPeers
  | PingTimeout
  | UserReason
  deriving DecidableEq, Repr

/-- An endpoint: address, ports and optional host name. -/
structure NodeIPEndpoint where
  address : String
  tcpPort : Nat
  udpPort : Nat
  host : String
  deriving DecidableEq, Repr

/-- Modelled from the spec: `NodeIPEndpoint::name` (declared in the absent
`libp2p/Common.h`), the canonical name `address:tcp_port`. -/
def NodeIPEndpoint.name (e : NodeIPEndpoint) : String :=
  e.address ++ (":" ++ toString e.tcpPort)

/-- Modelled from the spec: the `Peer` object (declared in the absent
`libp2p/Peer.h`) with the fields of the data model; times are milliseconds. -/
structure Peer where
  id : NodeId
  endpoint : NodeIPEndpoint
  m_lastConnected : Int
  offline : Bool
  deriving DecidableEq, Repr

/-- A registered capability, as far as the host calls it. -/
structure HostCapabilityFace where
  messageCount : Nat
  deriving DecidableEq, Repr

/-- A session object, as far as the host reads it: `id()`,
`info().nodeIPEndpoint`, `isConnected()` and `lastReceived()`. -/
structure Session where
  id : NodeId
  nodeIPEndpoint : NodeIPEndpoint
  connected : Bool
  lastReceived : Int
  deriving DecidableEq, Repr

/-- The members of `HostSSL` that the session bookkeeping, `connect` and the
reconnect tick use.
`m_sessions` holds weak pointers: a pointer is a handle into `heap`, the session
objects alive, and locks when the heap has an object there. `m_capabilities`
holds the capability objects themselves: what is registered there is
dereferenced at registration, so an entry is never null, and a lookup that finds
nothing is the null pointer `operator[]` gives. `listenIPAddress`,
`publicIPAddress` and `listenPort` are the fields of `m_netPrefs`;
`m_listenPort` is what `listenPort()` returns. An address is the text
`to_string()` gives for it, a tcp endpoint an address and a port;
`m_connecting` is the number of handshakes in the list. Times are
milliseconds. -/
structure Host where
  id : NodeId
  pin : Bool
  m_requiredPeers : List NodeId
  m_capabilities : List (CapDesc × HostCapabilityFace)
  m_peers : List (String × Peer)
  m_sessions : List (NodeId × Nat)
  heap : Nat → Option Session
  nextHandle : Nat
  m_lastPing : Int
  m_reconnectnow : Bool
  m_run : Bool
  listenIPAddress : String
  publicIPAddress : String
  listenPort : Nat
  m_listenPort : Nat
  m_ifAddresses : List String
  m_tcpPublic : String × Nat
  m_tcpClient : String × Nat
  m_pendingPeerConns : Finset String
  m_connecting : Nat
  m_lastReconnect : Int
  m_lastAnnouncementConnectNodes : Int

/-- The handshake message `_rlp` of `startPeerSession`, decoded. -/
structure Hello where
  protocolVersion : Nat
  clientVersion : String
  caps : List CapDesc
  listenPort : Nat
  pub : NodeId
  deriving DecidableEq, Repr

/-- The socket `_s` of `startPeerSession`, as far as it is read:
`remoteEndpoint().address()` and `nodeIPEndpoint().host`. -/
structure Socket where
  remoteAddress : String
  nodeHost : String
  deriving DecidableEq, Repr

/-- What `startPeerSession` takes from declarations outside this file:
`dev::p2p::c_protocolVersion` (an `unsigned`), `UserPacket`,
`Session::isFramingAllowedForVersion`, the answer of `peerSlotsAvailable()`
when it is asked, the clock, and the value that the move assignment of a
capability descriptor leaves behind: `movedFrom d s` is what the place of `s`
holds after `s` was move-assigned to a place that held `d` (the standard
library leaves it unspecified). -/
structure Env where
  c_protocolVersion : Nat
  UserPacket : Nat
  isFramingAllowedForVersion : Nat → Bool
  peerSlotsAvailable : Bool
  now : Int
  movedFrom : CapDesc → CapDesc → CapDesc

/-- How `startPeerSession` ends: by `throw Exception("Disconnect self")`, by
`ps->disconnect(reason)`, or with the session started under a handle. -/
inductive StartResult where
  | threw (what : String)
  | disconnected (reason : DisconnectReason)
  | started (handle : Nat)
  deriving DecidableEq, Repr

/-- One call `pcap->newPeerCapability(ps, offset, cap, subid)`. -/
structure CapCall where
  cap : CapDesc
  offset : Nat
  subid : Nat
  deriving DecidableEq, Repr

/-- The host afterwards, the way the call ended, and the capability calls it
made. -/
structure StartOutput where
  host : Host
  result : StartResult
  capCalls : List CapCall

/-- Modelled from the spec: `haveCapability` (declared in the absent
`HostSSL.h`), membership of the descriptor in the local registry. -/
def haveCapability (h : Host) (c : CapDesc) : Bool :=
  (mapFind c h.m_capabilities).isSome

/-- The predicate of the `remove_if` in `startPeerSession`, applied to the
entry `r` while the vector holds `caps`: `r` is not in the registry, or `caps`
holds an entry with the same name, a higher version and a registry entry. -/
def capRemoved (h : Host) (caps : List CapDesc) (r : CapDesc) : Bool :=
  !haveCapability h r ||
    caps.any fun o => decide (r.1 = o.1) && decide (o.2 > r.2) && haveCapability h o

/-- The run of `std::remove_if` over the vector, whose predicate reads the
vector while it is rearranged. The vector is `out ++ stale ++ todo`: `out` are
the entries kept so far, moved to the front; `stale` are the places between the
kept entries and the entry under test, which hold removed entries and what move
assignments left behind; `todo` are the entries not yet tested. An entry that
is kept while no entry has been removed stays where it is; later a kept entry is
move-assigned to the first stale place. The result is the kept front. -/
def removeIfLoop (h : Host) (movedFrom : CapDesc → CapDesc → CapDesc) :
    List CapDesc → List CapDesc → List CapDesc → List CapDesc
  | out, _, [] => out
  | out, stale, r :: rest =>
    if capRemoved h (out ++ stale ++ r :: rest) r then
      removeIfLoop h movedFrom out (stale ++ [r]) rest
    else
      match stale with
      | [] => removeIfLoop h movedFrom (out ++ [r]) [] rest
      | d :: stale' => removeIfLoop h movedFrom (out ++ [r]) (stale' ++ [movedFrom d r]) rest

/-- The statement `caps.erase(remove_if(caps.begin(), caps.end(), ..),
caps.end())` of `startPeerSession`: the capabilities kept. -/
def keptCaps (env : Env) (h : Host) (caps : List CapDesc) : List CapDesc :=
  removeIfLoop h env.movedFrom [] [] caps

/-- The capability list as the specification words it: the remote entries that
are in the local registry, and of those only the highest version of each
name. -/
def highestSupported (h : Host) (caps : List CapDesc) : List CapDesc :=
  caps.filter fun r =>
    haveCapability h r &&
      !(caps.any fun o => decide (o.1 = r.1) && decide (r.2 < o.2) && haveCapability h o)

/-- The loop over the kept capabilities: the calls made, and `false` when a
capability without an object ended the loop. `offset` is an `unsigned`, `cnt`
a `uint16_t`. -/
def assignCaps (framing : Bool) (registry : List (CapDesc × HostCapabilityFace)) :
    List CapDesc → Nat → Nat → List CapCall × Bool
  | [], _, _ => ([], true)
  | i :: rest, offset, cnt =>
    match mapFind i registry with
    | none => ([], false)
    | some pcap =>
      if framing then
        let r := assignCaps framing registry rest offset ((cnt + 1) % 2 ^ 16)
        ({ cap := i, offset := 0, subid := cnt } :: r.1, r.2)
      else
        let r := assignCaps framing registry rest ((offset + pcap.messageCount) % 2 ^ 32) cnt
        ({ cap := i, offset := offset, subid := 0 } :: r.1, r.2)

/-- The test of the duplicate rule: `m_sessions` has the id, its weak pointer
locks, and the session is connected. -/
def connectedSession (h : Host) (id : NodeId) : Bool :=
  match mapFind id h.m_sessions with
  | none => false
  | some n =>
    match h.heap n with
    | none => false
    | some s => s.connected

/-- The heap with the object at handle `n` replaced. -/
def heapSet (heap : Nat → Option Session) (n : Nat) (s : Option Session) : Nat → Option Session :=
  fun m => if m = n then s else heap m

/-- The endpoint `_nodeIPEndpoint` that `startPeerSession` builds: the remote
address of the socket with the announced listen port. -/
def helloEndpoint (hello : Hello) (sock : Socket) : NodeIPEndpoint :=
  { address := sock.remoteAddress, tcpPort := hello.listenPort,
    udpPort := hello.listenPort, host := sock.nodeHost }

/-- The block of `startPeerSession` that finds the `Peer` of the endpoint name
in `m_peers` or creates and stores it, stamps `m_lastConnected` when the peer
is offline, and sets its endpoint. -/
def recordPeer (env : Env) (hello : Hello) (sock : Socket) (h : Host) : Host :=
  let ep := helloEndpoint hello sock
  let p0 : Peer :=
    match mapFind ep.name h.m_peers with
    | some p => p
    | none => { id := hello.pub, endpoint := ep, m_lastConnected := 0, offline := true }
  let p1 : Peer := if p0.offline then { p0 with m_lastConnected := env.now } else p0
  { h with m_peers := mapInsert ep.name { p1 with endpoint := ep } h.m_peers }

/-- Embedding of `HostSSL::startPeerSession`. A rejected session object is
disconnected before the call returns and is not entered in the heap. -/
def startPeerSession (env : Env) (hello : Hello) (sock : Socket) (h : Host) : StartOutput :=
  if hello.pub = h.id then
    { host := h, result := .threw "Disconnect self", capCalls := [] }
  else
    let h1 := recordPeer env hello sock h
    let caps := keptCaps env h hello.caps
    if hello.protocolVersion < (env.c_protocolVersion + (2 ^ 32 - 1)) % 2 ^ 32 then
      { host := h1, result := .disconnected .IncompatibleProtocol, capCalls := [] }
    else if caps.isEmpty then
      { host := h1, result := .disconnected .UselessPeer, capCalls := [] }
    else if h1.pin && !decide (hello.pub ∈ h1.m_requiredPeers) then
      { host := h1, result := .disconnected .UnexpectedIdentity, capCalls := [] }
    else if connectedSession h1 hello.pub then
      { host := h1, result := .disconnected .DuplicatePeer, capCalls := [] }
    else if !env.peerSlotsAvailable then
      { host := h1, result := .disconnected .TooManyPeers, capCalls := [] }
    else
      let r := assignCaps (env.isFramingAllowedForVersion hello.protocolVersion)
        h1.m_capabilities caps (env.UserPacket % 2 ^ 32) 1
      if r.2 then
        let ps : Session :=
          { id := hello.pub, nodeIPEndpoint := helloEndpoint hello sock, connected := true,
            lastReceived := env.now }
        { host :=
            { h1 with
              m_sessions := mapInsert hello.pub h1.nextHandle h1.m_sessions,
              heap := heapSet h1.heap h1.nextHandle (some ps),
              nextHandle := h1.nextHandle + 1 },
          result := .started h1.nextHandle, capCalls := r.1 }
      else
        { host := h1, result := .disconnected .IncompatibleProtocol, capCalls := r.1 }

/-- The constant `c_keepAliveIntervalSSL` (20 s) in milliseconds. -/
def c_keepAliveIntervalSSL : Int := 20000

/-- The constant `c_keepAliveTimeOutSSL` (10000 ms). -/
def c_keepAliveTimeOutSSL : Int := 10000

/-- What the keep-alive loop does to a session. -/
inductive KeepAliveAction where
  | ping (handle : Nat)
  | disconnect (handle : Nat) (reason : DisconnectReason)
  deriving DecidableEq, Repr

/-- The state the first loop of `keepAlivePeers` threads: the entries of
`m_sessions` it keeps, the heap, `m_peers`, and the actions so far. -/
structure KeepAliveLoop where
  kept : List (NodeId × Nat)
  heap : Nat → Option Session
  peers : List (String × Peer)
  actions : List KeepAliveAction

/-- The first loop of `keepAlivePeers`, over `m_sessions` in key order. Times
are milliseconds; `disconnect` drops the socket, so the session is no longer
connected. -/
def keepAliveLoop (now lastPing : Int) :
    List (NodeId × Nat) → (Nat → Option Session) → List (String × Peer) → KeepAliveLoop
  | [], heap, peers => { kept := [], heap := heap, peers := peers, actions := [] }
  | (k, n) :: rest, heap, peers =>
    match heap n with
    | some p =>
      if p.connected then
        if now - c_keepAliveTimeOutSSL > lastPing ∧ p.lastReceived < lastPing then
          let r := keepAliveLoop now lastPing rest
            (heapSet heap n (some { p with connected := false })) peers
          { r with kept := (k, n) :: r.kept, actions := .disconnect n .PingTimeout :: r.actions }
        else
          let r := keepAliveLoop now lastPing rest heap peers
          { r with kept := (k, n) :: r.kept, actions := .ping n :: r.actions }
      else
        keepAliveLoop now lastPing rest heap (mapErase p.nodeIPEndpoint.name peers)
    | none => keepAliveLoop now lastPing rest heap peers

/-- Modelled from the spec: `havePeerSession` (declared in the absent
`HostSSL.h`), whether a session for the id remains: `m_sessions` has the id
and its weak pointer locks. -/
def havePeerSession (sessions : List (NodeId × Nat)) (heap : Nat → Option Session)
    (id : NodeId) : Bool :=
  match mapFind id sessions with
  | none => false
  | some n => (heap n).isSome

/-- Embedding of `HostSSL::keepAlivePeers`: the host afterwards and the actions
on sessions. `now` is read at entry, `now'` at exit. -/
def keepAlivePeers (now now' : Int) (h : Host) : Host × List KeepAliveAction :=
  if now - c_keepAliveIntervalSSL < h.m_lastPing ∧ h.m_reconnectnow = false then (h, [])
  else
    let r := keepAliveLoop now h.m_lastPing h.m_sessions h.heap h.m_peers
    ({ h with
        m_sessions := r.kept,
        heap := r.heap,
        m_peers := r.peers.filter fun e => havePeerSession r.kept r.heap e.2.id,
        m_lastPing := now' },
      r.actions)

/-- The socket of the session at handle `n` closes. -/
def closeSession (n : Nat) (h : Host) : Host :=
  match h.heap n with
  | none => h
  | some s => { h with heap := heapSet h.heap n (some { s with connected := false }) }

/-- The session object at handle `n` is destroyed. -/
def destroySession (n : Nat) (h : Host) : Host :=
  { h with heap := heapSet h.heap n none }

/-- The session part of `HostSSL::doneWorking`: the loop disconnects every
connected session of `m_sessions` with `ClientQuit` until none is connected,
then the map is cleared. -/
def doneWorking (h : Host) : Host :=
  { h with
    heap := fun n =>
      match h.heap n with
      | none => none
      | some s =>
        if h.m_sessions.any (fun e => decide (e.2 = n)) then some { s with connected := false }
        else some s,
    m_sessions := [] }

/-- A host that has created no session object yet. -/
def Host.fresh (h : Host) : Prop :=
  h.m_sessions = [] ∧ ∀ n, h.heap n = none

/-- The host states reached from a fresh host by handshakes that complete,
sessions that close (by the remote side, an error or a `disconnect`) or are
destroyed, keep-alive ticks, and `doneWorking`. -/
inductive Reachable : Host → Prop where
  | fresh (h : Host) (hf : h.fresh) : Reachable h
  | start (h : Host) (env : Env) (hello : Hello) (sock : Socket) :
      Reachable h → Reachable (startPeerSession env hello sock h).host
  | close (h : Host) (n : Nat) : Reachable h → Reachable (closeSession n h)
  | destroy (h : Host) (n : Nat) : Reachable h → Reachable (destroySession n h)
  | keepAlive (h : Host) (now now' : Int) : Reachable h → Reachable (keepAlivePeers now now' h).1
  | stop (h : Host) : Reachable h → Reachable (doneWorking h)

/-- Every connected session object is the one `m_sessions` holds under its id,
and no object lies at or above the next handle. -/
def Host.sessionsSound (h : Host) : Prop :=
  (∀ n s, h.heap n = some s → s.connected = true → mapFind s.id h.m_sessions = some n) ∧
  (∀ n, h.nextHandle ≤ n → h.heap n = none)

/-- The host of the duplicate-peer scenario before any handshake. -/
def dupHost : Host :=
  { id := 1, pin := false, m_requiredPeers := [],
    m_capabilities := [(("eth", 62), { messageCount := 8 })],
    m_peers := [], m_sessions := [], heap := fun _ => none, nextHandle := 0,
    m_lastPing := 0, m_reconnectnow := false, m_run := true,
    listenIPAddress := "10.0.0.1", publicIPAddress := "", listenPort := 30303,
    m_listenPort := 30303, m_ifAddresses := ["10.0.0.1", "127.0.0.1"],
    m_tcpPublic := ("10.0.0.1", 30303), m_tcpClient := ("0.0.0.0", 0),
    m_pendingPeerConns := ∅, m_connecting := 0, m_lastReconnect := 0,
    m_lastAnnouncementConnectNodes := 0 }

/-- The environment of the duplicate-peer scenario; a moved-from descriptor has
the empty name. -/
def dupEnv : Env :=
  { c_protocolVersion := 4, UserPacket := 16, isFramingAllowedForVersion := fun v => decide (v > 4),
    peerSlotsAvailable := true, now := 0, movedFrom := fun _ s => ("", s.2) }

/-- The handshake of the duplicate-peer scenario, from node `171`. -/
def dupHello : Hello :=
  { protocolVersion := 4, clientVersion := "fisco", caps := [("eth", 62)], listenPort := 30303,
    pub := 171 }

/-- The socket of the duplicate-peer scenario. -/
def dupSocket : Socket := { remoteAddress := "10.0.0.2", nodeHost := "" }

/-- How a handshake is turned away: by the failure "Disconnect self" or by a
disconnect with a reason. -/
inductive Rejection where
  | disconnectSelf
  | reason (r : DisconnectReason)
  deriving DecidableEq, Repr

/-- The six acceptance rules in the order the specification gives them: the
rejection of the first rule whose condition holds, `none` when no condition
holds. -/
def acceptanceRules (env : Env) (hello : Hello) (h : Host) : Option Rejection :=
  if hello.pub = h.id then some .disconnectSelf
  else if hello.protocolVersion < (env.c_protocolVersion + (2 ^ 32 - 1)) % 2 ^ 32 then
    some (.reason .IncompatibleProtocol)
  else if keptCaps env h hello.caps = [] then some (.reason .UselessPeer)
  else if h.pin = true ∧ hello.pub ∉ h.m_requiredPeers then some (.reason .UnexpectedIdentity)
  else if connectedSession h hello.pub = true then some (.reason .DuplicatePeer)
  else if env.peerSlotsAvailable = false then some (.reason .TooManyPeers)
  else none

/-- A host with the capabilities `eth` 62, `eth` 63 and `shh` 2 registered. -/
def capsHost : Host :=
  { dupHost with
    m_capabilities :=
      [(("eth", 62), { messageCount := 8 }), (("eth", 63), { messageCount := 17 }),
        (("shh", 2), { messageCount := 4 })] }

/-- A remote capability list: an unknown capability, two versions of `eth`,
an unsupported version of `shh` and a supported one. -/
def remoteCaps : List CapDesc := [("bzz", 1), ("eth", 62), ("eth", 63), ("shh", 3), ("shh", 2)]

/-- What `connect` takes from outside the file: `from_string` is
`boost::asio::ip::address::from_string` (`none` when it throws), and
`socketRemoteEndpoint` is what `remoteEndpoint()` of the socket just created for
an endpoint returns. -/
structure NetEnv where
  from_string : String → Option String
  socketRemoteEndpoint : NodeIPEndpoint → String × Nat

/-- How `connect` ends: it returns without an attempt, an exception of
`from_string` leaves it, or it has started `async_connect` to the endpoint. -/
inductive ConnectResult where
  | ignored
  | threw
  | attempt (ep : NodeIPEndpoint)
  deriving DecidableEq, Repr

/-- The host after `connect` and the way it ended. -/
structure ConnectOutput where
  host : Host
  result : ConnectResult

/-- The comparison `address == from_string(text)` guarded by
`!text.empty()`: `none` when `from_string` throws. -/
def equalsConfigured (env : NetEnv) (text : String) (address : String) : Option Bool :=
  if text = "" then some false
  else
    match env.from_string text with
    | none => none
    | some a => some (decide (address = a))

/-- The address part of the first test of `connect`, evaluated left to right
with the short circuit of `||`: `none` when a `from_string` that is reached
throws. -/
def isSelfAddress (env : NetEnv) (h : Host) (address : String) : Option Bool :=
  match equalsConfigured env h.listenIPAddress address with
  | none => none
  | some true => some true
  | some false =>
    match equalsConfigured env h.publicIPAddress address with
    | none => none
    | some true => some true
    | some false =>
      some (decide (address ∈ h.m_ifAddresses) || decide (address = h.m_tcpPublic.1) ||
        decide (address = h.m_tcpClient.1))

/-- Modelled from the spec: `NodeIPEndpoint::operator==` (declared in the absent
`libp2p/Common.h`): two endpoints are equal iff address and tcp port are
equal. -/
def NodeIPEndpoint.equal (a b : NodeIPEndpoint) : Bool :=
  decide (a.address = b.address) && decide (a.tcpPort = b.tcpPort)

/-- Embedding of `HostSSL::connect` up to the start of `async_connect`. The
comparison of `m_tcpPublic` with the endpoint converts the endpoint to a tcp
endpoint, its address and tcp port. -/
def connect (env : NetEnv) (ep : NodeIPEndpoint) (h : Host) : ConnectOutput :=
  if h.m_run = false then { host := h, result := .ignored }
  else
    match isSelfAddress env h ep.address with
    | none => { host := h, result := .threw }
    | some self =>
      if self = true ∧ ep.tcpPort = h.listenPort then { host := h, result := .ignored }
      else if h.m_tcpPublic = (ep.address, ep.tcpPort) then { host := h, result := .ignored }
      else
        match env.from_string h.listenIPAddress with
        | none => { host := h, result := .threw }
        | some listen =>
          if NodeIPEndpoint.equal
              { address := listen, tcpPort := h.m_listenPort, udpPort := h.m_listenPort,
                host := "" } ep then
            { host := h, result := .ignored }
          else
            match mapFind ep.name h.m_peers with
            | some p =>
              if ep.host = "" then { host := h, result := .ignored }
              else
                let p' : Peer := { p with endpoint := { p.endpoint with host := ep.host } }
                { host := { h with m_peers := mapInsert ep.name p' h.m_peers },
                  result := .ignored }
            | none =>
              if ep.address = "" then { host := h, result := .ignored }
              else if ep.name ∈ h.m_pendingPeerConns then { host := h, result := .ignored }
              else
                { host :=
                    { h with
                      m_pendingPeerConns := insert ep.name h.m_pendingPeerConns,
                      m_tcpClient := env.socketRemoteEndpoint ep },
                  result := .attempt ep }

/-- The handler of `async_connect` in `connect` when the connect failed
(`ec` set). -/
def connectRefused (ep : NodeIPEndpoint) (h : Host) : Host :=
  { h with m_pendingPeerConns := h.m_pendingPeerConns.erase ep.name }

/-- Embedding of `HostSSL::sslHandshakeClient`: the host afterwards and
whether the application handshake was launched. `error` is the result of the
TLS handshake, `startThrows` whether `handshake->start()` throws, in which case
the exception leaves the function. -/
def sslHandshakeClient (error : Bool) (startThrows : Bool) (ep : NodeIPEndpoint) (h : Host) :
    Host × Bool :=
  if error then ({ h with m_pendingPeerConns := h.m_pendingPeerConns.erase ep.name }, false)
  else if startThrows then ({ h with m_connecting := h.m_connecting + 1 }, false)
  else
    ({ h with
        m_connecting := h.m_connecting + 1,
        m_pendingPeerConns := h.m_pendingPeerConns.erase ep.name },
      true)

/-- A parser of addresses for the scenarios: every non-empty text is the
address it denotes. -/
def scenarioNet : NetEnv :=
  { from_string := fun t => if t = "" then none else some t,
    socketRemoteEndpoint := fun _ => ("0.0.0.0", 0) }

/-- The endpoint of `dupHost` itself, by its listen address. -/
def selfEndpoint : NodeIPEndpoint :=
  { address := "10.0.0.1", tcpPort := 30303, udpPort := 30303, host := "" }

/-- The endpoint of another node. -/
def otherEndpoint : NodeIPEndpoint :=
  { address := "10.0.0.2", tcpPort := 30303, udpPort := 30303, host := "" }

/-- A handshake with a protocol version that is too old. -/
def oldHello : Hello := { dupHello with protocolVersion := 1 }

/-- The value `m_capabilities[c]->messageCount()` of a registered descriptor;
0 for a descriptor without an entry. -/
def messageCountOf (h : Host) (c : CapDesc) : Nat :=
  match mapFind c h.m_capabilities with
  | some pcap => pcap.messageCount
  | none => 0

/-- A handshake from node `171` that offers `remoteCaps` with protocol version
4, for which `dupEnv` does not allow framing. -/
def capsHello : Hello := { dupHello with caps := remoteCaps }

/-- The handshake `capsHello` with protocol version 5, for which `dupEnv` allows
framing. -/
def framedHello : Hello := { capsHello with protocolVersion := 5 }

/-- A `Node`, as far as the announcement reads it: id and endpoint. -/
structure Node where
  id : NodeId
  endpoint : NodeIPEndpoint
  deriving DecidableEq, Repr

/-- The constant `c_maxAnnouncementSize`. -/
def c_maxAnnouncementSize : Nat := 100

/-- The call `std::sort(allNode.begin(), allNode.end(), cmp)` with `cmp a b`
the test `a.endpoint.name() < b.endpoint.name()`: the nodes in ascending order
of their names. Which of two nodes with the same name comes first is left open
by `std::sort`; only the names of the result are read. -/
def sortByName (l : List Node) : List Node :=
  l.insertionSort fun a b => a.endpoint.name ≤ b.endpoint.name

/-- The three statements that exchange `peerNodes[i]` and `peerNodes[r]`. -/
def swapNodes (l : List Node) (i r : Nat) : List Node :=
  match l[i]?, l[r]? with
  | some t, some x => (l.set i x).set r t
  | _, _ => l

/-- The loop `for (i = 0; i < peerNodes.size(); i++)` that exchanges the node
at `i` with the node at `rand() % peerNodes.size()`; `rand i` is the value that
`rand()` returns in round `i`. -/
def shuffleNodes (rand : Nat → Nat) : Nat → Nat → List Node → List Node
  | 0, _, l => l
  | rounds + 1, i, l => shuffleNodes rand rounds (i + 1) (swapNodes l i (rand i % l.length))

/-- The endpoint under which the host announces itself:
`NodeIPEndpoint(m_tcpPublic.address(), m_listenPort, m_listenPort)`. -/
def selfEndpointOf (h : Host) : NodeIPEndpoint :=
  { address := h.m_tcpPublic.1, tcpPort := h.m_listenPort, udpPort := h.m_listenPort, host := "" }

/-- Embedding of `HostSSL::getAnnouncementNodeList`: the hash `_allNodeHash` and
the list `_nodes`. `sha3` is the hash function of the library. -/
def getAnnouncementNodeList (sha3 : String → Nat) (rand : Nat → Nat) (h : Host) :
    Nat × List Node :=
  let peerNodes : List Node := h.m_peers.map fun e => { id := e.2.id, endpoint := e.2.endpoint }
  let allNode : List Node := peerNodes ++ [{ id := h.id, endpoint := selfEndpointOf h }]
  let allPeer : String := String.join ((sortByName allNode).map fun n => n.endpoint.name)
  (sha3 allPeer,
    if peerNodes.length < c_maxAnnouncementSize then peerNodes
    else (shuffleNodes rand peerNodes.length 0 peerNodes).take c_maxAnnouncementSize)

/-- The host `dupHost` with the peers `10.0.0.3` and `10.0.0.2` known. -/
def twoPeerHost : Host :=
  { dupHost with
    m_peers :=
      [("10.0.0.2:30303",
          { id := 171,
            endpoint := { address := "10.0.0.2", tcpPort := 30303, udpPort := 30303, host := "" },
            m_lastConnected := 0, offline := false }),
       ("10.0.0.3:30303",
          { id := 172,
            endpoint := { address := "10.0.0.3", tcpPort := 30303, udpPort := 30303, host := "" },
            m_lastConnected := 0, offline := false })] }

/-- The host `twoPeerHost` with its peers enumerated in the other order. -/
def twoPeerHostSwapped : Host :=
  { twoPeerHost with m_peers := twoPeerHost.m_peers.reverse }

/-- The constant `c_reconnectNodesIntervalSSL` (60 s) in milliseconds. -/
def c_reconnectNodesIntervalSSL : Int := 60000

/-- The constant `c_AnnouncementConnectNodesIntervalSSL` (60 s) in
milliseconds. -/
def c_AnnouncementConnectNodesIntervalSSL : Int := 60000

/-- The two statements of the inner loop of `reconnectAllNodes` that enter the
endpoint of a peer into `mMergeConnectParams`: the endpoint is stored under its
name when the name is absent, and a non-empty host name of the peer is written
to the entry. `operator[]` would create an entry with the default endpoint were
the name absent at the second statement. -/
def mergePeer (p : Peer) (merge : List (String × NodeIPEndpoint)) :
    List (String × NodeIPEndpoint) :=
  let m1 :=
    if (mapFind p.endpoint.name merge).isSome then merge
    else mapInsert p.endpoint.name p.endpoint merge
  if p.endpoint.host = "" then m1
  else
    let e : NodeIPEndpoint :=
      (mapFind p.endpoint.name m1).getD
        { address := "0.0.0.0", tcpPort := 0, udpPort := 0, host := "" }
    mapInsert p.endpoint.name { e with host := p.endpoint.host } m1

/-- The inner loop of `reconnectAllNodes` over `m_peers` for the authorized
endpoint `st`, up to the connect call: each peer visited is merged, and the loop
ends, by `break`, at the first peer whose endpoint equals `st`. The result is
the merged map and that peer. -/
def mergeUntil (st : NodeIPEndpoint) :
    List (String × Peer) → List (String × NodeIPEndpoint) →
      List (String × NodeIPEndpoint) × Option Peer
  | [], merge => (merge, none)
  | e :: rest, merge =>
    if NodeIPEndpoint.equal e.2.endpoint st then (mergePeer e.2 merge, some e.2)
    else mergeUntil st rest (mergePeer e.2 merge)

/-- The endpoint that one round of the outer loop of `reconnectAllNodes` calls
`connect` for, if any: the endpoint of the peer found when that peer has no
session; the authorized endpoint when no peer was found and it is neither
`m_tcpPublic` nor the listen endpoint. `none` is the exception of
`from_string`. -/
def reconnectTarget (env : NetEnv) (h : Host) (st : NodeIPEndpoint) (found : Option Peer) :
    Option (Option NodeIPEndpoint) :=
  match found with
  | some p =>
    if havePeerSession h.m_sessions h.heap p.id then some none else some (some p.endpoint)
  | none =>
    if h.m_tcpPublic = (st.address, st.tcpPort) then some none
    else
      match env.from_string h.listenIPAddress with
      | none => none
      | some listen =>
        if NodeIPEndpoint.equal
            { address := listen, tcpPort := h.m_listenPort, udpPort := h.m_listenPort,
              host := "" } st then
          some none
        else some (some st)

/-- The state after the outer loop of `reconnectAllNodes`: the host, the merged
map, the endpoints `connect` was called for, and whether an exception ended the
loop. -/
structure ReconnectLoop where
  host : Host
  merge : List (String × NodeIPEndpoint)
  connects : List NodeIPEndpoint
  threw : Bool

/-- The outer loop of `reconnectAllNodes` over the authorized entries, in key
order. -/
def reconnectLoop (env : NetEnv) :
    List (String × NodeIPEndpoint) → Host → List (String × NodeIPEndpoint) → ReconnectLoop
  | [], h, merge => { host := h, merge := merge, connects := [], threw := false }
  | stNode :: rest, h, merge =>
    let r := mergeUntil stNode.2 h.m_peers merge
    let merged :=
      if (mapFind stNode.2.name r.1).isSome then r.1 else mapInsert stNode.2.name stNode.2 r.1
    match reconnectTarget env h stNode.2 r.2 with
    | none => { host := h, merge := r.1, connects := [], threw := true }
    | some none => reconnectLoop env rest h merged
    | some (some ep) =>
      let o := connect env ep h
      if o.result = .threw then { host := o.host, merge := r.1, connects := [ep], threw := true }
      else
        let rr := reconnectLoop env rest o.host merged
        { rr with connects := ep :: rr.connects }

/-- What `reconnectAllNodes` does: the host afterwards, the map handed to
`updateAllConnect` (`none` when the call is not reached), the endpoints
`connect` was called for, the hash announced and the sessions it was announced
to (`none` when the announcement is not reached), and whether an exception left
the function. -/
structure ReconnectOutput where
  host : Host
  published : Option (List (String × NodeIPEndpoint))
  connects : List NodeIPEndpoint
  announced : Option (Nat × List Nat)
  threw : Bool

/-- Embedding of `HostSSL::reconnectAllNodes`. `getAllConnect` is the map that
`getAllConnect` of the connection manager fills, in key order; `t0` to `t3` are
the four readings of the clock. -/
def reconnectAllNodes (env : NetEnv) (sha3 : String → Nat) (rand : Nat → Nat)
    (getAllConnect : List (String × NodeIPEndpoint)) (t0 t1 t2 t3 : Int) (h : Host) :
    ReconnectOutput :=
  if t0 - c_reconnectNodesIntervalSSL < h.m_lastReconnect ∧ h.m_reconnectnow = false then
    { host := h, published := none, connects := [], announced := none, threw := false }
  else
    let r := reconnectLoop env getAllConnect h []
    if r.threw then
      { host := r.host, published := none, connects := r.connects, announced := none,
        threw := true }
    else
      let h1 : Host := { r.host with m_lastReconnect := t1, m_reconnectnow := false }
      if t2 - c_AnnouncementConnectNodesIntervalSSL < h1.m_lastAnnouncementConnectNodes then
        { host := h1, published := some r.merge, connects := r.connects, announced := none,
          threw := false }
      else
        let allPeerHash := (getAnnouncementNodeList sha3 rand h1).1
        let sessions := h1.m_sessions.filterMap fun e =>
          match h1.heap e.2 with
          | some j => if j.connected then some e.2 else none
          | none => none
        { host := { h1 with m_lastAnnouncementConnectNodes := t3 },
          published := some r.merge, connects := r.connects,
          announced := some (allPeerHash, sessions), threw := false }

/-- An authorized list whose only entry is the known peer `10.0.0.2`. -/
def authorizedPeer : List (String × NodeIPEndpoint) := [("10.0.0.2:30303", otherEndpoint)]

/-- The session that a keep-alive action is done to. -/
def KeepAliveAction.handle : KeepAliveAction → Nat
  | .ping n => n
  | .disconnect n _ => n

/-- No two entries of `m_sessions` hold the same session object, and every
session object in it was created before `nextHandle`. -/
def Host.handlesDistinct (h : Host) : Prop :=
  (h.m_sessions.map Prod.snd).Nodup ∧ ∀ e ∈ h.m_sessions, e.2 < h.nextHandle

/-- The action that the specification gives a connected session at a keep-alive
tick: `disconnect(PingTimeout)` when its `lastReceived` is earlier than the last
ping tick and more than the timeout has passed since that tick, a ping
otherwise. -/
def tickAction (now lastPing : Int) (n : Nat) (p : Session) : KeepAliveAction :=
  if p.lastReceived < lastPing ∧ now - lastPing > c_keepAliveTimeOutSSL then
    .disconnect n .PingTimeout
  else .ping n

/-- What a keep-alive tick does for an entry of `m_sessions`, in the words of
the specification: the action `tickAction` when the entry holds a connected
session, nothing when its pointer does not lock or the session is not
connected. -/
def entryAction (now lastPing : Int) (heap : Nat → Option Session) (e : NodeId × Nat) :
    Option KeepAliveAction :=
  match heap e.2 with
  | some p => if p.connected then some (tickAction now lastPing e.2 p) else none
  | none => none

/-- The host after the handshake `dupHello`: node `171` has a connected session
under handle 0. -/
def oneSessionHost : Host := (startPeerSession dupEnv dupHello dupSocket dupHost).host

/-- The host `oneSessionHost` after a keep-alive tick at 25 s. -/
def tickedHost : Host := (keepAlivePeers 25000 25000 oneSessionHost).1

end HostSSL

namespace ChannelRPCServer

open Cpp

/-! ## `libweb3jsonrpc/ChannelRPCServer.cpp` -/

/-- A `ChannelSession::Ptr`: the identity of a session object. -/
abbrev SessionPtr := Nat

/-- A node id (`h512`); `h512()` is `0`. -/
abbrev NodeID := Nat

/-- Modelled from the spec: the result code `REMOTE_PEER_UNAVAILIBLE` (declared
in an absent header), `100` (peer unavailable). -/
def REMOTE_PEER_UNAVAILIBLE : Nat := 100

/-- Modelled from the spec: the result code `REMOTE_CLIENT_PEER_UNAVAILBLE`
(declared in an absent header), `101` (client peer unavailable). -/
def REMOTE_CLIENT_PEER_UNAVAILBLE : Nat := 101

/-- A channel message: seq, type, result and payload bytes. -/
structure Message where
  seq : String
  type : Nat
  result : Nat
  data : List Nat
  deriving DecidableEq, Repr

/-- A session object, as far as the router reads it: `actived()` and
`topics()`. -/
structure ChannelSession where
  actived : Bool
  topics : Finset String
  deriving DecidableEq

/-- An entry of `_seq2MessageSession`. A default-constructed entry has null
sessions, zero node ids and empty sets. -/
structure ChannelMessageSession where
  fromSession : Option SessionPtr
  fromNodeID : NodeID
  toSession : Option SessionPtr
  failedSessions : Finset SessionPtr
  message : Message
  toNodeID : NodeID
  failedNodeIDs : Finset NodeID
  deriving DecidableEq

/-- The members of `ChannelRPCServer` that the router uses, and the session
objects the pointers stand for. -/
structure Router where
  _sessions : List (Nat × SessionPtr)
  _seq2session : List (String × SessionPtr)
  _seq2MessageSession : List (String × ChannelMessageSession)
  _sessionCount : Nat
  objs : SessionPtr → ChannelSession

/-- The host behind `_host.lock()` and the other calls that leave the file:
`getPeersByTopic`, whether `sendCustomMessage` to a node returns (`true`) or
throws, and the hexadecimal parser of `h512` (`none` when it throws). -/
structure Env where
  getPeersByTopic : String → List NodeID
  sendable : NodeID → Bool
  nodeIDFromHex : List Nat → Option NodeID

/-- A call that hands a message over: `asyncSendMessage` on a session, or
`sendCustomMessage` for a node (recorded also when it throws). -/
inductive Sent where
  | toSession (s : SessionPtr) (m : Message)
  | toNode (n : NodeID) (m : Message)
  deriving DecidableEq, Repr

/-- How a handler ends: it returns, an exception leaves it, or it dereferences
a null pointer or reads past the payload (undefined behaviour). -/
inductive Ending where
  | returned
  | threw
  | crashed
  deriving DecidableEq, Repr

/-- The router afterwards, the messages handed over in order, and how the
handler ended. -/
structure Output where
  router : Router
  sent : List Sent
  ending : Ending

/-- The bytes of a `std::string` as a string, a character a byte. -/
def bytesToString (bs : List Nat) : String :=
  String.mk (bs.map Char.ofNat)

/-- What the two statements that read the topic give. -/
inductive TopicRead where
  | ok (topic : String)
  | lengthError
  | outOfBounds
  deriving DecidableEq, Repr

/-- The statements `topicLen = data[0]; topic(data + 1, topicLen - 1)` on a
payload of at least one byte. A zero `topicLen` asks for a string of
`size_t(-1)` characters, which throws `std::length_error`; a `topicLen` beyond
the payload length reads past the payload. -/
def readTopic : List Nat → TopicRead
  | [] => .outOfBounds
  | topicLen :: rest =>
    if topicLen = 0 then .lengthError
    else if topicLen - 1 ≤ rest.length then .ok (bytesToString (rest.take (topicLen - 1)))
    else .outOfBounds

/-- Embedding of `ChannelRPCServer::getSessionByTopic`. -/
def getSessionByTopic (r : Router) (topic : String) : List SessionPtr :=
  (r._sessions.filter fun e =>
    !(decide ((r.objs e.2).topics = ∅) || !(r.objs e.2).actived) &&
      decide (topic ∈ (r.objs e.2).topics)).map fun e => e.2

/-- Embedding of `ChannelRPCServer::sendChannelMessageToSession`: the session
chosen and the message handed to it, or `none` for
`throw ChannelException(104, ..)`. `rnd` is the draw of the generator. -/
def sendChannelMessageToSession (r : Router) (rnd : Nat) (topic : String) (message : Message)
    (exclude : Finset SessionPtr) : Option (SessionPtr × Sent) :=
  let activedSessions := (getSessionByTopic r topic).filter fun s => decide (s ∉ exclude)
  match activedSessions[rnd % activedSessions.length]? with
  | none => none
  | some session => some (session, .toSession session message)

/-- Embedding of `ChannelRPCServer::sendChannelMessageToNode`: the node id
returned and the calls made. The `throw ChannelException(103, ..)` for an empty
candidate list and a throwing `sendCustomMessage` both end in the function's own
`catch (exception&)`, which returns `h512()`. -/
def sendChannelMessageToNode (env : Env) (rnd : Nat) (topic : String) (message : Message)
    (exclude : Finset NodeID) : NodeID × List Sent :=
  let peers := (env.getPeersByTopic topic).filter fun p => decide (p ∉ exclude)
  match peers[rnd % peers.length]? with
  | none => (0, [])
  | some targetNodeID =>
    if env.sendable targetNodeID then (targetNodeID, [.toNode targetNodeID message])
    else (0, [.toNode targetNodeID message])

/-- Embedding of `ChannelRPCServer::onClientChannelRequest`. In the `0x30`
branch nothing inside the `try` throws (`sendChannelMessageToNode` catches its
own exceptions), so its `catch`, which would answer the session with
`REMOTE_PEER_UNAVAILIBLE`, is never entered. -/
def onClientChannelRequest (env : Env) (rnd : Nat) (session : SessionPtr) (message : Message)
    (r : Router) : Output :=
  if message.data.length < 1 then { router := r, sent := [], ending := .returned }
  else
    match readTopic message.data with
    | .lengthError => { router := r, sent := [], ending := .threw }
    | .outOfBounds => { router := r, sent := [], ending := .crashed }
    | .ok topic =>
      if message.type = 0x30 then
        let entry : ChannelMessageSession :=
          match mapFind message.seq r._seq2MessageSession with
          | some e => { e with fromSession := some session }
          | none =>
            { fromSession := some session, fromNodeID := 0, toSession := none,
              failedSessions := ∅, message := message, toNodeID := 0, failedNodeIDs := ∅ }
        let res := sendChannelMessageToNode env rnd topic entry.message entry.failedNodeIDs
        let entry' : ChannelMessageSession := { entry with toNodeID := res.1 }
        { router :=
            { r with _seq2MessageSession :=
                mapInsert message.seq entry' r._seq2MessageSession },
          sent := res.2, ending := .returned }
      else if message.type = 0x31 then
        match mapFind message.seq r._seq2MessageSession with
        | none => { router := r, sent := [], ending := .returned }
        | some e =>
          if message.result ≠ 0 then
            match e.toSession with
            | none => { router := r, sent := [], ending := .crashed }
            | some failedSession =>
              let failed := insert failedSession e.failedSessions
              match sendChannelMessageToSession r rnd topic message failed with
              | some res =>
                let e' : ChannelMessageSession :=
                  { e with failedSessions := failed, toSession := some res.1 }
                { router :=
                    { r with _seq2MessageSession :=
                        mapInsert message.seq e' r._seq2MessageSession },
                  sent := [res.2], ending := .returned }
              | none =>
                let e' : ChannelMessageSession := { e with failedSessions := failed }
                let reply : Message :=
                  { message with result := REMOTE_CLIENT_PEER_UNAVAILBLE, type := 0x31 }
                { router :=
                    { r with _seq2MessageSession :=
                        mapInsert message.seq e' r._seq2MessageSession },
                  sent := [.toNode e.fromNodeID reply], ending := .returned }
          else if env.sendable e.fromNodeID then
            { router :=
                { r with _seq2MessageSession := mapErase message.seq r._seq2MessageSession },
              sent := [.toNode e.fromNodeID message], ending := .returned }
          else
            { router := r, sent := [.toNode e.fromNodeID message], ending := .returned }
      else { router := r, sent := [], ending := .returned }

/-- Embedding of `ChannelRPCServer::onNodeChannelRequest`. The whole body is
inside `try .. catch (std::exception&)`, so no exception leaves it. In the
`0x30` branch a new entry stores the pointer `message`, so what the `catch`
writes to `message` is written to the stored message as well. In the `0x31`
branch nothing inside the inner `try` throws, so its `catch`, which would
answer the session with `REMOTE_PEER_UNAVAILIBLE`, is never entered. -/
def onNodeChannelRequest (env : Env) (rnd : Nat) (nodeID : NodeID) (message : Message)
    (r : Router) : Output :=
  if message.data.length < 1 then { router := r, sent := [], ending := .returned }
  else
    match readTopic message.data with
    | .lengthError => { router := r, sent := [], ending := .returned }
    | .outOfBounds => { router := r, sent := [], ending := .crashed }
    | .ok topic =>
      if message.type = 0x30 then
        let found := mapFind message.seq r._seq2MessageSession
        let entry : ChannelMessageSession :=
          match found with
          | some e => e
          | none =>
            { fromSession := none, fromNodeID := nodeID, toSession := none,
              failedSessions := ∅, message := message, toNodeID := 0, failedNodeIDs := ∅ }
        match sendChannelMessageToSession r rnd topic message entry.failedSessions with
        | some res =>
          let entry' : ChannelMessageSession := { entry with toSession := some res.1 }
          { router :=
              { r with _seq2MessageSession :=
                  mapInsert message.seq entry' r._seq2MessageSession },
            sent := [res.2], ending := .returned }
        | none =>
          let reply : Message :=
            { message with result := REMOTE_CLIENT_PEER_UNAVAILBLE, type := 0x31 }
          let entry' : ChannelMessageSession :=
            match found with
            | some e => e
            | none => { entry with message := reply }
          { router :=
              { r with _seq2MessageSession :=
                  mapInsert message.seq entry' r._seq2MessageSession },
            sent := [.toNode nodeID reply], ending := .returned }
      else if message.type = 0x31 then
        match mapFind message.seq r._seq2MessageSession with
        | none => { router := r, sent := [], ending := .returned }
        | some e =>
          if message.result ≠ 0 then
            let failed := insert e.toNodeID e.failedNodeIDs
            let res := sendChannelMessageToNode env rnd topic e.message failed
            let e' : ChannelMessageSession :=
              { e with failedNodeIDs := failed, toNodeID := res.1 }
            { router :=
                { r with _seq2MessageSession :=
                    mapInsert message.seq e' r._seq2MessageSession },
              sent := res.2, ending := .returned }
          else
            match e.fromSession with
            | none => { router := r, sent := [], ending := .crashed }
            | some origin =>
              { router :=
                  { r with _seq2MessageSession := mapErase message.seq r._seq2MessageSession },
                sent := if (r.objs origin).actived then [.toSession origin message] else [],
                ending := .returned }
      else { router := r, sent := [], ending := .returned }

/-- The loop of `onNodeMessage` over `_sessions`: the first active session in
key order. -/
def firstActive (r : Router) : List (Nat × SessionPtr) → Option SessionPtr
  | [] => none
  | e :: rest => if (r.objs e.2).actived then some e.2 else firstActive r rest

/-- Embedding of `ChannelRPCServer::onNodeMessage`. The router state is not
changed; the result is the messages handed over. -/
def onNodeMessage (_env : Env) (nodeID : NodeID) (message : Message) (r : Router) : List Sent :=
  let bySeq : Option SessionPtr :=
    match mapFind message.seq r._seq2session with
    | some s => if (r.objs s).actived then some s else none
    | none => none
  match bySeq with
  | some s => [.toSession s message]
  | none =>
    match firstActive r r._sessions with
    | some s => [.toSession s message]
    | none =>
      if message.result = 0 then
        [.toNode nodeID
          { message with result := REMOTE_CLIENT_PEER_UNAVAILBLE, type := 0x21, data := [] }]
      else []

/-- Embedding of `ChannelRPCServer::onClientEthereumRequest`: the router
afterwards; the request body and the seq go to the dispatcher, which answers
through `SendResponse`. -/
def onClientEthereumRequest (session : SessionPtr) (message : Message) (r : Router) : Router :=
  { r with _seq2session := mapInsertNew message.seq session r._seq2session }

/-- Embedding of `ChannelRPCServer::SendResponse`; `addInfo` is the seq the
dispatcher hands back. -/
def SendResponse (response : List Nat) (addInfo : String) (r : Router) : Router × List Sent :=
  match mapFind addInfo r._seq2session with
  | some s =>
    ({ r with _seq2session := mapErase addInfo r._seq2session },
      [.toSession s { seq := addInfo, type := 0x12, result := 0, data := response }])
  | none => (r, [])

/-- Embedding of `ChannelRPCServer::onClientMessage`. -/
def onClientMessage (env : Env) (session : SessionPtr) (message : Message) (r : Router) :
    Output :=
  if message.data.length < 128 then { router := r, sent := [], ending := .returned }
  else
    match env.nodeIDFromHex (message.data.take 128) with
    | none => { router := r, sent := [], ending := .threw }
    | some nodeID =>
      let r' : Router := { r with _seq2session := mapInsert message.seq session r._seq2session }
      if env.sendable nodeID then
        { router := r', sent := [.toNode nodeID message], ending := .returned }
      else
        { router := r',
          sent := [.toNode nodeID message,
            .toSession session
              { message with type := 0x21, result := REMOTE_PEER_UNAVAILIBLE, data := [] }],
          ending := .returned }

/-- What `onClientTopicRequest` observes of the `Json::Value` that the parser
returns. For an array, each element is what `asString()` gives for it: the text
of a string (or of a null, boolean or number after conversion), or `none` for an
element that is itself an array or object, where `asString()` throws. For an
object only `size()` is observed; `other` is a null or a scalar, whose `size()`
is 0. -/
inductive JsonRoot where
  | array (items : List (Option String))
  | object (size : Nat)
  | other
  deriving DecidableEq, Repr

/-- The loop `for (i = 0; i < topicsValue.size(); ++i)
topics->insert(topicsValue[(int)i].asString())` on an array. -/
def collectTopics : List (Option String) → Option (Finset String)
  | [] => some ∅
  | none :: _ => none
  | some topic :: rest =>
    match collectTopics rest with
    | none => none
    | some topics => some (insert topic topics)

/-- The set `topics` that `onClientTopicRequest` builds from the parsed value,
`none` when an exception ends the `try` block. The loop is skipped for an empty
value and runs no iteration for a scalar; `operator[](int)` throws on a
non-empty object. -/
def topicsOfJson : JsonRoot → Option (Finset String)
  | .array items => collectTopics items
  | .object size => if size = 0 then some ∅ else none
  | .other => some ∅

/-- Embedding of `ChannelRPCServer::updateHostTopics`: the set handed to
`setTopics` of the host, the union of the topics of the sessions in
`_sessions`. -/
def updateHostTopics (r : Router) : Finset String :=
  r._sessions.foldl (fun allTopics e => allTopics ∪ (r.objs e.2).topics) ∅

/-- The call `session->setTopics(topics)`. -/
def setTopics (session : SessionPtr) (topics : Finset String) (r : Router) : Router :=
  { r with objs := fun s => if s = session then { r.objs s with topics := topics } else r.objs s }

/-- Embedding of `ChannelRPCServer::onClientTopicRequest`: the router
afterwards and the set handed to the host, `none` when `updateHostTopics` is not
reached. `parse` is the JSON parser behind `ss >> root`, `none` when it
throws. -/
def onClientTopicRequest (parse : List Nat → Option JsonRoot) (session : SessionPtr)
    (message : Message) (r : Router) : Router × Option (Finset String) :=
  match parse message.data with
  | none => (r, none)
  | some root =>
    match topicsOfJson root with
    | none => (r, none)
    | some topics => (setTopics session topics r, some (updateHostTopics (setTopics session topics r)))

/-- One loop of `onDisconnect`: the first entry, in key order, that meets the
test is erased by its key, and the loop ends there by `break`. -/
def eraseFirstMatch {κ α : Type} [DecidableEq κ] (test : κ × α → Bool) (m : List (κ × α)) :
    List (κ × α) :=
  match m.find? test with
  | some e => mapErase e.1 m
  | none => m

/-- Embedding of `ChannelRPCServer::onDisconnect`: the router afterwards and the
set that the closing `updateHostTopics` hands to the host. -/
def onDisconnect (session : SessionPtr) (r : Router) : Router × Finset String :=
  let r' : Router :=
    { r with
      _sessions := eraseFirstMatch (fun e => decide (e.2 = session)) r._sessions,
      _seq2session := eraseFirstMatch (fun e => decide (e.2 = session)) r._seq2session,
      _seq2MessageSession :=
        eraseFirstMatch
          (fun e => decide (e.2.fromSession = some session) ||
            decide (e.2.toSession = some session))
          r._seq2MessageSession }
  (r', updateHostTopics r')

/-! ### Scenarios -/

/-- A host without any peer subscribed to a topic; every send succeeds. -/
def noPeerEnv : Env :=
  { getPeersByTopic := fun _ => [], sendable := fun _ => true, nodeIDFromHex := fun _ => some 9 }

/-- A host on which node `7` alone is subscribed to every topic. -/
def onePeerEnv : Env :=
  { getPeersByTopic := fun _ => [7], sendable := fun _ => true, nodeIDFromHex := fun _ => some 9 }

/-- A router with the active SDK sessions `1` and `2`, without topics, and
empty tables. -/
def twoSessionRouter : Router :=
  { _sessions := [(1, 1), (2, 2)], _seq2session := [], _seq2MessageSession := [],
    _sessionCount := 2, objs := fun _ => { actived := true, topics := ∅ } }

/-- A router without any SDK session. -/
def noSessionRouter : Router :=
  { _sessions := [], _seq2session := [], _seq2MessageSession := [],
    _sessionCount := 0, objs := fun _ => { actived := false, topics := ∅ } }

/-- A topic request for topic `"t"` with payload `"hi"` and seq `"q"`. -/
def topicRequest : Message :=
  { seq := "q", type := 0x30, result := 0, data := [2, 116, 104, 105] }

/-- A failed topic response for topic `"t"` with seq `"q"`: result 5. -/
def failedResponse : Message :=
  { seq := "q", type := 0x31, result := 5, data := [2, 116] }

/-- A successful topic response for topic `"t"` with seq `"q"`. -/
def goodResponse : Message :=
  { seq := "q", type := 0x31, result := 0, data := [2, 116, 111, 107] }

/-- A `0x21` message with seq `"q"` that already carries an error result. -/
def errorReply : Message :=
  { seq := "q", type := 0x21, result := 5, data := [1, 2] }

/-- A `0x20` message with seq `"q"`: 128 bytes of node id and one payload
byte. -/
def chainMessage : Message :=
  { seq := "q", type := 0x20, result := 0, data := List.replicate 128 48 ++ [1] }

/-- An RPC request with seq `"q"`. -/
def rpcRequest : Message :=
  { seq := "q", type := 0x12, result := 0, data := [123, 125] }

/-- The pending entry of a topic request that SDK session `1` sent to node
`7`. -/
def sdkPending : ChannelMessageSession :=
  { fromSession := some 1, fromNodeID := 0, toSession := none, failedSessions := ∅,
    message := topicRequest, toNodeID := 7, failedNodeIDs := ∅ }

/-- A router whose only SDK session `1` is no longer active, with the topic
request `"q"` of that session pending. -/
def inactiveOriginRouter : Router :=
  { _sessions := [(1, 1)], _seq2session := [], _seq2MessageSession := [("q", sdkPending)],
    _sessionCount := 1, objs := fun _ => { actived := false, topics := ∅ } }

/-- A router whose SDK session `1` is active, with the topic request `"q"` of
that session pending. -/
def activeOriginRouter : Router :=
  { _sessions := [(1, 1)], _seq2session := [], _seq2MessageSession := [("q", sdkPending)],
    _sessionCount := 1, objs := fun _ => { actived := true, topics := ∅ } }

/-- A router whose active SDK sessions `1` and `2` are subscribed to topic
`"t"`, and whose session `3` is subscribed to it but not active. -/
def subscribedRouter : Router :=
  { _sessions := [(1, 1), (2, 2), (3, 3)], _seq2session := [], _seq2MessageSession := [],
    _sessionCount := 3,
    objs := fun s => { actived := decide (s ≠ 3), topics := {"t"} } }

/-- A topic request with seq `"q"` for topic `"t"` that arrives from a node. -/
def nodeRequest : Message :=
  { seq := "q", type := 0x30, result := 0, data := [2, 116, 1] }

/-- The pending entry of the topic request `"q"` that node `7` originated and
that was delivered to SDK session `1`. -/
def nodePending : ChannelMessageSession :=
  { fromSession := none, fromNodeID := 7, toSession := some 1, failedSessions := ∅,
    message := nodeRequest, toNodeID := 0, failedNodeIDs := ∅ }

/-- A router with the single active session `1`, subscribed to `"t"`, and the
request `"q"` of node `7` pending on it. -/
def retryRouter : Router :=
  { _sessions := [(1, 1)], _seq2session := [], _seq2MessageSession := [("q", nodePending)],
    _sessionCount := 1, objs := fun _ => { actived := true, topics := {"t"} } }

/-- A JSON parser as far as the scenarios need it: it reads the text
`["a","b"]` and takes every other payload as unparsable. -/
def scenarioParse (data : List Nat) : Option JsonRoot :=
  if data = [91, 34, 97, 34, 44, 34, 98, 34, 93] then some (.array [some "a", some "b"])
  else none

/-- A topic subscription message whose payload is the text `["a","b"]`. -/
def subscribeMessage : Message :=
  { seq := "s", type := 0x32, result := 0, data := [91, 34, 97, 34, 44, 34, 98, 34, 93] }

/-- A topic subscription message whose payload is the text `[` . -/
def brokenSubscribeMessage : Message := { seq := "s", type := 0x32, result := 0, data := [91] }

/-- A `0x30` message whose first byte announces a topic of 4 bytes while one
byte follows. -/
def truncatedRequest : Message := { seq := "q", type := 0x30, result := 0, data := [5, 116] }

/-- A `0x30` message whose first byte, the topic length, is 0. -/
def emptyTopicRequest : Message := { seq := "q", type := 0x30, result := 0, data := [0, 116] }

/-- A host on which the nodes `7` and `8` are subscribed to every topic. -/
def twoPeerEnv : Env :=
  { getPeersByTopic := fun _ => [7, 8], sendable := fun _ => true,
    nodeIDFromHex := fun _ => some 9 }

/-- The router `subscribedRouter` with the request `"q"` of node `7` pending on
session `1`. -/
def retryTwoRouter : Router :=
  { subscribedRouter with _seq2MessageSession := [("q", nodePending)] }

/-- A topic request of an SDK session with seq `"p"`. -/
def topicRequestP : Message := { topicRequest with seq := "p" }

/-- A router on which SDK session `1` has sent the messages `"a"` and `"b"` and
has the topic requests `"p"` and `"q"` pending; session `2` is idle. -/
def busyRouter : Router :=
  { _sessions := [(1, 1), (2, 2)], _seq2session := [("a", 1), ("b", 1)],
    _seq2MessageSession :=
      [("p", { sdkPending with message := topicRequestP }), ("q", sdkPending)],
    _sessionCount := 2, objs := fun _ => { actived := true, topics := ∅ } }

/-- The router that `twoSessionRouter` becomes when SDK session `1` sends two
RPC requests, with the seqs `"a"` and `"b"`, that are not answered yet, and the
topic requests `"p"` and `"q"`, which go to node `7`. -/
def busyReached : Router :=
  (onClientChannelRequest onePeerEnv 0 1 topicRequest
    (onClientChannelRequest onePeerEnv 0 1 topicRequestP
      (onClientEthereumRequest 1 { rpcRequest with seq := "b" }
        (onClientEthereumRequest 1 { rpcRequest with seq := "a" } twoSessionRouter))).router).router

end ChannelRPCServer

/-! # Theorems -/

namespace Cpp

theorem mapFind_mapInsert_self {κ α : Type} [DecidableEq κ] [LT κ]
    [DecidableRel (fun a b : κ => a < b)] (k : κ) (v : α) :
    ∀ m : List (κ × α), mapFind k (mapInsert k v m) = some v
  | [] => by simp [mapInsert, mapFind]
  | (k', v') :: rest => by
    unfold mapInsert
    by_cases h1 : k = k'
    · simp [h1, mapFind]
    · by_cases h2 : k < k'
      · simp [h1, h2, mapFind]
      · simp [h1, h2, mapFind, mapFind_mapInsert_self k v rest]

theorem mapFind_mapInsert_ne {κ α : Type} [DecidableEq κ] [LT κ]
    [DecidableRel (fun a b : κ => a < b)] (k k0 : κ) (v : α) (hne : k ≠ k0) :
    ∀ m : List (κ × α), mapFind k (mapInsert k0 v m) = mapFind k m
  | [] => by simp [mapInsert, mapFind, hne]
  | (k', v') :: rest => by
    unfold mapInsert
    by_cases h1 : k0 = k'
    · subst h1; simp [mapFind, hne]
    · by_cases h2 : k0 < k'
      · simp [h1, h2, mapFind, hne]
      · simp only [h1, h2, if_false, mapFind]
        rw [mapFind_mapInsert_ne k k0 v hne rest]

theorem mapFind_mem {κ α : Type} [DecidableEq κ] (k : κ) (v : α) :
    ∀ m : List (κ × α), mapFind k m = some v → (k, v) ∈ m
  | [], h => by simp [mapFind] at h
  | (k', v') :: rest, h => by
    unfold mapFind at h
    by_cases hk : k = k'
    · rw [if_pos hk] at h
      simp only [Option.some.injEq] at h
      subst hk; subst h
      exact List.mem_cons_self _ _
    · rw [if_neg hk] at h
      exact List.mem_cons_of_mem _ (mapFind_mem k v rest h)

theorem mapFind_mapErase_self {κ α : Type} [DecidableEq κ] (k : κ) :
    ∀ m : List (κ × α), mapFind k (mapErase k m) = none
  | [] => rfl
  | (k', v') :: rest => by
    unfold mapErase
    by_cases hk : k' = k
    · simp only [List.filter, hk, ne_eq, not_true_eq_false, decide_False]
      exact mapFind_mapErase_self k rest
    · have hk' : ¬ k = k' := fun h => hk h.symm
      simp only [List.filter, hk, ne_eq, not_false_eq_true, decide_True, mapFind, if_neg hk']
      exact mapFind_mapErase_self k rest

theorem mapFind_mapErase_ne {κ α : Type} [DecidableEq κ] (k k0 : κ) (hne : k ≠ k0) :
    ∀ m : List (κ × α), mapFind k (mapErase k0 m) = mapFind k m
  | [] => rfl
  | (k', v') :: rest => by
    unfold mapErase
    by_cases hk : k' = k0
    · have hk' : ¬ k = k' := fun h => hne (h.trans hk)
      simp only [List.filter, hk, ne_eq, not_true_eq_false, decide_False, mapFind]
      rw [← hk, if_neg hk']
      exact hk ▸ mapFind_mapErase_ne k k0 hne rest
    · simp only [List.filter, hk, ne_eq, not_false_eq_true, decide_True, mapFind]
      rw [show List.filter (fun e => decide (e.1 ≠ k0)) rest = mapErase k0 rest from rfl,
        mapFind_mapErase_ne k k0 hne rest]

end Cpp

namespace NonceCheck

theorem keysOf_nil : keysOf [] = ∅ := by simp [keysOf]

theorem keysOf_cons_some (t : Transaction) (txs : List (Option Transaction)) :
    keysOf (some t :: txs) = insert (generateKey t) (keysOf txs) := by
  simp [keysOf]

theorem insertKeys_ok : ∀ (txs : List (Option Transaction)) (c c' : Finset String),
    insertKeys txs c = .ok c' → c' = c ∪ keysOf txs ∧ ∀ x ∈ txs, x ≠ none
  | [], c, c', h => by
    simp [insertKeys] at h
    simp [keysOf_nil, h]
  | none :: txs, c, c', h => by simp [insertKeys] at h
  | some t :: txs, c, c', h => by
    simp only [insertKeys] at h
    obtain ⟨h1, h2⟩ := insertKeys_ok txs _ _ h
    refine ⟨?_, ?_⟩
    · rw [h1, keysOf_cons_some]
      ext k
      simp only [Finset.mem_union, Finset.mem_insert]
      tauto
    · intro x hx
      rcases List.mem_cons.1 hx with rfl | hx
      · simp
      · exact h2 x hx

theorem eraseKeys_ok : ∀ (txs : List (Option Transaction)) (c c' : Finset String),
    eraseKeys txs c = .ok c' → c' = c \ keysOf txs ∧ ∀ x ∈ txs, x ≠ none
  | [], c, c', h => by
    simp [eraseKeys] at h
    simp [keysOf_nil, h]
  | none :: txs, c, c', h => by simp [eraseKeys] at h
  | some t :: txs, c, c', h => by
    simp only [eraseKeys] at h
    obtain ⟨h1, h2⟩ := eraseKeys_ok txs _ _ h
    refine ⟨?_, ?_⟩
    · rw [h1, keysOf_cons_some]
      ext k
      simp only [Finset.mem_sdiff, Finset.mem_erase, Finset.mem_insert]
      tauto
    · intro x hx
      rcases List.mem_cons.1 hx with rfl | hx
      · simp
      · exact h2 x hx

theorem insertKeys_total : ∀ (txs : List (Option Transaction)) (c : Finset String),
    (∀ x ∈ txs, x ≠ none) → insertKeys txs c = .ok (c ∪ keysOf txs)
  | [], c, _ => by simp [insertKeys, keysOf_nil]
  | none :: txs, c, h => absurd rfl (h none (List.mem_cons_self _ _))
  | some t :: txs, c, h => by
    simp only [insertKeys]
    rw [insertKeys_total txs _ (fun x hx => h x (List.mem_cons_of_mem _ hx)), keysOf_cons_some]
    congr 1
    ext k
    simp only [Finset.mem_union, Finset.mem_insert]
    tauto

theorem eraseKeys_total : ∀ (txs : List (Option Transaction)) (c : Finset String),
    (∀ x ∈ txs, x ≠ none) → eraseKeys txs c = .ok (c \ keysOf txs)
  | [], c, _ => by simp [eraseKeys, keysOf_nil]
  | none :: txs, c, h => absurd rfl (h none (List.mem_cons_self _ _))
  | some t :: txs, c, h => by
    simp only [eraseKeys]
    rw [eraseKeys_total txs _ (fun x hx => h x (List.mem_cons_of_mem _ hx)), keysOf_cons_some]
    congr 1
    ext k
    simp only [Finset.mem_sdiff, Finset.mem_erase, Finset.mem_insert]
    tauto

theorem insertBlock_ok (bc : BlockChain) (i : Nat) (c c' : Finset String)
    (h : insertBlock bc i c = .ok c') : c' = c ∪ blockKeys bc i ∧ readable bc i := by
  unfold insertBlock at h
  cases hb : bc.transactions i with
  | none => rw [hb] at h; simp at h
  | some txs =>
    rw [hb] at h
    obtain ⟨h1, h2⟩ := insertKeys_ok txs c c' h
    exact ⟨by simp [blockKeys, hb, h1], txs, hb, h2⟩

theorem eraseBlock_ok (bc : BlockChain) (i : Nat) (c c' : Finset String)
    (h : eraseBlock bc i c = .ok c') : c' = c \ blockKeys bc i ∧ readable bc i := by
  unfold eraseBlock at h
  cases hb : bc.transactions i with
  | none => rw [hb] at h; simp at h
  | some txs =>
    rw [hb] at h
    obtain ⟨h1, h2⟩ := eraseKeys_ok txs c c' h
    exact ⟨by simp [blockKeys, hb, h1], txs, hb, h2⟩

theorem insertBlock_total (bc : BlockChain) (i : Nat) (c : Finset String)
    (h : readable bc i) : insertBlock bc i c = .ok (c ∪ blockKeys bc i) := by
  obtain ⟨txs, hb, hd⟩ := h
  simp [insertBlock, blockKeys, hb, insertKeys_total txs c hd]

theorem eraseBlock_total (bc : BlockChain) (i : Nat) (c : Finset String)
    (h : readable bc i) : eraseBlock bc i c = .ok (c \ blockKeys bc i) := by
  obtain ⟨txs, hb, hd⟩ := h
  simp [eraseBlock, blockKeys, hb, eraseKeys_total txs c hd]

/-- A loop that ends normally has run its body over `i, i+1, .., m-1` in order. -/
theorem forLoop_done (m : Nat) (hm : m < 2 ^ 32)
    (body : Nat → Finset String → Except (Finset String) (Finset String)) :
    ∀ (fuel i : Nat) (c c' : Finset String),
      forLoop (fun j => decide (j < m)) body fuel i c = .done c' →
      runBlocks body (List.range' i (m - i)) c = .ok c'
  | 0, i, c, c', h => by simp [forLoop] at h
  | fuel + 1, i, c, c', h => by
    unfold forLoop at h
    by_cases hi : i < m
    · simp only [hi, decide_True, if_true] at h
      have hmi : m - i = (m - (i + 1)) + 1 := by omega
      rw [hmi, List.range'_succ]
      simp only [runBlocks]
      cases hb : body i c with
      | error c1 => rw [hb] at h; simp at h
      | ok c1 =>
        rw [hb] at h
        simp only at h
        have hw : (i + 1) % 2 ^ 32 = i + 1 := Nat.mod_eq_of_lt (by omega)
        rw [hw] at h
        exact forLoop_done m hm body fuel (i + 1) c1 c' h
    · simp only [hi, decide_False] at h
      have hz : m - i = 0 := by omega
      simp at h
      simp [hz, runBlocks, h]

/-- With enough fuel the loop gives what the straight-line run of its body gives. -/
theorem forLoop_total (m : Nat) (hm : m < 2 ^ 32)
    (body : Nat → Finset String → Except (Finset String) (Finset String)) :
    ∀ (fuel i : Nat) (c c' : Finset String), m - i < fuel →
      runBlocks body (List.range' i (m - i)) c = .ok c' →
      forLoop (fun j => decide (j < m)) body fuel i c = .done c'
  | 0, i, c, c', hf, _ => by omega
  | fuel + 1, i, c, c', hf, h => by
    unfold forLoop
    by_cases hi : i < m
    · simp only [hi, decide_True, if_true]
      have hmi : m - i = (m - (i + 1)) + 1 := by omega
      rw [hmi, List.range'_succ] at h
      simp only [runBlocks] at h
      cases hb : body i c with
      | error c1 => rw [hb] at h; simp at h
      | ok c1 =>
        rw [hb] at h
        simp only at h
        have hw : (i + 1) % 2 ^ 32 = i + 1 := Nat.mod_eq_of_lt (by omega)
        simp only [hw]
        exact forLoop_total m hm body fuel (i + 1) c1 c' (by omega) h
    · have hz : m - i = 0 := by omega
      simp [hz, runBlocks] at h
      simp [hi, h]

theorem runBlocks_insert_ok (bc : BlockChain) : ∀ (n i : Nat) (c c' : Finset String),
    runBlocks (insertBlock bc) (List.range' i n) c = .ok c' →
    c' = c ∪ (Finset.Ico i (i + n)).biUnion (blockKeys bc) ∧
      ∀ j, i ≤ j → j < i + n → readable bc j
  | 0, i, c, c', h => by
    simp [runBlocks] at h
    exact ⟨by simp [h], fun j hj1 hj2 => absurd hj2 (by omega)⟩
  | n + 1, i, c, c', h => by
    rw [List.range'_succ] at h
    simp only [runBlocks] at h
    cases hb : insertBlock bc i c with
    | error c1 => rw [hb] at h; simp at h
    | ok c1 =>
      rw [hb] at h
      simp only at h
      obtain ⟨h1, h2⟩ := insertBlock_ok bc i c c1 hb
      obtain ⟨h3, h4⟩ := runBlocks_insert_ok bc n (i + 1) c1 c' h
      refine ⟨?_, ?_⟩
      · rw [h3, h1]
        ext k
        simp only [Finset.mem_union, Finset.mem_biUnion, Finset.mem_Ico]
        constructor
        · rintro ((hk | hk) | ⟨j, hj, hk⟩)
          · exact Or.inl hk
          · exact Or.inr ⟨i, ⟨le_refl _, by omega⟩, hk⟩
          · exact Or.inr ⟨j, ⟨by omega, by omega⟩, hk⟩
        · rintro (hk | ⟨j, hj, hk⟩)
          · exact Or.inl (Or.inl hk)
          · by_cases hji : j = i
            · subst hji; exact Or.inl (Or.inr hk)
            · exact Or.inr ⟨j, ⟨by omega, by omega⟩, hk⟩
      · intro j hj1 hj2
        by_cases hji : j = i
        · subst hji; exact h2
        · exact h4 j (by omega) (by omega)

theorem runBlocks_erase_ok (bc : BlockChain) : ∀ (n i : Nat) (c c' : Finset String),
    runBlocks (eraseBlock bc) (List.range' i n) c = .ok c' →
    c' = c \ (Finset.Ico i (i + n)).biUnion (blockKeys bc) ∧
      ∀ j, i ≤ j → j < i + n → readable bc j
  | 0, i, c, c', h => by
    simp [runBlocks] at h
    exact ⟨by simp [h], fun j hj1 hj2 => absurd hj2 (by omega)⟩
  | n + 1, i, c, c', h => by
    rw [List.range'_succ] at h
    simp only [runBlocks] at h
    cases hb : eraseBlock bc i c with
    | error c1 => rw [hb] at h; simp at h
    | ok c1 =>
      rw [hb] at h
      simp only at h
      obtain ⟨h1, h2⟩ := eraseBlock_ok bc i c c1 hb
      obtain ⟨h3, h4⟩ := runBlocks_erase_ok bc n (i + 1) c1 c' h
      refine ⟨?_, ?_⟩
      · rw [h3, h1]
        ext k
        simp only [Finset.mem_sdiff, Finset.mem_biUnion, Finset.mem_Ico, not_exists, not_and]
        constructor
        · rintro ⟨⟨hk, hki⟩, hrest⟩
          refine ⟨hk, fun j hj hkj => ?_⟩
          by_cases hji : j = i
          · subst hji; exact hki hkj
          · exact hrest j ⟨by omega, by omega⟩ hkj
        · rintro ⟨hk, hall⟩
          exact ⟨⟨hk, hall i ⟨le_refl _, by omega⟩⟩, fun j hj => hall j ⟨by omega, by omega⟩⟩
      · intro j hj1 hj2
        by_cases hji : j = i
        · subst hji; exact h2
        · exact h4 j (by omega) (by omega)

theorem runBlocks_insert_total (bc : BlockChain) : ∀ (n i : Nat) (c : Finset String),
    (∀ j, i ≤ j → j < i + n → readable bc j) →
    ∃ c', runBlocks (insertBlock bc) (List.range' i n) c = .ok c'
  | 0, i, c, _ => ⟨c, by simp [runBlocks]⟩
  | n + 1, i, c, h => by
    rw [List.range'_succ]
    simp only [runBlocks]
    rw [insertBlock_total bc i c (h i (le_refl _) (by omega))]
    exact runBlocks_insert_total bc n (i + 1) _ (fun j hj1 hj2 => h j (by omega) (by omega))

theorem runBlocks_erase_total (bc : BlockChain) : ∀ (n i : Nat) (c : Finset String),
    (∀ j, i ≤ j → j < i + n → readable bc j) →
    ∃ c', runBlocks (eraseBlock bc) (List.range' i n) c = .ok c'
  | 0, i, c, _ => ⟨c, by simp [runBlocks]⟩
  | n + 1, i, c, h => by
    rw [List.range'_succ]
    simp only [runBlocks]
    rw [eraseBlock_total bc i c (h i (le_refl _) (by omega))]
    exact runBlocks_erase_total bc n (i + 1) _ (fun j hj1 hj2 => h j (by omega) (by omega))

/-- The insert loop of `updateCache`, when it ends normally. -/
theorem insertLoop_done (bc : BlockChain) (e : Nat) (he : e + 1 < 2 ^ 32)
    (fuel i : Nat) (c c' : Finset String)
    (h : forLoop (fun j => decide (j ≤ e)) (insertBlock bc) fuel i c = .done c') :
    c' = c ∪ (Finset.Icc i e).biUnion (blockKeys bc) ∧ ∀ j, i ≤ j → j ≤ e → readable bc j := by
  have hc : (fun j => decide (j ≤ e)) = (fun j => decide (j < e + 1)) := by
    funext j; simp [Nat.lt_succ_iff]
  rw [hc] at h
  obtain ⟨h1, h2⟩ := runBlocks_insert_ok bc _ _ _ _ (forLoop_done (e + 1) he _ fuel i c c' h)
  refine ⟨?_, fun j hj1 hj2 => h2 j hj1 (by omega)⟩
  rw [h1]
  congr 1
  ext j
  simp only [Finset.mem_biUnion, Finset.mem_Ico, Finset.mem_Icc]
  constructor
  · rintro ⟨a, ha, hk⟩; exact ⟨a, ⟨ha.1, by omega⟩, hk⟩
  · rintro ⟨a, ha, hk⟩; exact ⟨a, ⟨ha.1, by omega⟩, hk⟩

/-- The insert loop of `updateCache` ends normally when it has the fuel and
every block it reads is readable. -/
theorem insertLoop_total (bc : BlockChain) (e : Nat) (he : e + 1 < 2 ^ 32)
    (fuel i : Nat) (c : Finset String) (hf : e + 1 - i < fuel)
    (hr : ∀ j, i ≤ j → j ≤ e → readable bc j) :
    ∃ c', forLoop (fun j => decide (j ≤ e)) (insertBlock bc) fuel i c = .done c' := by
  have hc : (fun j => decide (j ≤ e)) = (fun j => decide (j < e + 1)) := by
    funext j; simp [Nat.lt_succ_iff]
  rw [hc]
  obtain ⟨c', h⟩ := runBlocks_insert_total bc (e + 1 - i) i c
    (fun j hj1 hj2 => hr j hj1 (by omega))
  exact ⟨c', forLoop_total (e + 1) he _ fuel i c c' hf h⟩

/-- The delete loop of `updateCache`, when it ends normally. -/
theorem eraseLoop_done (bc : BlockChain) (m : Nat) (hm : m < 2 ^ 32)
    (fuel i : Nat) (c c' : Finset String)
    (h : forLoop (fun j => decide (j < m)) (eraseBlock bc) fuel i c = .done c') :
    c' = c \ (Finset.Ico i m).biUnion (blockKeys bc) ∧ ∀ j, i ≤ j → j < m → readable bc j := by
  obtain ⟨h1, h2⟩ := runBlocks_erase_ok bc _ _ _ _ (forLoop_done m hm _ fuel i c c' h)
  refine ⟨?_, fun j hj1 hj2 => h2 j hj1 (by omega)⟩
  rw [h1]
  congr 1
  ext j
  simp only [Finset.mem_biUnion, Finset.mem_Ico]
  constructor
  · rintro ⟨a, ha, hk⟩; exact ⟨a, ⟨ha.1, by omega⟩, hk⟩
  · rintro ⟨a, ha, hk⟩; exact ⟨a, ⟨ha.1, by omega⟩, hk⟩

theorem eraseLoop_total (bc : BlockChain) (m : Nat) (hm : m < 2 ^ 32)
    (fuel i : Nat) (c : Finset String) (hf : m - i < fuel)
    (hr : ∀ j, i ≤ j → j < m → readable bc j) :
    ∃ c', forLoop (fun j => decide (j < m)) (eraseBlock bc) fuel i c = .done c' := by
  obtain ⟨c', h⟩ := runBlocks_erase_total bc (m - i) i c
    (fun j hj1 hj2 => hr j hj1 (by omega))
  exact ⟨c', forLoop_total m hm _ fuel i c c' hf h⟩

/-- The window `updateCache` computes: `m_startblk = max(0, H - W)`. -/
theorem window_start (h w : Nat) : (if h > w then h - w else 0) = h - w := by
  split <;> omega

/-- What a rebuild that returns normally leaves: the new window, and the keys
of the blocks from `max(1, H - W)` to `H`. -/
theorem updateCache_rebuild_done (fuel : Nat) (bc : BlockChain) (s s' : State)
    (hH : bc.number + 1 < 2 ^ 32)
    (h : updateCache fuel bc true s = .done s') :
    s'.m_endblk = bc.number ∧ s'.m_startblk = bc.number - s.maxblocksize % 2 ^ 32 ∧
    s'.maxblocksize = s.maxblocksize ∧
    s'.m_cache = windowKeys bc (max 1 (bc.number - s.maxblocksize % 2 ^ 32)) bc.number ∧
    ∀ j, max 1 (bc.number - s.maxblocksize % 2 ^ 32) ≤ j → j ≤ bc.number → readable bc j := by
  have hmod : bc.number % 2 ^ 32 = bc.number := Nat.mod_eq_of_lt (by omega)
  simp only [updateCache, hmod, window_start, if_true] at h
  cases hl : forLoop (fun i => decide (i ≤ bc.number)) (insertBlock bc) fuel
      (max ((0 + 1) % 2 ^ 32) (bc.number - s.maxblocksize % 2 ^ 32)) ∅ with
  | outOfFuel => rw [hl] at h; simp at h
  | threw c => rw [hl] at h; simp at h
  | done c =>
    rw [hl] at h
    simp only [Outcome.done.injEq] at h
    obtain ⟨h1, h2⟩ := insertLoop_done bc bc.number hH fuel _ ∅ c hl
    have h01 : (0 + 1) % 2 ^ 32 = 1 := by norm_num
    rw [h01] at h1 h2
    subst h
    refine ⟨rfl, rfl, rfl, ?_, h2⟩
    simp [h1, windowKeys]

/-- What an incremental update that returns normally leaves. -/
theorem updateCache_incremental_done (fuel : Nat) (bc : BlockChain) (s s' : State)
    (hH : bc.number + 1 < 2 ^ 32) (he : s.m_endblk + 1 < 2 ^ 32)
    (h : updateCache fuel bc false s = .done s') :
    s'.m_endblk = bc.number ∧ s'.m_startblk = bc.number - s.maxblocksize % 2 ^ 32 ∧
    s'.maxblocksize = s.maxblocksize ∧
    s'.m_cache =
      (s.m_cache \ (Finset.Ico s.m_startblk (bc.number - s.maxblocksize % 2 ^ 32)).biUnion
        (blockKeys bc)) ∪
      windowKeys bc (max (s.m_endblk + 1) (bc.number - s.maxblocksize % 2 ^ 32)) bc.number := by
  have hmod : bc.number % 2 ^ 32 = bc.number := Nat.mod_eq_of_lt (by omega)
  have hmod2 : (s.m_endblk + 1) % 2 ^ 32 = s.m_endblk + 1 := Nat.mod_eq_of_lt he
  simp only [updateCache, hmod, window_start, Bool.false_eq_true, if_false] at h
  cases hd : forLoop (fun i => decide (i < bc.number - s.maxblocksize % 2 ^ 32)) (eraseBlock bc)
      fuel s.m_startblk s.m_cache with
  | outOfFuel => rw [hd] at h; simp at h
  | threw c => rw [hd] at h; simp at h
  | done c =>
    rw [hd] at h
    simp only [hmod2] at h
    cases hl : forLoop (fun i => decide (i ≤ bc.number)) (insertBlock bc) fuel
        (max (s.m_endblk + 1) (bc.number - s.maxblocksize % 2 ^ 32)) c with
    | outOfFuel => rw [hl] at h; simp at h
    | threw c1 => rw [hl] at h; simp at h
    | done c1 =>
      rw [hl] at h
      simp only [Outcome.done.injEq] at h
      obtain ⟨h1, _⟩ := eraseLoop_done bc _ (by omega) fuel _ _ c hd
      obtain ⟨h3, _⟩ := insertLoop_done bc bc.number hH fuel _ c c1 hl
      subst h
      refine ⟨rfl, rfl, rfl, ?_⟩
      simp [h3, h1, windowKeys]

/-- A rebuild returns normally when it has the fuel and the blocks it reads
are readable. -/
theorem updateCache_rebuild_total (fuel : Nat) (bc : BlockChain) (s : State)
    (hH : bc.number + 1 < 2 ^ 32) (hf : bc.number + 1 < fuel)
    (hr : ∀ j, 1 ≤ j → j ≤ bc.number → readable bc j) :
    ∃ s', updateCache fuel bc true s = .done s' := by
  have hmod : bc.number % 2 ^ 32 = bc.number := Nat.mod_eq_of_lt (by omega)
  simp only [updateCache, hmod, window_start, if_true]
  obtain ⟨c, hc⟩ := insertLoop_total bc bc.number hH fuel
    (max ((0 + 1) % 2 ^ 32) (bc.number - s.maxblocksize % 2 ^ 32)) ∅ (by omega)
    (fun j hj1 hj2 => hr j (by
      have h01 : (0 + 1) % 2 ^ 32 = 1 := by norm_num
      rw [h01] at hj1
      exact le_trans (le_max_left _ _) hj1) hj2)
  rw [hc]
  exact ⟨_, rfl⟩

/-- An incremental update returns normally when it has the fuel and the
blocks it reads are readable. -/
theorem updateCache_incremental_total (fuel : Nat) (bc : BlockChain) (s : State)
    (hH : bc.number + 1 < 2 ^ 32) (hf : bc.number + 1 < fuel)
    (hr : ∀ j, j ≤ bc.number → readable bc j) :
    ∃ s', updateCache fuel bc false s = .done s' := by
  have hmod : bc.number % 2 ^ 32 = bc.number := Nat.mod_eq_of_lt (by omega)
  simp only [updateCache, hmod, window_start, Bool.false_eq_true, if_false]
  obtain ⟨c, hc⟩ := eraseLoop_total bc (bc.number - s.maxblocksize % 2 ^ 32) (by omega) fuel
    s.m_startblk s.m_cache (by omega) (fun j _ hj2 => hr j (by omega))
  rw [hc]
  obtain ⟨c1, hc1⟩ := insertLoop_total bc bc.number hH fuel
    (max ((s.m_endblk + 1) % 2 ^ 32) (bc.number - s.maxblocksize % 2 ^ 32)) c (by omega)
    (fun j _ hj2 => hr j hj2)
  simp only [hc1]
  exact ⟨_, rfl⟩

/-- C2: `ok(tx, insert)` returns false exactly when the key of `tx` is in the
cache; a false result leaves the state unchanged; a true result leaves it
unchanged when `insert` is false and adds exactly the key of `tx` when `insert`
is true, after which `ok(tx, true)` returns false. -/
theorem ok_contract (s : State) (tx : Transaction) (needinsert : Bool) :
    ((ok tx needinsert s).1 = false ↔ generateKey tx ∈ s.m_cache) ∧
    ((ok tx needinsert s).1 = false → (ok tx needinsert s).2 = s) ∧
    ((ok tx needinsert s).1 = true → needinsert = false → (ok tx needinsert s).2 = s) ∧
    ((ok tx needinsert s).1 = true → needinsert = true →
      (ok tx needinsert s).2 = { s with m_cache := insert (generateKey tx) s.m_cache } ∧
      (∀ k, k ∈ (ok tx needinsert s).2.m_cache ↔ k ∈ s.m_cache ∨ k = generateKey tx) ∧
      (ok tx true (ok tx needinsert s).2).1 = false) := by
  by_cases hk : generateKey tx ∈ s.m_cache
  · simp [ok, hk]
  · cases needinsert
    · simp [ok, hk]
    · simp [ok, hk]
      intro k
      tauto

/-- C1, as stated, fails: on a chain that holds only an empty genesis block,
`init` leaves the empty cache, `ok(tx, true)` admits a pending transaction,
and the next `updateCache(chain, false)` returns normally with the key of that
transaction still cached, although no block of the window holds it. -/
theorem updateCache_keeps_admitted_key :
    init 2 genesisChain freshState = .done freshState ∧
    ok pendingTx true freshState = (true, admittedState) ∧
    updateCache 2 genesisChain false admittedState = .done admittedState ∧
    admittedState.m_cache ≠
      windowKeys genesisChain (genesisChain.number - admittedState.maxblocksize)
        genesisChain.number := by
  decide

/-- C1, amended: on a chain of height `H < 2^32 - 1` with window size
`W < 2^32`, (a) a rebuild that returns normally leaves exactly the keys of the
blocks `max(0, H - W) .. H`, whatever the prior state, provided no key comes
from block 0 or `H > W`; (b) an incremental update that returns normally leaves
exactly those keys provided the prior cache held exactly the keys of the prior
window `[s, e]`, the window has not moved backwards (`s ≤ max(0, H - W)`,
`e ≤ H`) and no key of a slid-off block `s .. max(0, H - W) - 1` occurs in a
block of the new window; and (c) with more than `H + 1` units of fuel the call
does return normally when every block up to `H` is readable. -/
theorem updateCache_window_invariant (fuel : Nat) (bc : BlockChain) (rebuild : Bool) (s : State)
    (hH : bc.number + 1 < 2 ^ 32) (hW : s.maxblocksize < 2 ^ 32)
    (hprior :
      (rebuild = true ∧ (blockKeys bc 0 = ∅ ∨ s.maxblocksize < bc.number)) ∨
      (rebuild = false ∧ s.m_startblk ≤ bc.number - s.maxblocksize ∧ s.m_endblk ≤ bc.number ∧
        s.m_cache = windowKeys bc s.m_startblk s.m_endblk ∧
        Disjoint
          ((Finset.Ico s.m_startblk (bc.number - s.maxblocksize)).biUnion (blockKeys bc))
          (windowKeys bc (bc.number - s.maxblocksize) bc.number))) :
    (∀ s', updateCache fuel bc rebuild s = .done s' →
      s'.m_cache = windowKeys bc (bc.number - s.maxblocksize) bc.number) ∧
    (bc.number + 1 < fuel → (∀ j, j ≤ bc.number → readable bc j) →
      ∃ s', updateCache fuel bc rebuild s = .done s') := by
  have hWmod : s.maxblocksize % 2 ^ 32 = s.maxblocksize := Nat.mod_eq_of_lt hW
  rcases hprior with ⟨rfl, h0⟩ | ⟨rfl, hs, he, hc, hdisj⟩
  · refine ⟨fun s' h => ?_, fun hf hr => updateCache_rebuild_total fuel bc s hH hf
      (fun j _ hj => hr j hj)⟩
    obtain ⟨_, _, _, hcache, _⟩ := updateCache_rebuild_done fuel bc s s' hH h
    rw [hcache, hWmod]
    rcases h0 with h0 | h0
    · ext k
      simp only [windowKeys, Finset.mem_biUnion, Finset.mem_Icc]
      constructor
      · rintro ⟨j, ⟨hj1, hj2⟩, hk⟩
        exact ⟨j, ⟨le_trans (le_max_right _ _) hj1, hj2⟩, hk⟩
      · rintro ⟨j, ⟨hj1, hj2⟩, hk⟩
        by_cases hj0 : j = 0
        · subst hj0; rw [h0] at hk; simp at hk
        · exact ⟨j, ⟨max_le (by omega) hj1, hj2⟩, hk⟩
    · have : max 1 (bc.number - s.maxblocksize) = bc.number - s.maxblocksize :=
        max_eq_right (by omega)
      rw [this]
  · refine ⟨fun s' h => ?_, fun hf hr => updateCache_incremental_total fuel bc s hH hf hr⟩
    obtain ⟨_, _, _, hcache⟩ := updateCache_incremental_done fuel bc s s' hH (by omega) h
    rw [hcache, hWmod, hc]
    rw [Finset.disjoint_left] at hdisj
    ext k
    simp only [windowKeys, Finset.mem_union, Finset.mem_sdiff, Finset.mem_biUnion,
      Finset.mem_Icc, Finset.mem_Ico, not_exists, not_and] at hdisj ⊢
    constructor
    · rintro (⟨⟨j, ⟨hj1, hj2⟩, hk⟩, hnot⟩ | ⟨j, ⟨hj1, hj2⟩, hk⟩)
      · refine ⟨j, ⟨?_, by omega⟩, hk⟩
        by_contra hlt
        exact hnot j ⟨hj1, by omega⟩ hk
      · exact ⟨j, ⟨le_trans (le_max_right _ _) hj1, hj2⟩, hk⟩
    · rintro ⟨j, ⟨hj1, hj2⟩, hk⟩
      by_cases hje : j ≤ s.m_endblk
      · refine Or.inl ⟨⟨j, ⟨by omega, hje⟩, hk⟩, fun i hi hki => ?_⟩
        exact hdisj ⟨i, hi, hki⟩ j ⟨hj1, hj2⟩ hk
      · exact Or.inr ⟨j, ⟨max_le (by omega) hj1, hj2⟩, hk⟩

/-- The incremental update of the sliding-window scenario meets the hypotheses
of `updateCache_window_invariant` and returns the keys of blocks 2..5. -/
theorem updateCache_window_invariant_witness :
    ∃ s', updateCache 8 (slideChain 5) false
        { m_startblk := 1, m_endblk := 4, m_cache := windowKeys (slideChain 5) 1 4,
          maxblocksize := 3 } = .done s' ∧
      s'.m_cache = windowKeys (slideChain 5) 2 5 := by
  have h := updateCache_window_invariant 8 (slideChain 5) false
    { m_startblk := 1, m_endblk := 4, m_cache := windowKeys (slideChain 5) 1 4,
      maxblocksize := 3 } (by decide) (by decide)
    (Or.inr ⟨rfl, by decide, by decide, rfl, by decide⟩)
  obtain ⟨s', hs'⟩ := h.2 (by decide) (fun j hj => ⟨[some (slideTx j)], by
    simp [slideChain]; exact hj, by simp⟩)
  exact ⟨s', hs', h.1 s' hs'⟩

/-- The keys of a readable block that holds one transaction. -/
theorem blockKeys_single (bc : BlockChain) (i : Nat) (t : Transaction)
    (h : bc.transactions i = some [some t]) : blockKeys bc i = {generateKey t} := by
  simp [blockKeys, h, keysOf]

theorem readable_single (bc : BlockChain) (i : Nat) (t : Transaction)
    (h : bc.transactions i = some [some t]) : readable bc i :=
  ⟨[some t], h, by simp⟩

/-- C3: with `W = 3` and one transaction a block with pairwise distinct keys,
`init` at height 4 returns with the cache `{k1, k2, k3, k4}`, and after block 5
is added `updateCache(chain, false)` returns with the cache `{k2, k3, k4, k5}`. -/
theorem nonce_window_slide (fuel : Nat) (t : Nat → Transaction) (bc4 bc5 : BlockChain)
    (s : State) (hfuel : 7 ≤ fuel) (hW : s.maxblocksize = 3)
    (h4 : bc4.number = 4) (hb4 : ∀ i, i ≤ 4 → bc4.transactions i = some [some (t i)])
    (h5 : bc5.number = 5) (hb5 : ∀ i, i ≤ 5 → bc5.transactions i = some [some (t i)])
    (hk : ∀ i j, i ≤ 5 → j ≤ 5 → generateKey (t i) = generateKey (t j) → i = j) :
    ∃ s4, init fuel bc4 s = .done s4 ∧
      s4.m_cache = {generateKey (t 1), generateKey (t 2), generateKey (t 3), generateKey (t 4)} ∧
      ∃ s5, updateCache fuel bc5 false s4 = .done s5 ∧
        s5.m_cache =
          {generateKey (t 2), generateKey (t 3), generateKey (t 4), generateKey (t 5)} := by
  obtain ⟨s4, hs4⟩ := updateCache_rebuild_total fuel bc4 { s with m_startblk := 0, m_endblk := 0 }
    (by rw [h4]; norm_num) (by omega)
    (fun j _ hj => readable_single bc4 j (t j) (hb4 j (by omega)))
  obtain ⟨he4, hst4, hw4, hc4, _⟩ := updateCache_rebuild_done fuel bc4 _ s4
    (by rw [h4]; norm_num) hs4
  simp only [hW, h4] at he4 hst4 hw4 hc4
  norm_num at hst4 hc4
  have hcache4 : s4.m_cache =
      {generateKey (t 1), generateKey (t 2), generateKey (t 3), generateKey (t 4)} := by
    rw [hc4]
    ext k
    simp only [windowKeys, Finset.mem_biUnion, Finset.mem_Icc, Finset.mem_insert,
      Finset.mem_singleton]
    constructor
    · rintro ⟨j, ⟨hj1, hj2⟩, hkj⟩
      rw [blockKeys_single bc4 j (t j) (hb4 j hj2), Finset.mem_singleton] at hkj
      interval_cases j <;> simp [hkj]
    · rintro (h | h | h | h)
      · exact ⟨1, by omega, by rw [blockKeys_single bc4 1 (t 1) (hb4 1 (by omega))]; simp [h]⟩
      · exact ⟨2, by omega, by rw [blockKeys_single bc4 2 (t 2) (hb4 2 (by omega))]; simp [h]⟩
      · exact ⟨3, by omega, by rw [blockKeys_single bc4 3 (t 3) (hb4 3 (by omega))]; simp [h]⟩
      · exact ⟨4, by omega, by rw [blockKeys_single bc4 4 (t 4) (hb4 4 (by omega))]; simp [h]⟩
  refine ⟨s4, hs4, hcache4, ?_⟩
  obtain ⟨s5, hs5⟩ := updateCache_incremental_total fuel bc5 s4
    (by rw [h5]; norm_num) (by omega)
    (fun j hj => readable_single bc5 j (t j) (hb5 j (by omega)))
  obtain ⟨_, _, _, hc5⟩ := updateCache_incremental_done fuel bc5 s4 s5
    (by rw [h5]; norm_num) (by rw [he4]; norm_num) hs5
  refine ⟨s5, hs5, ?_⟩
  rw [hc5, hcache4, he4, hst4, hw4, h5]
  have e1 : 5 - 3 % 2 ^ 32 = 2 := by norm_num
  have e2 : max (4 + 1) 2 = 5 := by norm_num
  rw [e1, e2]
  ext k
  simp only [windowKeys, Finset.mem_union, Finset.mem_sdiff, Finset.mem_biUnion, Finset.mem_Icc,
    Finset.mem_Ico, Finset.mem_insert, Finset.mem_singleton, not_exists, not_and]
  have hne : ∀ i j, i ≤ 5 → j ≤ 5 → i ≠ j → generateKey (t i) ≠ generateKey (t j) :=
    fun i j hi hj hij h => hij (hk i j hi hj h)
  constructor
  · rintro (⟨h, hnot⟩ | ⟨j, ⟨hj1, hj2⟩, hkj⟩)
    · rcases h with h | h | h | h
      · exact absurd (by rw [blockKeys_single bc5 1 (t 1) (hb5 1 (by omega))]; simp [h])
          (hnot 1 (by omega))
      · exact Or.inl h
      · exact Or.inr (Or.inl h)
      · exact Or.inr (Or.inr (Or.inl h))
    · have : j = 5 := by omega
      subst this
      rw [blockKeys_single bc5 5 (t 5) (hb5 5 (by omega)), Finset.mem_singleton] at hkj
      exact Or.inr (Or.inr (Or.inr hkj))
  · have hslid : ∀ i, 1 ≤ i ∧ i < 2 → ∀ m, 2 ≤ m → m ≤ 5 → k = generateKey (t m) →
        k ∉ blockKeys bc5 i := by
      rintro i ⟨hi1, hi2⟩ m hm1 hm2 hkm
      have : i = 1 := by omega
      subst this
      rw [blockKeys_single bc5 1 (t 1) (hb5 1 (by omega)), Finset.mem_singleton, hkm]
      exact hne m 1 hm2 (by omega) (by omega)
    rintro (h | h | h | h)
    · exact Or.inl ⟨Or.inr (Or.inl h), fun i hi => hslid i hi 2 (by omega) (by omega) h⟩
    · exact Or.inl ⟨Or.inr (Or.inr (Or.inl h)), fun i hi => hslid i hi 3 (by omega) (by omega) h⟩
    · exact Or.inl ⟨Or.inr (Or.inr (Or.inr h)), fun i hi => hslid i hi 4 (by omega) (by omega) h⟩
    · exact Or.inr ⟨5, by omega, by
        rw [blockKeys_single bc5 5 (t 5) (hb5 5 (by omega))]; simp [h]⟩

/-- The sliding-window scenario on concrete transactions meets the hypotheses
of `nonce_window_slide`. -/
theorem nonce_window_slide_witness :
    ∃ s4, init 8 (slideChain 4) { freshState with maxblocksize := 3 } = .done s4 ∧
      s4.m_cache = {generateKey (slideTx 1), generateKey (slideTx 2), generateKey (slideTx 3),
        generateKey (slideTx 4)} ∧
      ∃ s5, updateCache 8 (slideChain 5) false s4 = .done s5 ∧
        s5.m_cache = {generateKey (slideTx 2), generateKey (slideTx 3), generateKey (slideTx 4),
          generateKey (slideTx 5)} :=
  nonce_window_slide 8 slideTx (slideChain 4) (slideChain 5) { freshState with maxblocksize := 3 }
    (by decide) rfl rfl (fun i hi => by simp [slideChain, hi]) rfl
    (fun i hi => by simp [slideChain, hi])
    (fun i j hi hj h => by
      interval_cases i <;> interval_cases j <;>
        first
          | rfl
          | exact absurd h (by decide))

theorem keyList_succ (bc : BlockChain) (a n : Nat) :
    keyList bc a (n + 1) =
      (match bc.transactions a with
        | none => []
        | some txs => (txs.filterMap id).map generateKey) ++ keyList bc (a + 1) n := by
  simp [keyList, List.range'_succ]

theorem keyList_toFinset (bc : BlockChain) : ∀ (n a : Nat),
    (keyList bc a n).toFinset = (Finset.Ico a (a + n)).biUnion (blockKeys bc)
  | 0, a => by simp [keyList]
  | n + 1, a => by
    rw [keyList_succ, List.toFinset_append, keyList_toFinset bc n (a + 1)]
    ext k
    simp only [Finset.mem_union, Finset.mem_biUnion, Finset.mem_Ico, List.mem_toFinset]
    constructor
    · rintro (hk | ⟨j, hj, hk⟩)
      · refine ⟨a, ⟨le_refl _, by omega⟩, ?_⟩
        unfold blockKeys keysOf
        cases hb : bc.transactions a with
        | none => rw [hb] at hk; simp at hk
        | some txs => rw [hb] at hk; simpa using hk
      · exact ⟨j, ⟨by omega, by omega⟩, hk⟩
    · rintro ⟨j, hj, hk⟩
      by_cases hja : j = a
      · subst hja
        left
        unfold blockKeys keysOf at hk
        cases hb : bc.transactions j with
        | none => rw [hb] at hk; simp at hk
        | some txs => rw [hb] at hk; simpa using hk
      · exact Or.inr ⟨j, ⟨by omega, by omega⟩, hk⟩

theorem filterMap_id_length_of_decoded : ∀ (txs : List (Option Transaction)),
    (∀ x ∈ txs, x ≠ none) → (txs.filterMap id).length = txs.length
  | [], _ => rfl
  | none :: txs, h => absurd rfl (h none (List.mem_cons_self _ _))
  | some t :: txs, h => by
    simp only [List.filterMap_cons, id, List.length_cons]
    rw [filterMap_id_length_of_decoded txs (fun x hx => h x (List.mem_cons_of_mem _ hx))]

theorem keyList_length (bc : BlockChain) : ∀ (n a : Nat),
    (∀ j, a ≤ j → j < a + n → readable bc j) →
    (keyList bc a n).length = ((List.range' a n).map (txCount bc)).sum
  | 0, a, _ => by simp [keyList]
  | n + 1, a, h => by
    rw [keyList_succ, List.length_append, keyList_length bc n (a + 1)
      (fun j hj1 hj2 => h j (by omega) (by omega)), List.range'_succ, List.map_cons, List.sum_cons]
    obtain ⟨txs, hb, hd⟩ := h a (le_refl _) (by omega)
    simp only [hb, txCount, List.length_map, filterMap_id_length_of_decoded txs hd]

/-- C14, as stated, fails: with `W = 1` and `k = 0` the chain of height 1
holds one transaction in block 0 and one in block 1, with distinct keys; the
rebuild returns with one key in the cache, while the blocks `0..1` hold two
transactions. -/
theorem rebuild_skips_block_zero :
    (slideChain 1).number = 1 + 0 ∧
    (keyList (slideChain 1) 0 (1 + 1)).Nodup ∧
    updateCache 3 (slideChain 1) true { freshState with maxblocksize := 1 } =
      .done { m_startblk := 0, m_endblk := 1, m_cache := {generateKey (slideTx 1)},
              maxblocksize := 1 } ∧
    ({generateKey (slideTx 1)} : Finset String).card = 1 ∧
    ((List.range' 0 (1 + 1)).map (txCount (slideChain 1))).sum = 2 := by
  decide

/-- C14, amended: for every `k ≥ 0` and every chain of height
`H = W + k < 2^32 - 1` whose transactions in the blocks `k..W+k` have pairwise
distinct keys and whose block 0 holds no transaction when `k = 0`, a rebuild
that returns normally leaves as many keys in the cache as the blocks `k..W+k`
hold transactions; and the rebuild does return normally when it has more than
`H + 1` units of fuel and every block from 1 to `H` is readable. -/
theorem rebuild_cache_size (fuel : Nat) (bc : BlockChain) (s : State) (k : Nat)
    (hH : bc.number = s.maxblocksize + k) (hbound : bc.number + 1 < 2 ^ 32)
    (hdistinct : (keyList bc k (s.maxblocksize + 1)).Nodup)
    (hgenesis : k = 0 → bc.transactions 0 = some []) :
    (∀ s', updateCache fuel bc true s = .done s' →
      s'.m_cache.card = ((List.range' k (s.maxblocksize + 1)).map (txCount bc)).sum) ∧
    (bc.number + 1 < fuel → (∀ j, 1 ≤ j → j ≤ bc.number → readable bc j) →
      ∃ s', updateCache fuel bc true s = .done s') := by
  refine ⟨fun s' h => ?_, fun hf hr => updateCache_rebuild_total fuel bc s hbound hf hr⟩
  have hWmod : s.maxblocksize % 2 ^ 32 = s.maxblocksize := Nat.mod_eq_of_lt (by omega)
  obtain ⟨_, _, _, hcache, hread⟩ := updateCache_rebuild_done fuel bc s s' hbound h
  rw [hWmod] at hcache hread
  have hk : bc.number - s.maxblocksize = k := by omega
  rw [hk] at hcache hread
  have hreadable : ∀ j, k ≤ j → j < k + (s.maxblocksize + 1) → readable bc j := by
    intro j hj1 hj2
    by_cases hj0 : j = 0
    · subst hj0
      exact ⟨[], hgenesis (by omega), by simp⟩
    · exact hread j (max_le (by omega) hj1) (by omega)
  rw [← keyList_length bc _ _ hreadable, ← List.toFinset_card_of_nodup hdistinct,
    keyList_toFinset, hcache]
  congr 1
  ext key
  simp only [windowKeys, Finset.mem_biUnion, Finset.mem_Icc, Finset.mem_Ico]
  constructor
  · rintro ⟨j, ⟨hj1, hj2⟩, hkey⟩
    exact ⟨j, ⟨le_trans (le_max_right _ _) hj1, by omega⟩, hkey⟩
  · rintro ⟨j, ⟨hj1, hj2⟩, hkey⟩
    by_cases hj0 : j = 0
    · subst hj0
      have : blockKeys bc 0 = ∅ := by simp [blockKeys, hgenesis (by omega), keysOf]
      rw [this] at hkey
      simp at hkey
    · exact ⟨j, ⟨max_le (by omega) hj1, by omega⟩, hkey⟩

/-- The rebuild of the sliding-window scenario at height `5 = 3 + 2` meets the
hypotheses of `rebuild_cache_size` and leaves four keys. -/
theorem rebuild_cache_size_witness :
    ∃ s', updateCache 8 (slideChain 5) true { freshState with maxblocksize := 3 } = .done s' ∧
      s'.m_cache.card = 4 := by
  have h := rebuild_cache_size 8 (slideChain 5) { freshState with maxblocksize := 3 } 2
    (by decide) (by decide) (by decide) (by decide)
  obtain ⟨s', hs'⟩ := h.2 (by decide) (fun j _ hj => ⟨[some (slideTx j)], by
    simp [slideChain]; exact hj, by simp⟩)
  exact ⟨s', hs', by rw [h.1 s' hs']; decide⟩

/-- With enough fuel a loop ends normally or by a throw. -/
theorem forLoop_fuel (m : Nat) (hm : m < 2 ^ 32)
    (body : Nat → Finset String → Except (Finset String) (Finset String)) :
    ∀ (fuel i : Nat) (c : Finset String), m - i < fuel →
      forLoop (fun j => decide (j < m)) body fuel i c ≠ .outOfFuel
  | 0, i, c, hf => by omega
  | fuel + 1, i, c, hf => by
    unfold forLoop
    by_cases hi : i < m
    · simp only [hi, decide_True, if_true]
      cases hb : body i c with
      | error c1 => simp
      | ok c1 =>
        simp only
        have hw : (i + 1) % 2 ^ 32 = i + 1 := Nat.mod_eq_of_lt (by omega)
        rw [hw]
        exact forLoop_fuel m hm body fuel (i + 1) c1 (by omega)
    · simp [hi]

/-- The window that `updateCache` leaves, however it returns. -/
theorem updateCache_window (fuel : Nat) (bc : BlockChain) (rebuild : Bool) (s s' : State)
    (h : updateCache fuel bc rebuild s = .done s' ∨ updateCache fuel bc rebuild s = .threw s') :
    s'.m_endblk = bc.number % 2 ^ 32 ∧
    s'.m_startblk = bc.number % 2 ^ 32 - s.maxblocksize % 2 ^ 32 ∧
    s'.maxblocksize = s.maxblocksize := by
  unfold updateCache at h
  simp only [window_start] at h
  cases rebuild
  · simp only [Bool.false_eq_true, if_false] at h
    cases hd : forLoop (fun i => decide (i < bc.number % 2 ^ 32 - s.maxblocksize % 2 ^ 32))
        (eraseBlock bc) fuel s.m_startblk s.m_cache with
    | outOfFuel => rw [hd] at h; simp at h
    | threw c =>
      rw [hd] at h
      rcases h with h | h <;> cases h
      exact ⟨rfl, rfl, rfl⟩
    | done c =>
      rw [hd] at h
      simp only at h
      cases hl : forLoop (fun i => decide (i ≤ bc.number % 2 ^ 32)) (insertBlock bc) fuel
          (max ((s.m_endblk + 1) % 2 ^ 32) (bc.number % 2 ^ 32 - s.maxblocksize % 2 ^ 32)) c with
      | outOfFuel => rw [hl] at h; simp at h
      | threw c1 =>
        rw [hl] at h
        rcases h with h | h <;> cases h
        exact ⟨rfl, rfl, rfl⟩
      | done c1 =>
        rw [hl] at h
        rcases h with h | h <;> cases h
        exact ⟨rfl, rfl, rfl⟩
  · simp only [if_true] at h
    cases hl : forLoop (fun i => decide (i ≤ bc.number % 2 ^ 32)) (insertBlock bc) fuel
        (max ((0 + 1) % 2 ^ 32) (bc.number % 2 ^ 32 - s.maxblocksize % 2 ^ 32)) ∅ with
    | outOfFuel => rw [hl] at h; simp at h
    | threw c1 =>
      rw [hl] at h
      rcases h with h | h <;> cases h
      exact ⟨rfl, rfl, rfl⟩
    | done c1 =>
      rw [hl] at h
      rcases h with h | h <;> cases h
      exact ⟨rfl, rfl, rfl⟩

/-- With more than `H + 1` units of fuel `updateCache` returns. -/
theorem updateCache_returns (fuel : Nat) (bc : BlockChain) (rebuild : Bool) (s : State)
    (hH : bc.number + 1 < 2 ^ 32) (hf : bc.number + 1 < fuel) :
    updateCache fuel bc rebuild s ≠ .outOfFuel := by
  have hmod : bc.number % 2 ^ 32 = bc.number := Nat.mod_eq_of_lt (by omega)
  have hc : (fun j => decide (j ≤ bc.number)) = (fun j => decide (j < bc.number + 1)) := by
    funext j; simp [Nat.lt_succ_iff]
  unfold updateCache
  simp only [window_start, hmod]
  cases rebuild
  · simp only [Bool.false_eq_true, if_false]
    have hd := forLoop_fuel (bc.number - s.maxblocksize % 2 ^ 32) (by omega) (eraseBlock bc) fuel
      s.m_startblk s.m_cache (by omega)
    cases hd' : forLoop (fun i => decide (i < bc.number - s.maxblocksize % 2 ^ 32))
        (eraseBlock bc) fuel s.m_startblk s.m_cache with
    | outOfFuel => exact absurd hd' hd
    | threw c => simp
    | done c =>
      simp only
      have hl := forLoop_fuel (bc.number + 1) hH (insertBlock bc) fuel
        (max ((s.m_endblk + 1) % 2 ^ 32) (bc.number - s.maxblocksize % 2 ^ 32)) c (by omega)
      rw [hc]
      cases hl' : forLoop (fun j => decide (j < bc.number + 1)) (insertBlock bc) fuel
          (max ((s.m_endblk + 1) % 2 ^ 32) (bc.number - s.maxblocksize % 2 ^ 32)) c with
      | outOfFuel => exact absurd hl' hl
      | threw c1 => simp
      | done c1 => simp
  · simp only [if_true]
    have hl := forLoop_fuel (bc.number + 1) hH (insertBlock bc) fuel
      (max ((0 + 1) % 2 ^ 32) (bc.number - s.maxblocksize % 2 ^ 32)) ∅ (by omega)
    rw [hc]
    cases hl' : forLoop (fun j => decide (j < bc.number + 1)) (insertBlock bc) fuel
        (max ((0 + 1) % 2 ^ 32) (bc.number - s.maxblocksize % 2 ^ 32)) ∅ with
    | outOfFuel => exact absurd hl' hl
    | threw c1 => simp
    | done c1 => simp

/-- C15: on a chain of height `H < 2^32 - 1` with window size `W < 2^32`, from
every state, a call of `updateCache` or `init` with more than `H + 1` units of
fuel returns, and however it returns (normally or through the `catch`) it leaves
`m_endblk = H` and `m_startblk = max(0, H - W)`, hence `m_startblk = 0` when
`H ≤ W` and `m_endblk - m_startblk ≤ W`; `W` itself is left as it was. -/
theorem window_after_update (fuel : Nat) (bc : BlockChain) (rebuild : Bool) (s : State)
    (hH : bc.number + 1 < 2 ^ 32) (hW : s.maxblocksize < 2 ^ 32) (hf : bc.number + 1 < fuel) :
    (∃ s', (updateCache fuel bc rebuild s = .done s' ∨ updateCache fuel bc rebuild s = .threw s') ∧
      s'.m_endblk = bc.number ∧ s'.m_startblk = bc.number - s.maxblocksize ∧
      (bc.number ≤ s.maxblocksize → s'.m_startblk = 0) ∧
      s'.m_endblk - s'.m_startblk ≤ s.maxblocksize ∧ s'.maxblocksize = s.maxblocksize) ∧
    (∃ s', (init fuel bc s = .done s' ∨ init fuel bc s = .threw s') ∧
      s'.m_endblk = bc.number ∧ s'.m_startblk = bc.number - s.maxblocksize ∧
      (bc.number ≤ s.maxblocksize → s'.m_startblk = 0) ∧
      s'.m_endblk - s'.m_startblk ≤ s.maxblocksize ∧ s'.maxblocksize = s.maxblocksize) := by
  have hmod : bc.number % 2 ^ 32 = bc.number := Nat.mod_eq_of_lt (by omega)
  have hWmod : s.maxblocksize % 2 ^ 32 = s.maxblocksize := Nat.mod_eq_of_lt hW
  have key : ∀ (rb : Bool) (s0 : State), s0.maxblocksize = s.maxblocksize →
      ∃ s', (updateCache fuel bc rb s0 = .done s' ∨ updateCache fuel bc rb s0 = .threw s') ∧
        s'.m_endblk = bc.number ∧ s'.m_startblk = bc.number - s.maxblocksize ∧
        (bc.number ≤ s.maxblocksize → s'.m_startblk = 0) ∧
        s'.m_endblk - s'.m_startblk ≤ s.maxblocksize ∧ s'.maxblocksize = s.maxblocksize := by
    intro rb s0 hs0
    have hret := updateCache_returns fuel bc rb s0 hH hf
    have hex : ∃ s', updateCache fuel bc rb s0 = .done s' ∨ updateCache fuel bc rb s0 = .threw s' := by
      cases hu : updateCache fuel bc rb s0 with
      | outOfFuel => exact absurd hu hret
      | done s' => exact ⟨s', Or.inl rfl⟩
      | threw s' => exact ⟨s', Or.inr rfl⟩
    obtain ⟨s', hs'⟩ := hex
    obtain ⟨h1, h2, h3⟩ := updateCache_window fuel bc rb s0 s' hs'
    rw [hmod] at h1 h2
    rw [hs0, hWmod] at h2
    rw [hs0] at h3
    exact ⟨s', hs', h1, h2, fun hle => by omega, by omega, h3⟩
  exact ⟨key rebuild s rfl, key true { s with m_startblk := 0, m_endblk := 0 } rfl⟩

/-- The incremental update of the sliding-window scenario at height 5 with
`W = 3` meets the hypotheses of `window_after_update` and leaves the window
`[2, 5]`. -/
theorem window_after_update_witness :
    ∃ s', (updateCache 8 (slideChain 5) false { freshState with maxblocksize := 3 } = .done s' ∨
        updateCache 8 (slideChain 5) false { freshState with maxblocksize := 3 } = .threw s') ∧
      s'.m_endblk = 5 ∧ s'.m_startblk = 2 := by
  obtain ⟨s', h1, h2, h3, _⟩ := (window_after_update 8 (slideChain 5) false
    { freshState with maxblocksize := 3 } (by decide) (by decide) (by decide)).1
  exact ⟨s', h1, h2, h3⟩

/-- C16, as stated, fails: the checker holds the window `[0, 0]`, the chain
has grown to height 2 and its block 1 cannot be read; the incremental update
ends in the `catch` and the checker then holds `m_endblk = 2`, not the 0 it held
before the call. -/
theorem failed_update_moves_window :
    freshState.m_endblk = 0 ∧
    brokenChain.transactions 1 = none ∧
    updateCache 4 brokenChain false freshState =
      .threw { m_startblk := 0, m_endblk := 2, m_cache := ∅, maxblocksize := 1000 } := by
  decide

/-- C16, amended: on a chain of height `H < 2^32` with window size `W < 2^32`,
if a chain read or a transaction decode fails during the delete or insert steps
of `updateCache`, so that the call returns through its `catch`, then on return
`m_endblk = H` and `m_startblk = max(0, H - W)`: the window is the one computed
at the start of the call, not the one held before it. -/
theorem failed_update_window (fuel : Nat) (bc : BlockChain) (rebuild : Bool) (s s' : State)
    (hH : bc.number < 2 ^ 32) (hW : s.maxblocksize < 2 ^ 32)
    (hthrew : updateCache fuel bc rebuild s = .threw s') :
    s'.m_endblk = bc.number ∧ s'.m_startblk = bc.number - s.maxblocksize := by
  obtain ⟨h1, h2, _⟩ := updateCache_window fuel bc rebuild s s' (Or.inr hthrew)
  rw [Nat.mod_eq_of_lt hH] at h1 h2
  rw [Nat.mod_eq_of_lt hW] at h2
  exact ⟨h1, h2⟩

/-- The failed update on `brokenChain` meets the hypotheses of
`failed_update_window`. -/
theorem failed_update_window_witness :
    updateCache 4 brokenChain false freshState =
      .threw { m_startblk := 0, m_endblk := 2, m_cache := ∅, maxblocksize := 1000 } ∧
    (2 : Nat) = brokenChain.number ∧ (0 : Nat) = brokenChain.number - freshState.maxblocksize := by
  have h := failed_update_window 4 brokenChain false freshState
    { m_startblk := 0, m_endblk := 2, m_cache := ∅, maxblocksize := 1000 }
    (by decide) (by decide) (by decide)
  exact ⟨by decide, h.1, h.2⟩

/-- The value of a decimal digit character. -/
theorem digitChar_toNat (k : Nat) (hk : k < 10) : (Nat.digitChar k).toNat - 48 = k := by
  interval_cases k <;> rfl

/-- Reading the characters that `Nat.toDigitsCore` produces as a decimal
numeral gives the number back. -/
theorem toDigitsCore_value :
    ∀ (fuel n : Nat) (ds : List Char), n < fuel →
      (Nat.toDigitsCore 10 fuel n ds).foldl (fun a c => 10 * a + (c.toNat - 48)) 0 =
        ds.foldl (fun a c => 10 * a + (c.toNat - 48)) n
  | 0, n, ds, h => by omega
  | fuel + 1, n, ds, h => by
    unfold Nat.toDigitsCore
    simp only
    by_cases h0 : n / 10 = 0
    · rw [if_pos h0]
      have hn : n % 10 = n := Nat.mod_eq_of_lt (by omega)
      simp only [List.foldl_cons, Nat.mul_zero, Nat.zero_add]
      rw [digitChar_toNat _ (Nat.mod_lt _ (by decide)), hn]
    · rw [if_neg h0]
      rw [toDigitsCore_value fuel (n / 10) _ (by omega)]
      simp only [List.foldl_cons]
      rw [digitChar_toNat _ (Nat.mod_lt _ (by decide))]
      congr 1
      omega

/-- The decimal text of a number determines the number. -/
theorem toString_nat_injective (a b : Nat) (h : toString a = toString b) : a = b := by
  have hl : Nat.toDigits 10 a = Nat.toDigits 10 b := by
    have h' : (Nat.toDigits 10 a).asString = (Nat.toDigits 10 b).asString := h
    exact congrArg String.data h'
  have ha := toDigitsCore_value (a + 1) a [] (by omega)
  have hb := toDigitsCore_value (b + 1) b [] (by omega)
  unfold Nat.toDigits at hl
  rw [hl] at ha
  rw [ha] at hb
  simpa using hb

/-- The hexadecimal digit characters are pairwise different. -/
theorem digitChar_injective : ∀ i j : Fin 16, Nat.digitChar i.val = Nat.digitChar j.val → i = j := by
  decide

/-- No hexadecimal digit character is the underscore. -/
theorem digitChar_ne_underscore : ∀ i : Fin 16, Nat.digitChar i.val ≠ '_' := by
  decide

/-- No character of the hexadecimal text is the underscore. -/
theorem hexChars_no_underscore (bs : List (Fin 256)) : '_' ∉ hexChars bs := by
  induction bs with
  | nil => simp [hexChars]
  | cons b rest ih =>
    intro hmem
    have hmem' : '_' ∈ [Nat.digitChar (b.val / 16), Nat.digitChar (b.val % 16)] ++ hexChars rest := by
      simpa [hexChars] using hmem
    rcases List.mem_append.1 hmem' with h | h
    · simp only [List.mem_cons, List.mem_singleton, List.not_mem_nil, or_false] at h
      rcases h with h | h
      · exact digitChar_ne_underscore ⟨b.val / 16, by omega⟩ h.symm
      · exact digitChar_ne_underscore ⟨b.val % 16, by omega⟩ h.symm
    · exact ih h

/-- The hexadecimal text determines the bytes. -/
theorem hexChars_injective : ∀ bs cs : List (Fin 256), hexChars bs = hexChars cs → bs = cs
  | [], [] => fun _ => rfl
  | [], c :: cs => fun h => by simp [hexChars] at h
  | b :: bs, [] => fun h => by simp [hexChars] at h
  | b :: bs, c :: cs => fun h => by
    have h' : Nat.digitChar (b.val / 16) :: Nat.digitChar (b.val % 16) :: hexChars bs =
        Nat.digitChar (c.val / 16) :: Nat.digitChar (c.val % 16) :: hexChars cs := by
      simpa [hexChars] using h
    injection h' with h1 h2
    injection h2 with h2 h3
    have e1 := digitChar_injective ⟨b.val / 16, by omega⟩ ⟨c.val / 16, by omega⟩ h1
    have e2 := digitChar_injective ⟨b.val % 16, by omega⟩ ⟨c.val % 16, by omega⟩ h2
    have e1' : b.val / 16 = c.val / 16 := congrArg Fin.val e1
    have e2' : b.val % 16 = c.val % 16 := congrArg Fin.val e2
    have hbc : b = c := Fin.ext (by omega)
    rw [hbc, hexChars_injective bs cs h3]

/-- Two texts that agree and are split at an underscore after underscore-free
parts have the same parts. -/
theorem split_at_separator (sep : Char) :
    ∀ (l1 l2 r1 r2 : List Char), sep ∉ l1 → sep ∉ l2 →
      l1 ++ sep :: r1 = l2 ++ sep :: r2 → l1 = l2 ∧ r1 = r2
  | [], [], r1, r2, _, _, h => by
    simp only [List.nil_append, List.cons.injEq, true_and] at h
    exact ⟨rfl, h⟩
  | [], c :: l2, r1, r2, _, h2, h => by
    simp only [List.nil_append, List.cons_append, List.cons.injEq] at h
    exact absurd (h.1 ▸ List.mem_cons_self _ _) h2
  | c :: l1, [], r1, r2, h1, _, h => by
    simp only [List.nil_append, List.cons_append, List.cons.injEq] at h
    exact absurd (h.1 ▸ List.mem_cons_self _ _) h1
  | c :: l1, d :: l2, r1, r2, h1, h2, h => by
    simp only [List.cons_append, List.cons.injEq] at h
    obtain ⟨ih1, ih2⟩ := split_at_separator sep l1 l2 r1 r2
      (fun hm => h1 (List.mem_cons_of_mem _ hm)) (fun hm => h2 (List.mem_cons_of_mem _ hm)) h.2
    exact ⟨by rw [h.1, ih1], ih2⟩

/-- C27: `generateKey` is injective on the sender and the randomid: the keys of
two transactions are equal if and only if their sender addresses are equal and
their randomids are equal. Hence, once `ok` has admitted a transaction, a second
transaction whose key was not in the cache is turned away by `ok` exactly when
it has the same sender and the same randomid. -/
theorem generateKey_injective (t1 t2 : Transaction) :
    (generateKey t1 = generateKey t2 ↔ t1.sender = t2.sender ∧ t1.randomid = t2.randomid) ∧
    (∀ s : State, generateKey t2 ∉ s.m_cache →
      ((ok t2 false (ok t1 true s).2).1 = false ↔
        t1.sender = t2.sender ∧ t1.randomid = t2.randomid)) := by
  have hinj : generateKey t1 = generateKey t2 ↔
      t1.sender = t2.sender ∧ t1.randomid = t2.randomid := by
    constructor
    · intro h
      have hd : hexChars t1.sender ++ '_' :: (toString t1.randomid).data =
          hexChars t2.sender ++ '_' :: (toString t2.randomid).data := by
        have := congrArg String.data h
        simpa [generateKey, toHex, hexChars] using this
      obtain ⟨hl, hr⟩ := split_at_separator '_' _ _ _ _ (hexChars_no_underscore _)
        (hexChars_no_underscore _) hd
      exact ⟨hexChars_injective _ _ hl, toString_nat_injective _ _ (String.ext hr)⟩
    · rintro ⟨h1, h2⟩
      unfold generateKey
      rw [h1, h2]
  refine ⟨hinj, fun s hs => ?_⟩
  rw [← hinj]
  unfold ok
  by_cases h1 : generateKey t1 ∈ s.m_cache
  · simp only [h1, if_true, hs, if_false]
    constructor
    · intro h; cases h
    · intro h; rw [h] at h1; exact absurd h1 hs
  · simp only [h1, if_false, if_true, Finset.mem_insert, hs, or_false]
    by_cases he : generateKey t2 = generateKey t1
    · simp [he]
    · simp only [he, if_false]
      constructor
      · intro h; cases h
      · intro h; exact absurd h.symm he

end NonceCheck

namespace HostSSL

open Cpp

/-- C4: `sslVerifyCert` returns false for an expired certificate, returns
false for a type-1 certificate whose serial `checkCertOut` reports, and returns
`preverified` unchanged in every other case; a non-expired type-1 certificate
with a revoked serial is rejected even when `preverified` is true. -/
theorem sslVerifyCert_policy (checkCertOut : String → Bool) (preverified : Bool)
    (cert : ParseCert) :
    (cert.isExpire = true → sslVerifyCert checkCertOut preverified cert = false) ∧
    (cert.certType = 1 → checkCertOut cert.serialNumber = true →
      sslVerifyCert checkCertOut preverified cert = false) ∧
    (cert.isExpire = false → ¬(cert.certType = 1 ∧ checkCertOut cert.serialNumber = true) →
      sslVerifyCert checkCertOut preverified cert = preverified) ∧
    (cert.isExpire = false → cert.certType = 1 → checkCertOut cert.serialNumber = true →
      sslVerifyCert checkCertOut true cert = false) := by
  refine ⟨fun h => ?_, fun h1 h2 => ?_, fun h1 h2 => ?_, fun h1 h2 h3 => ?_⟩
  · simp [sslVerifyCert, h]
  · simp [sslVerifyCert, h1, h2]
  · by_cases ht : cert.certType = 1
    · have : checkCertOut cert.serialNumber = false := by
        cases hc : checkCertOut cert.serialNumber
        · rfl
        · exact absurd ⟨ht, hc⟩ h2
      simp [sslVerifyCert, h1, ht, this]
    · simp [sslVerifyCert, h1, ht]
  · simp [sslVerifyCert, h1, h2, h3]

/-- An entry that the predicate does not remove is in the registry. -/
theorem have_of_not_capRemoved (h : Host) (caps : List CapDesc) (r : CapDesc)
    (hr : ¬ capRemoved h caps r = true) : haveCapability h r = true := by
  unfold capRemoved at hr
  cases hh : haveCapability h r
  · simp [hh] at hr
  · rfl

/-- Every entry of the kept front is in the registry. -/
theorem removeIfLoop_have (h : Host) (movedFrom : CapDesc → CapDesc → CapDesc) :
    ∀ (todo out stale : List CapDesc), (∀ c ∈ out, haveCapability h c = true) →
      ∀ c ∈ removeIfLoop h movedFrom out stale todo, haveCapability h c = true
  | [], out, stale, hout => by
    simpa [removeIfLoop] using hout
  | r :: rest, out, stale, hout => by
    unfold removeIfLoop
    by_cases hr : capRemoved h (out ++ stale ++ r :: rest) r = true
    · rw [if_pos hr]
      exact removeIfLoop_have h movedFrom rest out _ hout
    · rw [if_neg hr]
      have hout' : ∀ c ∈ out ++ [r], haveCapability h c = true := by
        intro c hc
        rcases List.mem_append.1 hc with hc | hc
        · exact hout c hc
        · rw [List.mem_singleton.1 hc]
          exact have_of_not_capRemoved h _ r hr
      cases stale with
      | nil => exact removeIfLoop_have h movedFrom rest _ _ hout'
      | cons d stale' => exact removeIfLoop_have h movedFrom rest _ _ hout'

/-- Every capability that `startPeerSession` keeps is in the registry. -/
theorem keptCaps_have (env : Env) (h : Host) (caps : List CapDesc) :
    ∀ c ∈ keptCaps env h caps, haveCapability h c = true :=
  removeIfLoop_have h env.movedFrom caps [] [] (fun c hc => by simp at hc)

/-- The capability loop never meets a null capability on a list of registered
descriptors. -/
theorem assignCaps_registered (framing : Bool) (registry : List (CapDesc × HostCapabilityFace)) :
    ∀ (caps : List CapDesc) (offset cnt : Nat),
      (∀ c ∈ caps, (mapFind c registry).isSome = true) →
      (assignCaps framing registry caps offset cnt).2 = true
  | [], _, _, _ => by simp [assignCaps]
  | i :: rest, offset, cnt, h => by
    have hi := h i (List.mem_cons_self _ _)
    have hrest : ∀ c ∈ rest, (mapFind c registry).isSome = true :=
      fun c hc => h c (List.mem_cons_of_mem _ hc)
    unfold assignCaps
    cases hf : mapFind i registry with
    | none => rw [hf] at hi; simp at hi
    | some pcap =>
      cases framing
      · simp [assignCaps_registered false registry rest _ _ hrest]
      · simp [assignCaps_registered true registry rest _ _ hrest]

/-- The capability loop of `startPeerSession` never ends early. -/
theorem startPeerSession_assign (env : Env) (hello : Hello) (h : Host) :
    (assignCaps (env.isFramingAllowedForVersion hello.protocolVersion) h.m_capabilities
      (keptCaps env h hello.caps) (env.UserPacket % 2 ^ 32) 1).2 = true :=
  assignCaps_registered _ _ _ _ _ (fun c hc => keptCaps_have env h hello.caps c hc)

theorem recordPeer_sessions (env : Env) (hello : Hello) (sock : Socket) (h : Host) :
    (recordPeer env hello sock h).m_sessions = h.m_sessions ∧
    (recordPeer env hello sock h).heap = h.heap ∧
    (recordPeer env hello sock h).nextHandle = h.nextHandle ∧
    (recordPeer env hello sock h).pin = h.pin ∧
    (recordPeer env hello sock h).m_requiredPeers = h.m_requiredPeers ∧
    (recordPeer env hello sock h).m_capabilities = h.m_capabilities ∧
    (recordPeer env hello sock h).id = h.id :=
  ⟨rfl, rfl, rfl, rfl, rfl, rfl, rfl⟩

theorem connectedSession_recordPeer (env : Env) (hello : Hello) (sock : Socket) (h : Host)
    (id : NodeId) : connectedSession (recordPeer env hello sock h) id = connectedSession h id :=
  rfl

/-- The outcome of `startPeerSession`, rule by rule. -/
theorem startPeerSession_cases (env : Env) (hello : Hello) (sock : Socket) (h : Host) :
    (hello.pub = h.id →
      startPeerSession env hello sock h =
        { host := h, result := .threw "Disconnect self", capCalls := [] }) ∧
    (hello.pub ≠ h.id →
      hello.protocolVersion < (env.c_protocolVersion + (2 ^ 32 - 1)) % 2 ^ 32 →
      startPeerSession env hello sock h =
        { host := recordPeer env hello sock h, result := .disconnected .IncompatibleProtocol,
          capCalls := [] }) ∧
    (hello.pub ≠ h.id →
      ¬ hello.protocolVersion < (env.c_protocolVersion + (2 ^ 32 - 1)) % 2 ^ 32 →
      keptCaps env h hello.caps = [] →
      startPeerSession env hello sock h =
        { host := recordPeer env hello sock h, result := .disconnected .UselessPeer,
          capCalls := [] }) ∧
    (hello.pub ≠ h.id →
      ¬ hello.protocolVersion < (env.c_protocolVersion + (2 ^ 32 - 1)) % 2 ^ 32 →
      keptCaps env h hello.caps ≠ [] → (h.pin = true ∧ hello.pub ∉ h.m_requiredPeers) →
      startPeerSession env hello sock h =
        { host := recordPeer env hello sock h, result := .disconnected .UnexpectedIdentity,
          capCalls := [] }) ∧
    (hello.pub ≠ h.id →
      ¬ hello.protocolVersion < (env.c_protocolVersion + (2 ^ 32 - 1)) % 2 ^ 32 →
      keptCaps env h hello.caps ≠ [] → ¬ (h.pin = true ∧ hello.pub ∉ h.m_requiredPeers) →
      connectedSession h hello.pub = true →
      startPeerSession env hello sock h =
        { host := recordPeer env hello sock h, result := .disconnected .DuplicatePeer,
          capCalls := [] }) ∧
    (hello.pub ≠ h.id →
      ¬ hello.protocolVersion < (env.c_protocolVersion + (2 ^ 32 - 1)) % 2 ^ 32 →
      keptCaps env h hello.caps ≠ [] → ¬ (h.pin = true ∧ hello.pub ∉ h.m_requiredPeers) →
      connectedSession h hello.pub = false → env.peerSlotsAvailable = false →
      startPeerSession env hello sock h =
        { host := recordPeer env hello sock h, result := .disconnected .TooManyPeers,
          capCalls := [] }) ∧
    (hello.pub ≠ h.id →
      ¬ hello.protocolVersion < (env.c_protocolVersion + (2 ^ 32 - 1)) % 2 ^ 32 →
      keptCaps env h hello.caps ≠ [] → ¬ (h.pin = true ∧ hello.pub ∉ h.m_requiredPeers) →
      connectedSession h hello.pub = false → env.peerSlotsAvailable = true →
      startPeerSession env hello sock h =
        { host :=
            { recordPeer env hello sock h with
              m_sessions := mapInsert hello.pub h.nextHandle h.m_sessions,
              heap := heapSet h.heap h.nextHandle
                (some { id := hello.pub, nodeIPEndpoint := helloEndpoint hello sock,
                        connected := true, lastReceived := env.now }),
              nextHandle := h.nextHandle + 1 },
          result := .started h.nextHandle,
          capCalls := (assignCaps (env.isFramingAllowedForVersion hello.protocolVersion)
            h.m_capabilities (keptCaps env h hello.caps) (env.UserPacket % 2 ^ 32) 1).1 }) := by
  have hassign := startPeerSession_assign env hello h
  have hpin : ∀ (hp : ¬ (h.pin = true ∧ hello.pub ∉ h.m_requiredPeers)),
      (h.pin && !decide (hello.pub ∈ h.m_requiredPeers)) = false := by
    intro hp
    cases hpin : h.pin
    · simp
    · simp only [hpin, true_and, not_not] at hp
      simp [hp]
  have hempty : ∀ (hc : keptCaps env h hello.caps ≠ []), (keptCaps env h hello.caps).isEmpty = false := by
    intro hc
    cases hk : keptCaps env h hello.caps with
    | nil => exact absurd hk hc
    | cons a l => rfl
  refine ⟨fun h1 => ?_, fun h1 h2 => ?_, fun h1 h2 h3 => ?_, fun h1 h2 h3 h4 => ?_,
    fun h1 h2 h3 h4 h5 => ?_, fun h1 h2 h3 h4 h5 h6 => ?_, fun h1 h2 h3 h4 h5 h6 => ?_⟩
  · unfold startPeerSession
    rw [if_pos h1]
  · unfold startPeerSession
    rw [if_neg h1]
    simp only [if_pos h2]
  · unfold startPeerSession
    rw [if_neg h1]
    simp only [if_neg h2, h3, List.isEmpty_nil, if_true]
  · unfold startPeerSession
    rw [if_neg h1]
    have : (h.pin && !decide (hello.pub ∈ h.m_requiredPeers)) = true := by
      simp [h4.1, h4.2]
    simp only [if_neg h2, hempty h3, (recordPeer_sessions env hello sock h).2.2.2.1,
      (recordPeer_sessions env hello sock h).2.2.2.2.1, this, if_true, Bool.false_eq_true,
      if_false]
  · unfold startPeerSession
    rw [if_neg h1]
    simp only [if_neg h2, hempty h3, (recordPeer_sessions env hello sock h).2.2.2.1,
      (recordPeer_sessions env hello sock h).2.2.2.2.1, hpin h4, connectedSession_recordPeer,
      h5, if_true, Bool.false_eq_true, if_false]
  · unfold startPeerSession
    rw [if_neg h1]
    simp only [if_neg h2, hempty h3, (recordPeer_sessions env hello sock h).2.2.2.1,
      (recordPeer_sessions env hello sock h).2.2.2.2.1, hpin h4, connectedSession_recordPeer,
      h5, h6, Bool.not_false, if_true, Bool.false_eq_true, if_false]
  · unfold startPeerSession
    rw [if_neg h1]
    simp only [if_neg h2, hempty h3, (recordPeer_sessions env hello sock h).2.2.2.1,
      (recordPeer_sessions env hello sock h).2.2.2.2.1,
      (recordPeer_sessions env hello sock h).2.2.2.2.2.1,
      (recordPeer_sessions env hello sock h).1, (recordPeer_sessions env hello sock h).2.1,
      (recordPeer_sessions env hello sock h).2.2.1,
      hpin h4, connectedSession_recordPeer,
      h5, h6, hassign, Bool.not_true, if_true, Bool.false_eq_true, if_false]

/-- C5: `startPeerSession` ends the way the first of the six acceptance rules
whose condition holds prescribes (1 "Disconnect self", 2 IncompatibleProtocol,
3 UselessPeer, 4 UnexpectedIdentity, 5 DuplicatePeer, 6 TooManyPeers); the
session is started exactly when no condition holds, and then the session map
holds it, connected, under the remote id; otherwise the session map and the
session objects are as before. -/
theorem startPeerSession_acceptance (env : Env) (hello : Hello) (sock : Socket) (h : Host) :
    (startPeerSession env hello sock h).result =
      (match acceptanceRules env hello h with
        | some .disconnectSelf => .threw "Disconnect self"
        | some (.reason r) => .disconnected r
        | none => .started h.nextHandle) ∧
    ((∃ n, (startPeerSession env hello sock h).result = .started n) ↔
      acceptanceRules env hello h = none) ∧
    (∀ n, (startPeerSession env hello sock h).result = .started n →
      mapFind hello.pub (startPeerSession env hello sock h).host.m_sessions = some n ∧
      ∃ s, (startPeerSession env hello sock h).host.heap n = some s ∧
        s.id = hello.pub ∧ s.connected = true) ∧
    ((¬ ∃ n, (startPeerSession env hello sock h).result = .started n) →
      (startPeerSession env hello sock h).host.m_sessions = h.m_sessions ∧
      (startPeerSession env hello sock h).host.heap = h.heap) := by
  obtain ⟨c1, c2, c3, c4, c5, c6, c7⟩ := startPeerSession_cases env hello sock h
  by_cases h1 : hello.pub = h.id
  · rw [c1 h1]
    simp [acceptanceRules, h1]
  by_cases h2 : hello.protocolVersion < (env.c_protocolVersion + (2 ^ 32 - 1)) % 2 ^ 32
  · rw [c2 h1 h2]
    simp only [acceptanceRules, if_neg h1, if_pos h2]
    simp [recordPeer_sessions]
  by_cases h3 : keptCaps env h hello.caps = []
  · rw [c3 h1 h2 h3]
    simp only [acceptanceRules, if_neg h1, if_neg h2, if_pos h3]
    simp [recordPeer_sessions]
  by_cases h4 : h.pin = true ∧ hello.pub ∉ h.m_requiredPeers
  · rw [c4 h1 h2 h3 h4]
    simp only [acceptanceRules, if_neg h1, if_neg h2, if_neg h3, if_pos h4]
    simp [recordPeer_sessions]
  by_cases h5 : connectedSession h hello.pub = true
  · rw [c5 h1 h2 h3 h4 h5]
    simp only [acceptanceRules, if_neg h1, if_neg h2, if_neg h3, if_neg h4, if_pos h5]
    simp [recordPeer_sessions]
  have h5' : connectedSession h hello.pub = false := by
    cases hc : connectedSession h hello.pub
    · rfl
    · exact absurd hc h5
  by_cases h6 : env.peerSlotsAvailable = false
  · rw [c6 h1 h2 h3 h4 h5' h6]
    simp only [acceptanceRules, if_neg h1, if_neg h2, if_neg h3, if_neg h4, if_neg h5, if_pos h6]
    simp [recordPeer_sessions]
  have h6' : env.peerSlotsAvailable = true := by
    cases hc : env.peerSlotsAvailable
    · exact absurd hc h6
    · rfl
  rw [c7 h1 h2 h3 h4 h5' h6']
  simp only [acceptanceRules, if_neg h1, if_neg h2, if_neg h3, if_neg h4, if_neg h5, if_neg h6]
  refine ⟨trivial, ?_, ?_, ?_⟩
  · exact ⟨fun _ => trivial, fun _ => ⟨_, rfl⟩⟩
  · intro n hn
    simp only [StartResult.started.injEq] at hn
    subst hn
    refine ⟨mapFind_mapInsert_self _ _ _,
      { id := hello.pub, nodeIPEndpoint := helloEndpoint hello sock, connected := true,
        lastReceived := env.now }, ?_, rfl, rfl⟩
    simp [heapSet]
  · intro hno
    exact absurd ⟨_, rfl⟩ hno

/-- A session that the first keep-alive loop leaves connected was not touched
by it, and the loop creates no session object. -/
theorem keepAliveLoop_heap (now lastPing : Int) :
    ∀ (l : List (NodeId × Nat)) (heap : Nat → Option Session) (peers : List (String × Peer)),
      (∀ n s, (keepAliveLoop now lastPing l heap peers).heap n = some s → s.connected = true →
        heap n = some s) ∧
      (∀ n, heap n = none → (keepAliveLoop now lastPing l heap peers).heap n = none)
  | [], heap, peers => ⟨fun _ _ hs _ => hs, fun _ hn => hn⟩
  | (k, m) :: rest, heap, peers => by
    unfold keepAliveLoop
    cases hm : heap m with
    | none =>
      simp only
      exact keepAliveLoop_heap now lastPing rest heap peers
    | some p =>
      simp only
      by_cases hc : p.connected = true
      · rw [if_pos hc]
        by_cases ht : now - c_keepAliveTimeOutSSL > lastPing ∧ p.lastReceived < lastPing
        · rw [if_pos ht]
          obtain ⟨ih1, ih2⟩ := keepAliveLoop_heap now lastPing rest
            (heapSet heap m (some { p with connected := false })) peers
          refine ⟨fun n s hs hsc => ?_, fun n hn => ?_⟩
          · have := ih1 n s hs hsc
            unfold heapSet at this
            by_cases hnm : n = m
            · rw [if_pos hnm] at this
              simp only [Option.some.injEq] at this
              rw [← this] at hsc
              simp at hsc
            · rw [if_neg hnm] at this
              exact this
          · apply ih2
            unfold heapSet
            by_cases hnm : n = m
            · subst hnm; rw [hm] at hn; simp at hn
            · rw [if_neg hnm]; exact hn
        · rw [if_neg ht]
          exact keepAliveLoop_heap now lastPing rest heap peers
      · rw [if_neg hc]
        exact keepAliveLoop_heap now lastPing rest heap _

/-- The first keep-alive loop keeps the entry of every session it leaves
connected. -/
theorem keepAliveLoop_kept (now lastPing : Int) :
    ∀ (l : List (NodeId × Nat)) (heap : Nat → Option Session) (peers : List (String × Peer))
      (k : NodeId) (n : Nat) (s : Session),
      (keepAliveLoop now lastPing l heap peers).heap n = some s → s.connected = true →
      mapFind k l = some n → mapFind k (keepAliveLoop now lastPing l heap peers).kept = some n
  | [], heap, peers, k, n, s, _, _, hf => by simp [mapFind] at hf
  | (k0, m) :: rest, heap, peers, k, n, s, hs, hsc, hf => by
    unfold keepAliveLoop at hs ⊢
    unfold mapFind at hf
    cases hm : heap m with
    | none =>
      rw [hm] at hs
      simp only at hs ⊢
      by_cases hk : k = k0
      · rw [if_pos hk] at hf
        simp only [Option.some.injEq] at hf
        subst hf
        have := (keepAliveLoop_heap now lastPing rest heap peers).1 _ s hs hsc
        rw [hm] at this
        simp at this
      · rw [if_neg hk] at hf
        exact keepAliveLoop_kept now lastPing rest heap peers k n s hs hsc hf
    | some p =>
      rw [hm] at hs
      simp only at hs ⊢
      by_cases hc : p.connected = true
      · rw [if_pos hc] at hs ⊢
        by_cases ht : now - c_keepAliveTimeOutSSL > lastPing ∧ p.lastReceived < lastPing
        · rw [if_pos ht] at hs ⊢
          simp only at hs ⊢
          by_cases hk : k = k0
          · rw [if_pos hk] at hf
            simp only [Option.some.injEq] at hf
            subst hf
            have := (keepAliveLoop_heap now lastPing rest
              (heapSet heap m (some { p with connected := false })) peers).1 _ s hs hsc
            simp only [heapSet, if_true, Option.some.injEq] at this
            rw [← this] at hsc
            simp at hsc
          · rw [if_neg hk] at hf
            unfold mapFind
            rw [if_neg hk]
            exact keepAliveLoop_kept now lastPing rest _ peers k n s hs hsc hf
        · rw [if_neg ht] at hs ⊢
          simp only at hs ⊢
          unfold mapFind
          by_cases hk : k = k0
          · rw [if_pos hk] at hf ⊢
            exact hf
          · rw [if_neg hk] at hf ⊢
            exact keepAliveLoop_kept now lastPing rest heap peers k n s hs hsc hf
      · rw [if_neg hc] at hs ⊢
        by_cases hk : k = k0
        · rw [if_pos hk] at hf
          simp only [Option.some.injEq] at hf
          subst hf
          have := (keepAliveLoop_heap now lastPing rest heap _).1 _ s hs hsc
          rw [hm] at this
          simp only [Option.some.injEq] at this
          rw [this] at hc
          exact absurd hsc hc
        · rw [if_neg hk] at hf
          exact keepAliveLoop_kept now lastPing rest heap _ k n s hs hsc hf

theorem sessionsSound_start (env : Env) (hello : Hello) (sock : Socket) (h : Host)
    (hinv : h.sessionsSound) : (startPeerSession env hello sock h).host.sessionsSound := by
  obtain ⟨c1, c2, c3, c4, c5, c6, c7⟩ := startPeerSession_cases env hello sock h
  have hrec : (recordPeer env hello sock h).sessionsSound := hinv
  by_cases h1 : hello.pub = h.id
  · rw [c1 h1]; exact hinv
  by_cases h2 : hello.protocolVersion < (env.c_protocolVersion + (2 ^ 32 - 1)) % 2 ^ 32
  · rw [c2 h1 h2]; exact hrec
  by_cases h3 : keptCaps env h hello.caps = []
  · rw [c3 h1 h2 h3]; exact hrec
  by_cases h4 : h.pin = true ∧ hello.pub ∉ h.m_requiredPeers
  · rw [c4 h1 h2 h3 h4]; exact hrec
  by_cases h5 : connectedSession h hello.pub = true
  · rw [c5 h1 h2 h3 h4 h5]; exact hrec
  have h5' : connectedSession h hello.pub = false := by
    cases hc : connectedSession h hello.pub
    · rfl
    · exact absurd hc h5
  by_cases h6 : env.peerSlotsAvailable = false
  · rw [c6 h1 h2 h3 h4 h5' h6]; exact hrec
  have h6' : env.peerSlotsAvailable = true := by
    cases hc : env.peerSlotsAvailable
    · exact absurd hc h6
    · rfl
  rw [c7 h1 h2 h3 h4 h5' h6']
  obtain ⟨hi1, hi2⟩ := hinv
  refine ⟨fun n s hs hsc => ?_, fun n hn => ?_⟩
  · simp only [heapSet] at hs
    by_cases hn : n = h.nextHandle
    · rw [if_pos hn] at hs
      simp only [Option.some.injEq] at hs
      subst hs
      subst hn
      exact mapFind_mapInsert_self _ _ _
    · rw [if_neg hn] at hs
      have hfind := hi1 n s hs hsc
      have hne : s.id ≠ hello.pub := by
        intro heq
        rw [heq] at hfind
        have : connectedSession h hello.pub = true := by
          simp [connectedSession, hfind, hs, hsc]
        exact h5 this
      show mapFind s.id (mapInsert hello.pub h.nextHandle h.m_sessions) = some n
      rw [mapFind_mapInsert_ne _ _ _ hne]
      exact hfind
  · have hn' : h.nextHandle + 1 ≤ n := hn
    show heapSet h.heap h.nextHandle _ n = none
    simp only [heapSet]
    rw [if_neg (by omega)]
    exact hi2 n (by omega)

theorem sessionsSound_close (n : Nat) (h : Host) (hinv : h.sessionsSound) :
    (closeSession n h).sessionsSound := by
  obtain ⟨hi1, hi2⟩ := hinv
  unfold closeSession
  cases hn : h.heap n with
  | none => exact ⟨hi1, hi2⟩
  | some s0 =>
    refine ⟨fun m s hs hsc => ?_, fun m hm => ?_⟩
    · simp only [heapSet] at hs
      by_cases hmn : m = n
      · rw [if_pos hmn] at hs
        simp only [Option.some.injEq] at hs
        rw [← hs] at hsc
        simp at hsc
      · rw [if_neg hmn] at hs
        exact hi1 m s hs hsc
    · show heapSet h.heap n _ m = none
      simp only [heapSet]
      by_cases hmn : m = n
      · subst hmn
        have := hi2 m hm
        rw [hn] at this
        simp at this
      · rw [if_neg hmn]; exact hi2 m hm

theorem sessionsSound_destroy (n : Nat) (h : Host) (hinv : h.sessionsSound) :
    (destroySession n h).sessionsSound := by
  obtain ⟨hi1, hi2⟩ := hinv
  refine ⟨fun m s hs hsc => ?_, fun m hm => ?_⟩
  · simp only [destroySession, heapSet] at hs
    by_cases hmn : m = n
    · rw [if_pos hmn] at hs; simp at hs
    · rw [if_neg hmn] at hs
      exact hi1 m s hs hsc
  · show heapSet h.heap n none m = none
    simp only [heapSet]
    by_cases hmn : m = n
    · rw [if_pos hmn]
    · rw [if_neg hmn]; exact hi2 m hm

theorem sessionsSound_keepAlive (now now' : Int) (h : Host) (hinv : h.sessionsSound) :
    (keepAlivePeers now now' h).1.sessionsSound := by
  obtain ⟨hi1, hi2⟩ := hinv
  unfold keepAlivePeers
  by_cases hc : now - c_keepAliveIntervalSSL < h.m_lastPing ∧ h.m_reconnectnow = false
  · rw [if_pos hc]; exact ⟨hi1, hi2⟩
  · rw [if_neg hc]
    obtain ⟨hh1, hh2⟩ := keepAliveLoop_heap now h.m_lastPing h.m_sessions h.heap h.m_peers
    refine ⟨fun n s hs hsc => ?_, fun n hn => ?_⟩
    · exact keepAliveLoop_kept now h.m_lastPing h.m_sessions h.heap h.m_peers s.id n s hs hsc
        (hi1 n s (hh1 n s hs hsc) hsc)
    · exact hh2 n (hi2 n hn)

theorem sessionsSound_doneWorking (h : Host) (hinv : h.sessionsSound) :
    (doneWorking h).sessionsSound := by
  obtain ⟨hi1, hi2⟩ := hinv
  refine ⟨fun n s hs hsc => ?_, fun n hn => ?_⟩
  · exfalso
    simp only [doneWorking] at hs
    cases hn : h.heap n with
    | none => rw [hn] at hs; simp at hs
    | some s0 =>
      rw [hn] at hs
      simp only at hs
      by_cases hany : h.m_sessions.any (fun e => decide (e.2 = n)) = true
      · rw [if_pos hany] at hs
        simp only [Option.some.injEq] at hs
        rw [← hs] at hsc
        simp at hsc
      · rw [if_neg hany] at hs
        simp only [Option.some.injEq] at hs
        subst hs
        apply hany
        rw [List.any_eq_true]
        exact ⟨(s0.id, n), mapFind_mem _ _ _ (hi1 n s0 hn hsc), by simp⟩
  · show (match h.heap n with
      | none => none
      | some s =>
        if h.m_sessions.any (fun e => decide (e.2 = n)) then some { s with connected := false }
        else some s) = none
    rw [hi2 n hn]

/-- Every reachable host state is sound. -/
theorem reachable_sessionsSound (h : Host) (hr : Reachable h) : h.sessionsSound := by
  induction hr with
  | fresh h hf =>
    exact ⟨fun n s hs _ => by rw [hf.2 n] at hs; simp at hs, fun n _ => hf.2 n⟩
  | start h env hello sock _ ih => exact sessionsSound_start env hello sock h ih
  | close h n _ ih => exact sessionsSound_close n h ih
  | destroy h n _ ih => exact sessionsSound_destroy n h ih
  | keepAlive h now now' _ ih => exact sessionsSound_keepAlive now now' h ih
  | stop h _ ih => exact sessionsSound_doneWorking h ih

/-- C6: when the session map holds a connected session for node id `N`, a
further `startPeerSession` for `N` that passes rules 1 to 4 ends with
`disconnect(DuplicatePeer)` and leaves the map entry for `N` and the existing
session as they were; and in every reachable host state two connected sessions
with the same node id are the same session. -/
theorem duplicate_peer_rejected :
    (∀ (env : Env) (hello : Hello) (sock : Socket) (h : Host) (n : Nat) (s : Session),
      mapFind hello.pub h.m_sessions = some n → h.heap n = some s → s.connected = true →
      hello.pub ≠ h.id →
      ¬ hello.protocolVersion < (env.c_protocolVersion + (2 ^ 32 - 1)) % 2 ^ 32 →
      keptCaps env h hello.caps ≠ [] →
      ¬ (h.pin = true ∧ hello.pub ∉ h.m_requiredPeers) →
      (startPeerSession env hello sock h).result = .disconnected .DuplicatePeer ∧
      mapFind hello.pub (startPeerSession env hello sock h).host.m_sessions = some n ∧
      (startPeerSession env hello sock h).host.heap n = some s) ∧
    (∀ h : Host, Reachable h → ∀ (n1 n2 : Nat) (s1 s2 : Session),
      h.heap n1 = some s1 → h.heap n2 = some s2 → s1.connected = true → s2.connected = true →
      s1.id = s2.id → n1 = n2) := by
  refine ⟨fun env hello sock h n s hf hs hsc h1 h2 h3 h4 => ?_, fun h hr n1 n2 s1 s2 e1 e2 c1 c2 hid => ?_⟩
  · have h5 : connectedSession h hello.pub = true := by
      simp [connectedSession, hf, hs, hsc]
    rw [(startPeerSession_cases env hello sock h).2.2.2.2.1 h1 h2 h3 h4 h5]
    exact ⟨rfl, hf, hs⟩
  · obtain ⟨hi1, _⟩ := reachable_sessionsSound h hr
    have f1 := hi1 n1 s1 e1 c1
    have f2 := hi1 n2 s2 e2 c2
    rw [hid, f2] at f1
    simp only [Option.some.injEq] at f1
    exact f1.symm

/-- The duplicate-peer scenario: the first handshake of node `171` is
accepted, the second one meets the hypotheses of `duplicate_peer_rejected` and
is turned away with the first session still in the map. -/
theorem duplicate_peer_rejected_witness :
    (startPeerSession dupEnv dupHello dupSocket dupHost).result = .started 0 ∧
    (startPeerSession dupEnv dupHello dupSocket
      (startPeerSession dupEnv dupHello dupSocket dupHost).host).result =
        .disconnected .DuplicatePeer ∧
    mapFind 171 (startPeerSession dupEnv dupHello dupSocket
      (startPeerSession dupEnv dupHello dupSocket dupHost).host).host.m_sessions = some 0 := by
  have h := duplicate_peer_rejected.1 dupEnv dupHello dupSocket
    (startPeerSession dupEnv dupHello dupSocket dupHost).host 0
    { id := 171, nodeIPEndpoint := helloEndpoint dupHello dupSocket, connected := true,
      lastReceived := 0 }
    (by decide) (by decide) rfl (by decide) (by decide) (by decide) (by decide)
  exact ⟨by decide, h.1, h.2.1⟩

/-- Among the entries of a list that satisfy a test, one has the highest
version. -/
theorem exists_max_version (p : CapDesc → Prop) : ∀ (l : List CapDesc), (∃ o ∈ l, p o) →
    ∃ o ∈ l, p o ∧ ∀ o' ∈ l, p o' → o'.2 ≤ o.2
  | [], h => by simp at h
  | a :: t, h => by
    by_cases ht : ∃ o ∈ t, p o
    · obtain ⟨m, hm, hpm, hmax⟩ := exists_max_version p t ht
      by_cases hpa : p a
      · by_cases hle : a.2 ≤ m.2
        · refine ⟨m, List.mem_cons_of_mem _ hm, hpm, fun o' ho' hpo' => ?_⟩
          rcases List.mem_cons.1 ho' with rfl | ho'
          · exact hle
          · exact hmax o' ho' hpo'
        · refine ⟨a, List.mem_cons_self _ _, hpa, fun o' ho' hpo' => ?_⟩
          rcases List.mem_cons.1 ho' with rfl | ho'
          · exact le_refl _
          · exact le_trans (hmax o' ho' hpo') (by omega)
      · refine ⟨m, List.mem_cons_of_mem _ hm, hpm, fun o' ho' hpo' => ?_⟩
        rcases List.mem_cons.1 ho' with rfl | ho'
        · exact absurd hpo' hpa
        · exact hmax o' ho' hpo'
    · obtain ⟨o, ho, hpo⟩ := h
      rcases List.mem_cons.1 ho with rfl | ho
      · refine ⟨o, List.mem_cons_self _ _, hpo, fun o' ho' hpo' => ?_⟩
        rcases List.mem_cons.1 ho' with rfl | ho'
        · exact le_refl _
        · exact absurd ⟨o', ho', hpo'⟩ ht
      · exact absurd ⟨o, ho, hpo⟩ ht

/-- The predicate of the `remove_if` in words. -/
theorem capRemoved_iff (h : Host) (l : List CapDesc) (r : CapDesc) :
    capRemoved h l r = true ↔
      haveCapability h r = false ∨
        ∃ o ∈ l, r.1 = o.1 ∧ r.2 < o.2 ∧ haveCapability h o = true := by
  unfold capRemoved
  simp only [Bool.or_eq_true, Bool.not_eq_true', List.any_eq_true, Bool.and_eq_true,
    decide_eq_true_eq, gt_iff_lt, and_assoc]

/-- While the vector is rearranged the predicate gives what it gives on the
vector as received, provided every stale place that holds a registered
capability holds an entry of the vector as received. -/
theorem capRemoved_rearranged (h : Host) (caps done out stale rest : List CapDesc) (r : CapDesc)
    (hcaps : caps = done ++ r :: rest)
    (hout : out = done.filter fun c => !capRemoved h caps c)
    (hstale : ∀ o ∈ stale, haveCapability h o = true → o ∈ caps) :
    capRemoved h (out ++ stale ++ r :: rest) r = capRemoved h caps r := by
  rw [Bool.eq_iff_iff, capRemoved_iff, capRemoved_iff]
  constructor
  · rintro (hr | ⟨o, ho, h1, h2, h3⟩)
    · exact Or.inl hr
    · refine Or.inr ⟨o, ?_, h1, h2, h3⟩
      rcases List.mem_append.1 ho with ho | ho
      · rcases List.mem_append.1 ho with ho | ho
        · rw [hout] at ho
          rw [hcaps]
          exact List.mem_append_left _ (List.mem_filter.1 ho).1
        · exact hstale o ho h3
      · rw [hcaps]
        exact List.mem_append_right _ ho
  · rintro (hr | hex)
    · exact Or.inl hr
    · obtain ⟨m, hm, ⟨hm1, hm2, hm3⟩, hmax⟩ := exists_max_version
        (fun o => r.1 = o.1 ∧ r.2 < o.2 ∧ haveCapability h o = true) caps hex
      refine Or.inr ⟨m, ?_, hm1, hm2, hm3⟩
      rw [hcaps] at hm
      rcases List.mem_append.1 hm with hmd | hmr
      · apply List.mem_append_left
        apply List.mem_append_left
        rw [hout, List.mem_filter]
        refine ⟨hmd, ?_⟩
        rw [Bool.not_eq_true', ← Bool.not_eq_true, capRemoved_iff]
        rintro (hno | ⟨o', ho', h1', h2', h3'⟩)
        · rw [hm3] at hno; simp at hno
        · have := hmax o' ho' ⟨hm1.trans h1', by omega, h3'⟩
          omega
      · exact List.mem_append_right _ hmr

/-- The run of `remove_if` gives the entries of the vector as received that
the predicate, read on the vector as received, does not remove. -/
theorem removeIfLoop_eq_filter (h : Host) (movedFrom : CapDesc → CapDesc → CapDesc)
    (caps : List CapDesc)
    (hmf : ∀ d s, haveCapability h (movedFrom d s) = true → movedFrom d s ∈ caps) :
    ∀ (todo done out stale : List CapDesc), caps = done ++ todo →
      out = done.filter (fun c => !capRemoved h caps c) →
      (∀ o ∈ stale, haveCapability h o = true → o ∈ caps) →
      removeIfLoop h movedFrom out stale todo = caps.filter fun c => !capRemoved h caps c
  | [], done, out, stale, hcaps, hout, _ => by
    rw [List.append_nil] at hcaps
    rw [removeIfLoop, hout, hcaps]
  | r :: rest, done, out, stale, hcaps, hout, hstale => by
    have hpred := capRemoved_rearranged h caps done out stale rest r hcaps hout hstale
    have hcaps' : caps = (done ++ [r]) ++ rest := by simp [hcaps]
    have hr : r ∈ caps := by rw [hcaps]; simp
    unfold removeIfLoop
    by_cases hrem : capRemoved h caps r = true
    · rw [hpred, if_pos hrem]
      apply removeIfLoop_eq_filter h movedFrom caps hmf rest (done ++ [r]) out _ hcaps'
      · rw [List.filter_append, ← hout]
        simp [hrem]
      · intro o ho hho
        rcases List.mem_append.1 ho with ho | ho
        · exact hstale o ho hho
        · rw [List.mem_singleton.1 ho]; exact hr
    · rw [hpred, if_neg hrem]
      have hout' : out ++ [r] = (done ++ [r]).filter fun c => !capRemoved h caps c := by
        rw [List.filter_append, ← hout]
        simp [hrem]
      cases stale with
      | nil =>
        exact removeIfLoop_eq_filter h movedFrom caps hmf rest (done ++ [r]) _ _ hcaps' hout'
          (fun o ho => by simp at ho)
      | cons d stale' =>
        apply removeIfLoop_eq_filter h movedFrom caps hmf rest (done ++ [r]) _ _ hcaps' hout'
        intro o ho hho
        rcases List.mem_append.1 ho with ho | ho
        · exact hstale o (List.mem_cons_of_mem _ ho) hho
        · rw [List.mem_singleton.1 ho] at hho ⊢
          exact hmf d r hho

/-- C17: provided a moved-from descriptor is no registered capability (or is
an entry of the remote list), the capability list that `startPeerSession`
keeps is the list the specification words: it consists, in the order received,
of exactly the remote entries that are in the local registry and for which no
remote entry with the same name, a higher version and a registry entry exists;
hence every kept entry has the highest locally supported version among the
remote entries of its name, no name is kept with two versions, and a handshake
that is not from the host itself and has an acceptable protocol version ends in
`disconnect(UselessPeer)` when nothing is kept. -/
theorem keptCaps_highest_supported (env : Env) (h : Host) (caps : List CapDesc)
    (hmf : ∀ d s, haveCapability h (env.movedFrom d s) = true → env.movedFrom d s ∈ caps) :
    keptCaps env h caps = highestSupported h caps ∧
    (∀ c, c ∈ keptCaps env h caps ↔
      c ∈ caps ∧ haveCapability h c = true ∧
        ¬ ∃ o ∈ caps, o.1 = c.1 ∧ c.2 < o.2 ∧ haveCapability h o = true) ∧
    (∀ c ∈ keptCaps env h caps, ∀ o ∈ caps, o.1 = c.1 → haveCapability h o = true → o.2 ≤ c.2) ∧
    (∀ c ∈ keptCaps env h caps, ∀ d ∈ keptCaps env h caps, c.1 = d.1 → c.2 = d.2) ∧
    (∀ (hello : Hello) (sock : Socket), hello.caps = caps → hello.pub ≠ h.id →
      ¬ hello.protocolVersion < (env.c_protocolVersion + (2 ^ 32 - 1)) % 2 ^ 32 →
      keptCaps env h caps = [] →
      (startPeerSession env hello sock h).result = .disconnected .UselessPeer) := by
  have hfilter : keptCaps env h caps = caps.filter fun c => !capRemoved h caps c :=
    removeIfLoop_eq_filter h env.movedFrom caps hmf caps [] [] [] rfl rfl (fun o ho => by simp at ho)
  have hmem : ∀ c, c ∈ keptCaps env h caps ↔
      c ∈ caps ∧ haveCapability h c = true ∧
        ¬ ∃ o ∈ caps, o.1 = c.1 ∧ c.2 < o.2 ∧ haveCapability h o = true := by
    intro c
    rw [hfilter, List.mem_filter, Bool.not_eq_true', ← Bool.not_eq_true, capRemoved_iff]
    constructor
    · rintro ⟨hc, hnot⟩
      refine ⟨hc, ?_, fun ⟨o, ho, h1, h2, h3⟩ => hnot (Or.inr ⟨o, ho, h1.symm, h2, h3⟩)⟩
      cases hh : haveCapability h c
      · exact absurd (Or.inl hh) hnot
      · rfl
    · rintro ⟨hc, hh, hnot⟩
      refine ⟨hc, ?_⟩
      rintro (hno | ⟨o, ho, h1, h2, h3⟩)
      · rw [hh] at hno; simp at hno
      · exact hnot ⟨o, ho, h1.symm, h2, h3⟩
  have hmax : ∀ c ∈ keptCaps env h caps, ∀ o ∈ caps, o.1 = c.1 → haveCapability h o = true →
      o.2 ≤ c.2 := by
    intro c hc o ho hname hho
    by_contra hlt
    exact ((hmem c).1 hc).2.2 ⟨o, ho, hname, by omega, hho⟩
  refine ⟨?_, hmem, hmax, ?_, ?_⟩
  · rw [hfilter]
    unfold highestSupported
    apply List.filter_congr
    intro c _
    unfold capRemoved
    cases haveCapability h c
    · simp
    · simp only [Bool.not_true, Bool.false_or, Bool.true_and]
      congr 2
      funext o
      simp only [eq_comm, gt_iff_lt]
  · intro c hc d hd hname
    have hc' := (hmem c).1 hc
    have hd' := (hmem d).1 hd
    have h1 := hmax c hc d hd'.1 hname.symm hd'.2.1
    have h2 := hmax d hd c hc'.1 hname hc'.2.1
    omega
  · intro hello sock hcaps hself hpv hnil
    subst hcaps
    rw [(startPeerSession_cases env hello sock h).2.2.1 hself hpv hnil]

/-- On `capsHost`, where no capability with the empty name is registered, the
remote list `remoteCaps` meets the hypothesis of `keptCaps_highest_supported`;
the kept list is `eth` 63 and `shh` 2. -/
theorem keptCaps_highest_supported_witness :
    keptCaps dupEnv capsHost remoteCaps = [("eth", 63), ("shh", 2)] ∧
    highestSupported capsHost remoteCaps = [("eth", 63), ("shh", 2)] := by
  have h := keptCaps_highest_supported dupEnv capsHost remoteCaps (fun d s hs => by
    exfalso
    have hne : ∀ v : Nat, haveCapability capsHost ("", v) = false := by
      intro v
      simp [haveCapability, capsHost, dupHost, mapFind]
    have : dupEnv.movedFrom d s = ("", s.2) := rfl
    rw [this, hne] at hs
    simp at hs)
  exact ⟨by rw [h.1]; decide, by decide⟩

/-- After the self check the known-peer map is the one `recordPeer` leaves,
however the handshake ends. -/
theorem startPeerSession_peers (env : Env) (hello : Hello) (sock : Socket) (h : Host)
    (h1 : hello.pub ≠ h.id) :
    (startPeerSession env hello sock h).host.m_peers = (recordPeer env hello sock h).m_peers := by
  obtain ⟨_, c2, c3, c4, c5, c6, c7⟩ := startPeerSession_cases env hello sock h
  by_cases h2 : hello.protocolVersion < (env.c_protocolVersion + (2 ^ 32 - 1)) % 2 ^ 32
  · rw [c2 h1 h2]
  by_cases h3 : keptCaps env h hello.caps = []
  · rw [c3 h1 h2 h3]
  by_cases h4 : h.pin = true ∧ hello.pub ∉ h.m_requiredPeers
  · rw [c4 h1 h2 h3 h4]
  by_cases h5 : connectedSession h hello.pub = true
  · rw [c5 h1 h2 h3 h4 h5]
  have h5' : connectedSession h hello.pub = false := by
    cases hc : connectedSession h hello.pub
    · rfl
    · exact absurd hc h5
  by_cases h6 : env.peerSlotsAvailable = false
  · rw [c6 h1 h2 h3 h4 h5' h6]
  have h6' : env.peerSlotsAvailable = true := by
    cases hc : env.peerSlotsAvailable
    · exact absurd hc h6
    · rfl
  rw [c7 h1 h2 h3 h4 h5' h6']

/-- C18, as stated, fails: a handshake with a protocol version that is too
old is rejected with IncompatibleProtocol on a host that knows no peer, and
afterwards the known-peer map holds a `Peer` for the remote endpoint. -/
theorem rejected_handshake_adds_peer :
    dupHost.m_peers = [] ∧
    (startPeerSession dupEnv oldHello dupSocket dupHost).result =
      .disconnected .IncompatibleProtocol ∧
    (startPeerSession dupEnv oldHello dupSocket dupHost).host.m_peers =
      [("10.0.0.2:30303",
        { id := 171,
          endpoint := { address := "10.0.0.2", tcpPort := 30303, udpPort := 30303, host := "" },
          m_lastConnected := 0, offline := true })] := by
  decide

/-- C18, amended: `startPeerSession` leaves the host, and with it the
known-peer map, as it was when the handshake is turned away by the self-identity
rule. For every other handshake, rejected by a later rule or accepted, the
known-peer map after the call is the map before the call with the entry for the
name of the remote endpoint written: that entry holds the peer known under the
name, or a new `Peer` with the remote id, with its endpoint set to the remote
endpoint; every other entry is as before. -/
theorem startPeerSession_known_peers (env : Env) (hello : Hello) (sock : Socket) (h : Host) :
    (hello.pub = h.id → (startPeerSession env hello sock h).host.m_peers = h.m_peers) ∧
    (hello.pub ≠ h.id →
      (∃ p : Peer,
        mapFind (helloEndpoint hello sock).name (startPeerSession env hello sock h).host.m_peers =
          some p ∧
        p.endpoint = helloEndpoint hello sock ∧
        (∀ p0, mapFind (helloEndpoint hello sock).name h.m_peers = some p0 → p.id = p0.id) ∧
        (mapFind (helloEndpoint hello sock).name h.m_peers = none → p.id = hello.pub)) ∧
      ∀ name, name ≠ (helloEndpoint hello sock).name →
        mapFind name (startPeerSession env hello sock h).host.m_peers = mapFind name h.m_peers) := by
  refine ⟨fun h1 => ?_, fun h1 => ?_⟩
  · rw [(startPeerSession_cases env hello sock h).1 h1]
  · rw [startPeerSession_peers env hello sock h h1]
    refine ⟨⟨_, mapFind_mapInsert_self _ _ _, rfl, fun p0 hp0 => ?_, fun hnone => ?_⟩,
      fun name hname => mapFind_mapInsert_ne _ _ _ hname _⟩
    · simp only [hp0]
      split <;> rfl
    · simp only [hnone]
      rfl

/-- When the address of the endpoint is one of the addresses of the host, the
address test of `connect` does not answer no. -/
theorem isSelfAddress_of_self (env : NetEnv) (h : Host) (address : String)
    (haddr : (h.listenIPAddress ≠ "" ∧ env.from_string h.listenIPAddress = some address) ∨
      (h.publicIPAddress ≠ "" ∧ env.from_string h.publicIPAddress = some address) ∨
      address ∈ h.m_ifAddresses ∨ address = h.m_tcpPublic.1 ∨ address = h.m_tcpClient.1) :
    isSelfAddress env h address ≠ some false := by
  unfold isSelfAddress equalsConfigured
  intro hfalse
  by_cases hl : h.listenIPAddress = ""
  · by_cases hp : h.publicIPAddress = ""
    · rcases haddr with ⟨hne, _⟩ | ⟨hne, _⟩ | hrest
      · exact hne hl
      · exact hne hp
      · simp only [hl, hp, if_true] at hfalse
        simp at hfalse
        rcases hrest with hm | hm | hm
        · exact hfalse.1.1 hm
        · exact hfalse.1.2 hm
        · exact hfalse.2 hm
    · simp only [hl, if_true, if_neg hp] at hfalse
      cases hfp : env.from_string h.publicIPAddress with
      | none => simp [hfp] at hfalse
      | some a =>
        simp only [hfp] at hfalse
        by_cases ha : address = a
        · simp [ha] at hfalse
        · rcases haddr with ⟨hne, _⟩ | ⟨_, heq⟩ | hrest
          · exact hne hl
          · rw [hfp] at heq
            exact ha (Option.some.inj heq).symm
          · simp [ha] at hfalse
            rcases hrest with hm | hm | hm
            · exact hfalse.1.1 hm
            · exact hfalse.1.2 hm
            · exact hfalse.2 hm
  · simp only [if_neg hl] at hfalse
    cases hfl : env.from_string h.listenIPAddress with
    | none => simp [hfl] at hfalse
    | some b =>
      simp only [hfl] at hfalse
      by_cases hb : address = b
      · simp [hb] at hfalse
      · have hnl : ¬ (h.listenIPAddress ≠ "" ∧ env.from_string h.listenIPAddress = some address) := by
          rintro ⟨_, heq⟩
          rw [hfl] at heq
          exact hb (Option.some.inj heq).symm
        simp only [hb, decide_False] at hfalse
        by_cases hp : h.publicIPAddress = ""
        · simp only [hp, if_true] at hfalse
          simp at hfalse
          rcases haddr with hx | ⟨hne, _⟩ | hrest
          · exact hnl hx
          · exact hne hp
          · rcases hrest with hm | hm | hm
            · exact hfalse.1.1 hm
            · exact hfalse.1.2 hm
            · exact hfalse.2 hm
        · simp only [if_neg hp] at hfalse
          cases hfp : env.from_string h.publicIPAddress with
          | none => simp [hfp] at hfalse
          | some a =>
            simp only [hfp] at hfalse
            by_cases ha : address = a
            · simp [ha] at hfalse
            · simp [ha] at hfalse
              rcases haddr with hx | ⟨_, heq⟩ | hrest
              · exact hnl hx
              · rw [hfp] at heq
                exact ha (Option.some.inj heq).symm
              · rcases hrest with hm | hm | hm
                · exact hfalse.1.1 hm
                · exact hfalse.1.2 hm
                · exact hfalse.2 hm

/-- C19: for a running host and an endpoint whose tcp port is the configured
listen port and whose address is the configured listen IP, the configured public
IP, a local interface address, the address of the published public endpoint or
the address of the last client endpoint, `connect` starts no connection attempt
and leaves the host as it was: the pending-connection set, the known-peer map
and the session map are unchanged. -/
theorem connect_self_ignored (env : NetEnv) (ep : NodeIPEndpoint) (h : Host)
    (hrun : h.m_run = true)
    (hport : ep.tcpPort = h.listenPort)
    (haddr : (h.listenIPAddress ≠ "" ∧ env.from_string h.listenIPAddress = some ep.address) ∨
      (h.publicIPAddress ≠ "" ∧ env.from_string h.publicIPAddress = some ep.address) ∨
      ep.address ∈ h.m_ifAddresses ∨ ep.address = h.m_tcpPublic.1 ∨
      ep.address = h.m_tcpClient.1) :
    (∀ e, (connect env ep h).result ≠ .attempt e) ∧
    (connect env ep h).host.m_pendingPeerConns = h.m_pendingPeerConns ∧
    (connect env ep h).host.m_peers = h.m_peers ∧
    (connect env ep h).host.m_sessions = h.m_sessions ∧
    (connect env ep h).host = h := by
  have hself := isSelfAddress_of_self env h ep.address haddr
  have hout : (connect env ep h).host = h ∧ ∀ e, (connect env ep h).result ≠ .attempt e := by
    unfold connect
    rw [if_neg (by simp [hrun])]
    cases hs : isSelfAddress env h ep.address with
    | none => exact ⟨rfl, fun e he => by cases he⟩
    | some b =>
      cases b with
      | false => exact absurd hs hself
      | true =>
        simp [hport]
  exact ⟨hout.2, by rw [hout.1], by rw [hout.1], by rw [hout.1], hout.1⟩

/-- C19 at the host of the scenarios and its own listen endpoint: `connect`
returns without an attempt. -/
theorem connect_self_ignored_witness :
    (connect scenarioNet selfEndpoint dupHost).result = .ignored ∧
    ((∀ e, (connect scenarioNet selfEndpoint dupHost).result ≠ .attempt e) ∧
    (connect scenarioNet selfEndpoint dupHost).host.m_pendingPeerConns =
      dupHost.m_pendingPeerConns ∧
    (connect scenarioNet selfEndpoint dupHost).host.m_peers = dupHost.m_peers ∧
    (connect scenarioNet selfEndpoint dupHost).host.m_sessions = dupHost.m_sessions ∧
    (connect scenarioNet selfEndpoint dupHost).host = dupHost) :=
  ⟨by decide,
    connect_self_ignored scenarioNet selfEndpoint dupHost (by decide) (by decide)
      (Or.inl ⟨by decide, by decide⟩)⟩

/-- The pending-connection set after `connect`: the name of the endpoint is
added when an attempt is started, and nothing changes otherwise. -/
theorem connect_pending (env : NetEnv) (ep : NodeIPEndpoint) (h : Host) :
    ((∃ e, (connect env ep h).result = .attempt e) →
      (connect env ep h).result = .attempt ep ∧
      ep.name ∉ h.m_pendingPeerConns ∧ mapFind ep.name h.m_peers = none ∧
      (connect env ep h).host.m_pendingPeerConns = insert ep.name h.m_pendingPeerConns) ∧
    ((∀ e, (connect env ep h).result ≠ .attempt e) →
      (connect env ep h).host.m_pendingPeerConns = h.m_pendingPeerConns) := by
  unfold connect
  split
  · exact ⟨fun hex => hex.elim (fun e he => by cases he), fun _ => rfl⟩
  split
  · exact ⟨fun hex => hex.elim (fun e he => by cases he), fun _ => rfl⟩
  split
  · exact ⟨fun hex => hex.elim (fun e he => by cases he), fun _ => rfl⟩
  split
  · exact ⟨fun hex => hex.elim (fun e he => by cases he), fun _ => rfl⟩
  split
  · exact ⟨fun hex => hex.elim (fun e he => by cases he), fun _ => rfl⟩
  split
  · exact ⟨fun hex => hex.elim (fun e he => by cases he), fun _ => rfl⟩
  split
  · split
    · exact ⟨fun hex => hex.elim (fun e he => by cases he), fun _ => rfl⟩
    · exact ⟨fun hex => hex.elim (fun e he => by cases he), fun _ => rfl⟩
  · rename_i hnone
    split
    · exact ⟨fun hex => hex.elim (fun e he => by cases he), fun _ => rfl⟩
    split
    · exact ⟨fun hex => hex.elim (fun e he => by cases he), fun _ => rfl⟩
    · rename_i hpend
      exact ⟨fun _ => ⟨rfl, hpend, hnone, rfl⟩, fun hno => absurd rfl (hno ep)⟩

/-- C20: when `connect` starts an attempt, it has marked the name of the
endpoint as pending, and the name was neither pending nor the name of a known
peer. Each path on which the connect cycle completes takes the name out of the
pending-connection set again: the handler of a failed TCP connect, and
`sslHandshakeClient` on a failed TLS handshake and on a TLS handshake that
succeeded, after the application handshake was launched; run on the host that
`connect` left, each of them gives back the pending-connection set from before
the attempt. A `connect` for a name that is already pending or is the name of a
known peer starts no attempt and leaves the pending-connection set as it
was. -/
theorem pending_cleared_after_cycle (env : NetEnv) (ep : NodeIPEndpoint) (h : Host) :
    ((∃ e, (connect env ep h).result = .attempt e) →
      ep.name ∈ (connect env ep h).host.m_pendingPeerConns ∧
      (connectRefused ep (connect env ep h).host).m_pendingPeerConns = h.m_pendingPeerConns ∧
      (sslHandshakeClient true false ep (connect env ep h).host).1.m_pendingPeerConns =
        h.m_pendingPeerConns ∧
      (sslHandshakeClient false false ep (connect env ep h).host).1.m_pendingPeerConns =
        h.m_pendingPeerConns) ∧
    (∀ h2 : Host,
      ep.name ∉ (connectRefused ep h2).m_pendingPeerConns ∧
      (∀ startThrows, ep.name ∉ (sslHandshakeClient true startThrows ep h2).1.m_pendingPeerConns) ∧
      (sslHandshakeClient false false ep h2).2 = true ∧
      ep.name ∉ (sslHandshakeClient false false ep h2).1.m_pendingPeerConns) ∧
    ((ep.name ∈ h.m_pendingPeerConns ∨ (mapFind ep.name h.m_peers).isSome = true) →
      (∀ e, (connect env ep h).result ≠ .attempt e) ∧
      (connect env ep h).host.m_pendingPeerConns = h.m_pendingPeerConns) := by
  obtain ⟨hatt, hno⟩ := connect_pending env ep h
  refine ⟨fun hex => ?_, fun h2 => ?_, fun hknown => ?_⟩
  · obtain ⟨_, hpend, _, hins⟩ := hatt hex
    refine ⟨?_, ?_, ?_, ?_⟩
    · rw [hins]
      exact Finset.mem_insert_self _ _
    · simp only [connectRefused, hins]
      exact Finset.erase_insert hpend
    · simp only [sslHandshakeClient, if_true, hins]
      exact Finset.erase_insert hpend
    · simp only [sslHandshakeClient, Bool.false_eq_true, if_false, hins]
      exact Finset.erase_insert hpend
  · refine ⟨?_, fun st => ?_, rfl, ?_⟩
    · simp [connectRefused]
    · simp [sslHandshakeClient]
    · simp [sslHandshakeClient]
  · have hnone : ∀ e, (connect env ep h).result ≠ .attempt e := by
      intro e he
      obtain ⟨_, hpend, hpeer, _⟩ := hatt ⟨e, he⟩
      rcases hknown with hk | hk
      · exact hpend hk
      · rw [hpeer] at hk
        cases hk
    exact ⟨hnone, hno hnone⟩

/-- C20 at the host of the scenarios and the endpoint of another node: the
attempt marks the name as pending, and each way the cycle ends leaves the
pending-connection set empty again. -/
theorem pending_cleared_after_cycle_witness :
    (connect scenarioNet otherEndpoint dupHost).result = .attempt otherEndpoint ∧
    (connect scenarioNet otherEndpoint dupHost).host.m_pendingPeerConns = {"10.0.0.2:30303"} ∧
    (connectRefused otherEndpoint
      (connect scenarioNet otherEndpoint dupHost).host).m_pendingPeerConns = ∅ ∧
    (sslHandshakeClient false false otherEndpoint
      (connect scenarioNet otherEndpoint dupHost).host).1.m_pendingPeerConns = ∅ ∧
    otherEndpoint.name ∈ (connect scenarioNet otherEndpoint dupHost).host.m_pendingPeerConns :=
  ⟨by decide, by decide, by decide, by decide,
    ((pending_cleared_after_cycle scenarioNet otherEndpoint dupHost).1 ⟨otherEndpoint, by decide⟩).1⟩

/-- An accepted handshake made the capability calls of the loop over the kept
capabilities. -/
theorem startPeerSession_started_calls (env : Env) (hello : Hello) (sock : Socket) (h : Host)
    (handle : Nat) (hacc : (startPeerSession env hello sock h).result = .started handle) :
    (startPeerSession env hello sock h).capCalls =
      (assignCaps (env.isFramingAllowedForVersion hello.protocolVersion) h.m_capabilities
        (keptCaps env h hello.caps) (env.UserPacket % 2 ^ 32) 1).1 := by
  obtain ⟨c1, c2, c3, c4, c5, c6, c7⟩ := startPeerSession_cases env hello sock h
  by_cases h1 : hello.pub = h.id
  · rw [c1 h1] at hacc
    cases hacc
  by_cases h2 : hello.protocolVersion < (env.c_protocolVersion + (2 ^ 32 - 1)) % 2 ^ 32
  · rw [c2 h1 h2] at hacc
    cases hacc
  by_cases h3 : keptCaps env h hello.caps = []
  · rw [c3 h1 h2 h3] at hacc
    cases hacc
  by_cases h4 : h.pin = true ∧ hello.pub ∉ h.m_requiredPeers
  · rw [c4 h1 h2 h3 h4] at hacc
    cases hacc
  by_cases h5 : connectedSession h hello.pub = true
  · rw [c5 h1 h2 h3 h4 h5] at hacc
    cases hacc
  have h5' : connectedSession h hello.pub = false := by
    cases hc : connectedSession h hello.pub
    · rfl
    · exact absurd hc h5
  by_cases h6 : env.peerSlotsAvailable = false
  · rw [c6 h1 h2 h3 h4 h5' h6] at hacc
    cases hacc
  have h6' : env.peerSlotsAvailable = true := by
    cases hc : env.peerSlotsAvailable
    · exact absurd hc h6
    · rfl
  rw [c7 h1 h2 h3 h4 h5' h6']

/-- With framing, the loop numbers the capabilities from `cnt` on, modulo
`2 ^ 16`, and gives every one offset 0. -/
theorem assignCaps_framed (registry : List (CapDesc × HostCapabilityFace)) :
    ∀ (caps : List CapDesc) (offset cnt : Nat),
      (∀ c ∈ caps, (mapFind c registry).isSome = true) → cnt < 2 ^ 16 →
      ∀ (i : Nat) (c : CapDesc), caps[i]? = some c →
        (assignCaps true registry caps offset cnt).1[i]? =
          some { cap := c, offset := 0, subid := (cnt + i) % 2 ^ 16 }
  | [], _, _, _, _, i, c, hc => by simp at hc
  | a :: rest, offset, cnt, hreg, hcnt, i, c, hc => by
    have ha := hreg a (List.mem_cons_self _ _)
    have hrest : ∀ c ∈ rest, (mapFind c registry).isSome = true :=
      fun c hc => hreg c (List.mem_cons_of_mem _ hc)
    unfold assignCaps
    cases hf : mapFind a registry with
    | none => rw [hf] at ha; simp at ha
    | some pcap =>
      simp only [if_true]
      cases i with
      | zero =>
        simp only [List.getElem?_cons_zero, Option.some.injEq] at hc
        simp only [List.getElem?_cons_zero, Nat.add_zero, Nat.mod_eq_of_lt hcnt, hc]
      | succ j =>
        simp only [List.getElem?_cons_succ] at hc
        simp only [List.getElem?_cons_succ]
        rw [assignCaps_framed registry rest offset ((cnt + 1) % 2 ^ 16) hrest
          (Nat.mod_lt _ (by decide)) j c hc]
        have : ((cnt + 1) % 2 ^ 16 + j) % 2 ^ 16 = (cnt + (j + 1)) % 2 ^ 16 := by omega
        rw [this]

/-- Without framing, the loop gives every capability subid 0 and the offset
reached by adding the message counts of the capabilities before it, modulo
`2 ^ 32`. -/
theorem assignCaps_offsets (h : Host) :
    ∀ (caps : List CapDesc) (offset cnt : Nat),
      (∀ c ∈ caps, (mapFind c h.m_capabilities).isSome = true) → offset < 2 ^ 32 →
      ∀ (i : Nat) (c : CapDesc), caps[i]? = some c →
        (assignCaps false h.m_capabilities caps offset cnt).1[i]? =
          some { cap := c,
                 offset := (offset + ((caps.take i).map (messageCountOf h)).sum) % 2 ^ 32,
                 subid := 0 }
  | [], _, _, _, _, i, c, hc => by simp at hc
  | a :: rest, offset, cnt, hreg, hoff, i, c, hc => by
    have ha := hreg a (List.mem_cons_self _ _)
    have hrest : ∀ c ∈ rest, (mapFind c h.m_capabilities).isSome = true :=
      fun c hc => hreg c (List.mem_cons_of_mem _ hc)
    unfold assignCaps
    cases hf : mapFind a h.m_capabilities with
    | none => rw [hf] at ha; simp at ha
    | some pcap =>
      simp only [Bool.false_eq_true, if_false]
      cases i with
      | zero =>
        simp only [List.getElem?_cons_zero, Option.some.injEq] at hc
        have hoff' : offset % 4294967296 = offset := Nat.mod_eq_of_lt hoff
        simp [hoff', hc]
      | succ j =>
        simp only [List.getElem?_cons_succ] at hc
        simp only [List.getElem?_cons_succ]
        rw [assignCaps_offsets h rest ((offset + pcap.messageCount) % 2 ^ 32) cnt hrest
          (Nat.mod_lt _ (by decide)) j c hc]
        have hm : messageCountOf h a = pcap.messageCount := by
          simp [messageCountOf, hf]
        simp only [List.take_succ_cons, List.map_cons, List.sum_cons, hm]
        congr 2
        omega

/-- The loop makes one call for each capability when all are registered. -/
theorem assignCaps_length (framing : Bool) (registry : List (CapDesc × HostCapabilityFace)) :
    ∀ (caps : List CapDesc) (offset cnt : Nat),
      (∀ c ∈ caps, (mapFind c registry).isSome = true) →
      (assignCaps framing registry caps offset cnt).1.length = caps.length
  | [], _, _, _ => by simp [assignCaps]
  | a :: rest, offset, cnt, hreg => by
    have ha := hreg a (List.mem_cons_self _ _)
    have hrest : ∀ c ∈ rest, (mapFind c registry).isSome = true :=
      fun c hc => hreg c (List.mem_cons_of_mem _ hc)
    unfold assignCaps
    cases hf : mapFind a registry with
    | none => rw [hf] at ha; simp at ha
    | some pcap =>
      cases framing
      · simp [assignCaps_length false registry rest _ _ hrest]
      · simp [assignCaps_length true registry rest _ _ hrest]

/-- The sum of a shorter prefix is at most the sum of a longer one. -/
theorem sum_take_le (l : List Nat) : ∀ (i j : Nat), i ≤ j → (l.take i).sum ≤ (l.take j).sum := by
  induction l with
  | nil => intro i j _; simp
  | cons a rest ih =>
    intro i j hij
    cases i with
    | zero => simp
    | succ i' =>
      cases j with
      | zero => omega
      | succ j' =>
        simp only [List.take_succ_cons, List.sum_cons]
        have := ih i' j' (by omega)
        omega

/-- The sum of a prefix is at most the sum of the list. -/
theorem sum_take_le_sum (l : List Nat) (i : Nat) : (l.take i).sum ≤ l.sum := by
  by_cases h : i ≤ l.length
  · have := sum_take_le l i l.length h
    simpa using this
  · rw [List.take_of_length_le (by omega)]

/-- C24: for every accepted session, `startPeerSession` makes one capability
call for each kept capability, in the order kept. When framing is allowed for
the protocol version (and fewer than `2 ^ 16` capabilities are kept, the range
of the counter), the capability at place `i`, counted from 0, gets sub-protocol
id `i + 1` and offset 0: the ids are the contiguous integers from 1 on.
Otherwise (and when `UserPacket` plus the message counts of the kept
capabilities stays below `2 ^ 32`, the range of the offset) it gets id 0 and
the offset `UserPacket` plus the message counts of the capabilities before it;
so the packet-id range of an earlier capability ends at or before the offset of
a later one, and every offset is at least `UserPacket`. -/
theorem startPeerSession_capability_ids (env : Env) (hello : Hello) (sock : Socket) (h : Host)
    (handle : Nat) (hacc : (startPeerSession env hello sock h).result = .started handle) :
    (startPeerSession env hello sock h).capCalls.length = (keptCaps env h hello.caps).length ∧
    (env.isFramingAllowedForVersion hello.protocolVersion = true →
      (keptCaps env h hello.caps).length < 2 ^ 16 →
      ∀ (i : Nat) (c : CapDesc), (keptCaps env h hello.caps)[i]? = some c →
        (startPeerSession env hello sock h).capCalls[i]? =
          some { cap := c, offset := 0, subid := i + 1 }) ∧
    (env.isFramingAllowedForVersion hello.protocolVersion = false →
      env.UserPacket + ((keptCaps env h hello.caps).map (messageCountOf h)).sum < 2 ^ 32 →
      (∀ (i : Nat) (c : CapDesc), (keptCaps env h hello.caps)[i]? = some c →
        (startPeerSession env hello sock h).capCalls[i]? =
          some { cap := c,
                 offset := env.UserPacket +
                   (((keptCaps env h hello.caps).take i).map (messageCountOf h)).sum,
                 subid := 0 }) ∧
      (∀ (i j : Nat) (a b : CapCall), i < j →
        (startPeerSession env hello sock h).capCalls[i]? = some a →
        (startPeerSession env hello sock h).capCalls[j]? = some b →
        a.offset + messageCountOf h a.cap ≤ b.offset) ∧
      (∀ a ∈ (startPeerSession env hello sock h).capCalls, env.UserPacket ≤ a.offset)) := by
  have hcalls := startPeerSession_started_calls env hello sock h handle hacc
  have hreg : ∀ c ∈ keptCaps env h hello.caps, (mapFind c h.m_capabilities).isSome = true :=
    fun c hc => keptCaps_have env h hello.caps c hc
  have hlen : (startPeerSession env hello sock h).capCalls.length =
      (keptCaps env h hello.caps).length := by
    rw [hcalls]
    exact assignCaps_length _ _ _ _ _ hreg
  refine ⟨hlen, fun hf hn i c hc => ?_, fun hf hsum => ?_⟩
  · rw [hcalls, hf, assignCaps_framed h.m_capabilities _ _ 1 hreg (by decide) i c hc]
    have hi : i < (keptCaps env h hello.caps).length := by
      rcases List.getElem?_eq_some.1 hc with ⟨hi, _⟩
      exact hi
    have : (1 + i) % 2 ^ 16 = i + 1 := by omega
    rw [this]
  · have hoffs : ∀ (i : Nat) (c : CapDesc), (keptCaps env h hello.caps)[i]? = some c →
        (startPeerSession env hello sock h).capCalls[i]? =
          some { cap := c,
                 offset := env.UserPacket +
                   (((keptCaps env h hello.caps).take i).map (messageCountOf h)).sum,
                 subid := 0 } := by
      intro i c hc
      have hU : env.UserPacket % 2 ^ 32 = env.UserPacket := Nat.mod_eq_of_lt (by omega)
      rw [hcalls, hf, assignCaps_offsets h _ _ 1 hreg (Nat.mod_lt _ (by decide)) i c hc, hU]
      have hle := sum_take_le_sum ((keptCaps env h hello.caps).map (messageCountOf h)) i
      rw [← List.map_take] at hle
      rw [Nat.mod_eq_of_lt (by omega)]
    have hget : ∀ (i : Nat) (a : CapCall),
        (startPeerSession env hello sock h).capCalls[i]? = some a →
        ∃ c, (keptCaps env h hello.caps)[i]? = some c ∧
          a = { cap := c,
                offset := env.UserPacket +
                  (((keptCaps env h hello.caps).take i).map (messageCountOf h)).sum,
                subid := 0 } := by
      intro i a ha
      have hi : i < (keptCaps env h hello.caps).length := by
        rcases List.getElem?_eq_some.1 ha with ⟨hi, _⟩
        rw [hlen] at hi
        exact hi
      refine ⟨(keptCaps env h hello.caps)[i], List.getElem?_eq_getElem hi, ?_⟩
      have := hoffs i _ (List.getElem?_eq_getElem hi)
      rw [ha] at this
      exact Option.some.inj this
    refine ⟨hoffs, fun i j a b hij ha hb => ?_, fun a ha => ?_⟩
    · obtain ⟨c, hc, rfl⟩ := hget i a ha
      obtain ⟨d, _, rfl⟩ := hget j b hb
      simp only
      have hstep : (((keptCaps env h hello.caps).take (i + 1)).map (messageCountOf h)).sum =
          (((keptCaps env h hello.caps).take i).map (messageCountOf h)).sum +
            messageCountOf h c := by
        have hi : i < (keptCaps env h hello.caps).length := by
          rcases List.getElem?_eq_some.1 hc with ⟨hi, _⟩
          exact hi
        have hci : (keptCaps env h hello.caps)[i] = c := by
          rcases List.getElem?_eq_some.1 hc with ⟨_, hv⟩
          exact hv
        rw [List.take_succ, hc]
        simp
      have hmono := sum_take_le ((keptCaps env h hello.caps).map (messageCountOf h)) (i + 1) j
        (by omega)
      rw [← List.map_take, ← List.map_take, hstep] at hmono
      omega
    · obtain ⟨i, hi⟩ := List.getElem?_of_mem ha
      obtain ⟨c, _, rfl⟩ := hget i a hi
      simp only
      omega

/-- C24 on `capsHost`: the handshake `capsHello` is accepted without framing,
the kept capabilities `eth` 63 (17 messages) and `shh` 2 get the offsets 16 and
33; the handshake `framedHello` is accepted with framing and they get the ids 1
and 2. -/
theorem startPeerSession_capability_ids_witness :
    (startPeerSession dupEnv capsHello dupSocket capsHost).capCalls =
      [{ cap := ("eth", 63), offset := 16, subid := 0 },
       { cap := ("shh", 2), offset := 33, subid := 0 }] ∧
    (startPeerSession dupEnv framedHello dupSocket capsHost).capCalls =
      [{ cap := ("eth", 63), offset := 0, subid := 1 },
       { cap := ("shh", 2), offset := 0, subid := 2 }] ∧
    (startPeerSession dupEnv capsHello dupSocket capsHost).capCalls.length =
      (keptCaps dupEnv capsHost capsHello.caps).length :=
  ⟨by decide, by decide,
    (startPeerSession_capability_ids dupEnv capsHello dupSocket capsHost 0 (by decide)).1⟩

/-- The names of the nodes sorted by name are the sorted names. -/
theorem sortByName_names (l : List Node) :
    (sortByName l).map (fun n => n.endpoint.name) =
      (l.map fun n => n.endpoint.name).insertionSort (· ≤ ·) := by
  unfold sortByName
  exact List.map_insertionSort _ _ _ _ (fun a _ b _ => Iff.rfl)

/-- Sorting two permutations of a list of names gives the same list. -/
theorem insertionSort_perm (l1 l2 : List String) (hp : l1.Perm l2) :
    l1.insertionSort (· ≤ ·) = l2.insertionSort (· ≤ ·) :=
  List.eq_of_perm_of_sorted
    (((List.perm_insertionSort _ l1).trans hp).trans (List.perm_insertionSort _ l2).symm)
    (List.sorted_insertionSort _ l1) (List.sorted_insertionSort _ l2)

/-- C22: the hash that `getAnnouncementNodeList` computes is the SHA3 of the
concatenation of the names of the self endpoint and of all peer endpoints in
ascending order of the names; hence for one self endpoint and two peer lists
that are permutations of one another the hash is the same, whatever the order in
which the peers are enumerated. -/
theorem announcement_hash_permutation (sha3 : String → Nat) (rand : Nat → Nat) (h : Host) :
    (getAnnouncementNodeList sha3 rand h).1 =
      sha3 (String.join (((selfEndpointOf h).name ::
        h.m_peers.map fun e => e.2.endpoint.name).insertionSort (· ≤ ·))) ∧
    (List.Sorted (· ≤ ·) (((selfEndpointOf h).name ::
        h.m_peers.map fun e => e.2.endpoint.name).insertionSort (· ≤ ·))) ∧
    (∀ (rand' : Nat → Nat) (h' : Host),
      selfEndpointOf h' = selfEndpointOf h →
      (h'.m_peers.map fun e => e.2).Perm (h.m_peers.map fun e => e.2) →
      (getAnnouncementNodeList sha3 rand' h').1 = (getAnnouncementNodeList sha3 rand h).1) := by
  have hhash : ∀ (rnd : Nat → Nat) (g : Host), (getAnnouncementNodeList sha3 rnd g).1 =
      sha3 (String.join (((selfEndpointOf g).name ::
        g.m_peers.map fun e => e.2.endpoint.name).insertionSort (· ≤ ·))) := by
    intro rnd g
    unfold getAnnouncementNodeList
    simp only
    rw [sortByName_names]
    congr 2
    apply insertionSort_perm
    simp only [List.map_append, List.map_map, List.map_cons, List.map_nil]
    exact (List.perm_append_comm.trans (List.Perm.refl _))
  refine ⟨hhash rand h, List.sorted_insertionSort _ _, fun rand' h' hself hperm => ?_⟩
  rw [hhash rand' h', hhash rand h, hself]
  congr 2
  apply insertionSort_perm
  apply List.Perm.cons
  have := hperm.map fun p : Peer => p.endpoint.name
  simpa [List.map_map] using this

/-- C22 on `twoPeerHost`: with the peers enumerated in either order the text
that is hashed is the names in ascending order. -/
theorem announcement_hash_permutation_witness :
    (getAnnouncementNodeList (fun s => s.length) (fun _ => 0) twoPeerHostSwapped).1 =
      (getAnnouncementNodeList (fun s => s.length) (fun _ => 0) twoPeerHost).1 :=
  (announcement_hash_permutation (fun s => s.length) (fun _ => 0) twoPeerHost).2.2
    (fun _ => 0) twoPeerHostSwapped rfl ((List.reverse_perm twoPeerHost.m_peers).map _)

/-- An entry of a map after an assignment is the entry assigned or an old
one. -/
theorem mem_mapInsert (k : NodeId) (v : Nat) :
    ∀ (m : List (NodeId × Nat)) (e : NodeId × Nat), e ∈ mapInsert k v m → e = (k, v) ∨ e ∈ m
  | [], e, he => by
    simp only [mapInsert, List.mem_singleton] at he
    exact Or.inl he
  | (k', v') :: rest, e, he => by
    unfold mapInsert at he
    by_cases h1 : k = k'
    · rw [if_pos h1] at he
      rcases List.mem_cons.1 he with h | h
      · exact Or.inl h
      · exact Or.inr (List.mem_cons_of_mem _ h)
    · rw [if_neg h1] at he
      by_cases h2 : k < k'
      · rw [if_pos h2] at he
        rcases List.mem_cons.1 he with h | h
        · exact Or.inl h
        · exact Or.inr h
      · rw [if_neg h2] at he
        rcases List.mem_cons.1 he with h | h
        · exact Or.inr (h ▸ List.mem_cons_self _ _)
        · rcases mem_mapInsert k v rest e h with h' | h'
          · exact Or.inl h'
          · exact Or.inr (List.mem_cons_of_mem _ h')

/-- Assigning a session object that the map does not hold keeps the session
objects of the map distinct. -/
theorem mapInsert_nodup (k : NodeId) (v : Nat) :
    ∀ (m : List (NodeId × Nat)), (m.map Prod.snd).Nodup → v ∉ m.map Prod.snd →
      ((mapInsert k v m).map Prod.snd).Nodup
  | [], _, _ => by simp [mapInsert]
  | (k', v') :: rest, hnd, hv => by
    simp only [List.map_cons, List.nodup_cons, List.mem_cons, not_or] at hnd hv
    unfold mapInsert
    by_cases h1 : k = k'
    · rw [if_pos h1]
      simp only [List.map_cons, List.nodup_cons]
      exact ⟨hv.2, hnd.2⟩
    · rw [if_neg h1]
      by_cases h2 : k < k'
      · rw [if_pos h2]
        simp only [List.map_cons, List.nodup_cons, List.mem_cons, not_or]
        exact ⟨⟨hv.1, hv.2⟩, hnd.1, hnd.2⟩
      · rw [if_neg h2]
        simp only [List.map_cons, List.nodup_cons]
        refine ⟨fun hmem => ?_, mapInsert_nodup k v rest hnd.2 hv.2⟩
        obtain ⟨e, he, hev⟩ := List.mem_map.1 hmem
        rcases mem_mapInsert k v rest e he with h | h
        · rw [h] at hev
          exact hv.1 hev
        · exact hnd.1 (hev ▸ List.mem_map_of_mem _ h)

/-- The first keep-alive loop keeps entries of `m_sessions` in their order. -/
theorem keepAliveLoop_sublist (now lastPing : Int) :
    ∀ (l : List (NodeId × Nat)) (heap : Nat → Option Session) (peers : List (String × Peer)),
      (keepAliveLoop now lastPing l heap peers).kept.Sublist l
  | [], _, _ => by simp [keepAliveLoop]
  | (k, n) :: rest, heap, peers => by
    unfold keepAliveLoop
    cases hm : heap n with
    | none =>
      simp only
      exact (keepAliveLoop_sublist now lastPing rest heap peers).cons _
    | some p =>
      simp only
      by_cases hc : p.connected = true
      · rw [if_pos hc]
        by_cases ht : now - c_keepAliveTimeOutSSL > lastPing ∧ p.lastReceived < lastPing
        · rw [if_pos ht]
          exact (keepAliveLoop_sublist now lastPing rest _ peers).cons₂ _
        · rw [if_neg ht]
          exact (keepAliveLoop_sublist now lastPing rest heap peers).cons₂ _
      · rw [if_neg hc]
        exact (keepAliveLoop_sublist now lastPing rest heap _).cons _

/-- A handshake leaves the session map as it was or enters the new session
object under the next handle. -/
theorem startPeerSession_sessions (env : Env) (hello : Hello) (sock : Socket) (h : Host) :
    ((startPeerSession env hello sock h).host.m_sessions = h.m_sessions ∧
      (startPeerSession env hello sock h).host.nextHandle = h.nextHandle) ∨
    ((startPeerSession env hello sock h).host.m_sessions =
        mapInsert hello.pub h.nextHandle h.m_sessions ∧
      (startPeerSession env hello sock h).host.nextHandle = h.nextHandle + 1) := by
  obtain ⟨c1, c2, c3, c4, c5, c6, c7⟩ := startPeerSession_cases env hello sock h
  by_cases h1 : hello.pub = h.id
  · rw [c1 h1]
    exact Or.inl ⟨rfl, rfl⟩
  by_cases h2 : hello.protocolVersion < (env.c_protocolVersion + (2 ^ 32 - 1)) % 2 ^ 32
  · rw [c2 h1 h2]
    exact Or.inl ⟨rfl, rfl⟩
  by_cases h3 : keptCaps env h hello.caps = []
  · rw [c3 h1 h2 h3]
    exact Or.inl ⟨rfl, rfl⟩
  by_cases h4 : h.pin = true ∧ hello.pub ∉ h.m_requiredPeers
  · rw [c4 h1 h2 h3 h4]
    exact Or.inl ⟨rfl, rfl⟩
  by_cases h5 : connectedSession h hello.pub = true
  · rw [c5 h1 h2 h3 h4 h5]
    exact Or.inl ⟨rfl, rfl⟩
  have h5' : connectedSession h hello.pub = false := by
    cases hc : connectedSession h hello.pub
    · rfl
    · exact absurd hc h5
  by_cases h6 : env.peerSlotsAvailable = false
  · rw [c6 h1 h2 h3 h4 h5' h6]
    exact Or.inl ⟨rfl, rfl⟩
  have h6' : env.peerSlotsAvailable = true := by
    cases hc : env.peerSlotsAvailable
    · exact absurd hc h6
    · rfl
  rw [c7 h1 h2 h3 h4 h5' h6']
  exact Or.inr ⟨rfl, rfl⟩

/-- In every reachable host state the entries of `m_sessions` hold distinct
session objects. -/
theorem reachable_handlesDistinct (h : Host) (hr : Reachable h) : h.handlesDistinct := by
  induction hr with
  | fresh h hf =>
    unfold Host.handlesDistinct
    rw [hf.1]
    exact ⟨List.nodup_nil, fun e he => by simp at he⟩
  | start h env hello sock _ ih =>
    unfold Host.handlesDistinct at ih ⊢
    rcases startPeerSession_sessions env hello sock h with ⟨hs, hn⟩ | ⟨hs, hn⟩
    · rw [hs, hn]
      exact ih
    · rw [hs, hn]
      have hv : h.nextHandle ∉ h.m_sessions.map Prod.snd := by
        intro hmem
        obtain ⟨e, he, hev⟩ := List.mem_map.1 hmem
        have := ih.2 e he
        omega
      refine ⟨mapInsert_nodup _ _ _ ih.1 hv, fun e he => ?_⟩
      rcases mem_mapInsert _ _ _ e he with h' | h'
      · rw [h']
        exact Nat.lt_succ_self _
      · exact Nat.lt_succ_of_lt (ih.2 e h')
  | close h n _ ih =>
    unfold Host.handlesDistinct at ih ⊢
    unfold closeSession
    cases h.heap n <;> exact ih
  | destroy h n _ ih => exact ih
  | keepAlive h now now' _ ih =>
    unfold Host.handlesDistinct at ih ⊢
    unfold keepAlivePeers
    split
    · exact ih
    · have hsub := keepAliveLoop_sublist now h.m_lastPing h.m_sessions h.heap h.m_peers
      exact ⟨(hsub.map Prod.snd).nodup ih.1, fun e he => ih.2 e (hsub.subset he)⟩
  | stop h _ ih =>
    exact ⟨List.nodup_nil, fun e he => by simp [doneWorking] at he⟩

/-- On session objects that are pairwise distinct, the first keep-alive loop
does to each entry what `entryAction` says, in the order of the entries. -/
theorem keepAliveLoop_actions (now lastPing : Int) :
    ∀ (l : List (NodeId × Nat)) (heap : Nat → Option Session) (peers : List (String × Peer)),
      (l.map Prod.snd).Nodup →
      (keepAliveLoop now lastPing l heap peers).actions =
        l.filterMap (entryAction now lastPing heap)
  | [], _, _, _ => by simp [keepAliveLoop]
  | (k, n) :: rest, heap, peers, hnd => by
    simp only [List.map_cons, List.nodup_cons] at hnd
    unfold keepAliveLoop
    cases hm : heap n with
    | none =>
      simp only
      rw [keepAliveLoop_actions now lastPing rest heap peers hnd.2]
      simp [List.filterMap_cons, entryAction, hm]
    | some p =>
      simp only
      by_cases hc : p.connected = true
      · rw [if_pos hc]
        by_cases ht : now - c_keepAliveTimeOutSSL > lastPing ∧ p.lastReceived < lastPing
        · rw [if_pos ht]
          simp only
          rw [keepAliveLoop_actions now lastPing rest _ peers hnd.2]
          have hhead : entryAction now lastPing heap (k, n) = some (.disconnect n .PingTimeout) := by
            have ht' : p.lastReceived < lastPing ∧ now - lastPing > c_keepAliveTimeOutSSL :=
              ⟨ht.2, by have := ht.1; omega⟩
            simp [entryAction, hm, hc, tickAction, ht']
          rw [List.filterMap_cons, hhead]
          congr 1
          apply List.filterMap_congr
          intro e he
          have hne : e.2 ≠ n := fun heq => hnd.1 (heq ▸ List.mem_map_of_mem _ he)
          simp [entryAction, heapSet, hne]
        · rw [if_neg ht]
          simp only
          rw [keepAliveLoop_actions now lastPing rest heap peers hnd.2]
          have hhead : entryAction now lastPing heap (k, n) = some (.ping n) := by
            have ht' : ¬ (p.lastReceived < lastPing ∧ now - lastPing > c_keepAliveTimeOutSSL) :=
              fun hx => ht ⟨by have := hx.2; omega, hx.1⟩
            simp [entryAction, hm, hc, tickAction, ht']
          rw [List.filterMap_cons, hhead]
      · rw [if_neg hc]
        rw [keepAliveLoop_actions now lastPing rest heap _ hnd.2]
        simp [List.filterMap_cons, entryAction, hm, hc]

/-- Among the actions for entries with distinct session objects, the actions on
the session of one entry are the single action of that entry. -/
theorem filterMap_actions_of (f : NodeId × Nat → Option KeepAliveAction)
    (hf : ∀ e a, f e = some a → a.handle = e.2) :
    ∀ (l : List (NodeId × Nat)) (e : NodeId × Nat) (a : KeepAliveAction),
      (l.map Prod.snd).Nodup → e ∈ l → f e = some a →
      (l.filterMap f).filter (fun b => decide (b.handle = e.2)) = [a]
  | [], e, a, _, he, _ => by simp at he
  | x :: rest, e, a, hnd, he, hfe => by
    simp only [List.map_cons, List.nodup_cons] at hnd
    have hnone : ∀ (y : NodeId × Nat), y.2 ∉ rest.map Prod.snd →
        (rest.filterMap f).filter (fun b => decide (b.handle = y.2)) = [] := by
      intro y hy
      rw [List.filter_eq_nil_iff]
      intro b hb
      obtain ⟨z, hz, hfz⟩ := List.mem_filterMap.1 hb
      have := hf z b hfz
      simp only [decide_eq_true_eq]
      intro hbe
      exact hy (hbe ▸ this ▸ List.mem_map_of_mem _ hz)
    rcases List.mem_cons.1 he with hx | hx
    · subst hx
      rw [List.filterMap_cons, hfe, List.filter_cons]
      simp only [hf e a hfe, decide_True, if_true]
      rw [hnone e hnd.1]
    · have hne : x.2 ≠ e.2 := fun heq => hnd.1 (heq ▸ List.mem_map_of_mem _ hx)
      rw [List.filterMap_cons]
      cases hfx : f x with
      | none => exact filterMap_actions_of f hf rest e a hnd.2 hx hfe
      | some b =>
        simp only
        rw [List.filter_cons]
        have hb := hf x b hfx
        have : decide (b.handle = e.2) = false := by
          simp only [decide_eq_false_iff_not]
          rw [hb]
          exact hne
        rw [this]
        exact filterMap_actions_of f hf rest e a hnd.2 hx hfe

/-- An action of `entryAction` is on the session of the entry. -/
theorem entryAction_handle (now lastPing : Int) (heap : Nat → Option Session)
    (e : NodeId × Nat) (a : KeepAliveAction) (h : entryAction now lastPing heap e = some a) :
    a.handle = e.2 := by
  unfold entryAction at h
  cases hm : heap e.2 with
  | none => simp [hm] at h
  | some p =>
    simp only [hm] at h
    by_cases hc : p.connected = true
    · simp only [hc, if_true, Option.some.injEq] at h
      rw [← h]
      unfold tickAction
      split <;> rfl
    · simp [hc] at h

/-- C23: in every reachable host state, `keepAlivePeers` run with fewer than
20 s elapsed since the last ping tick and without the on-demand flag changes
nothing and touches no session. Otherwise its actions are, entry by entry of the
session map, the one action of each connected session:
`disconnect(PingTimeout)` if and only if the `lastReceived` of the session is
earlier than the last ping tick and more than 10 s have elapsed since that tick,
a ping in every other case; every connected session gets exactly that one
action, and no action is on anything but a connected session of the map. -/
theorem keepAlivePeers_actions (h : Host) (hr : Reachable h) (now now' : Int) :
    (now - h.m_lastPing < 20000 ∧ h.m_reconnectnow = false →
      keepAlivePeers now now' h = (h, [])) ∧
    (¬ (now - h.m_lastPing < 20000 ∧ h.m_reconnectnow = false) →
      (keepAlivePeers now now' h).2 =
        h.m_sessions.filterMap (entryAction now h.m_lastPing h.heap) ∧
      (∀ (n : Nat) (p : Session), h.heap n = some p → p.connected = true →
        (keepAlivePeers now now' h).2.filter (fun a => decide (a.handle = n)) =
          [if p.lastReceived < h.m_lastPing ∧ now - h.m_lastPing > 10000 then
            .disconnect n .PingTimeout
          else .ping n]) ∧
      (∀ a ∈ (keepAlivePeers now now' h).2,
        ∃ (k : NodeId) (p : Session),
          (k, a.handle) ∈ h.m_sessions ∧ h.heap a.handle = some p ∧ p.connected = true)) := by
  have hd := reachable_handlesDistinct h hr
  refine ⟨fun hq => ?_, fun hq => ?_⟩
  · unfold keepAlivePeers
    rw [if_pos ⟨by unfold c_keepAliveIntervalSSL; omega, hq.2⟩]
  · have hact : (keepAlivePeers now now' h).2 =
        h.m_sessions.filterMap (entryAction now h.m_lastPing h.heap) := by
      unfold keepAlivePeers
      rw [if_neg (fun hx => hq ⟨by have := hx.1; unfold c_keepAliveIntervalSSL at this; omega, hx.2⟩)]
      exact keepAliveLoop_actions now h.m_lastPing h.m_sessions h.heap h.m_peers hd.1
    refine ⟨hact, fun n p hheap hconn => ?_, fun a ha => ?_⟩
    · rw [hact]
      have hmem : (p.id, n) ∈ h.m_sessions :=
        mapFind_mem _ _ _ ((reachable_sessionsSound h hr).1 n p hheap hconn)
      have he : entryAction now h.m_lastPing h.heap (p.id, n) =
          some (tickAction now h.m_lastPing n p) := by
        simp [entryAction, hheap, hconn]
      have := filterMap_actions_of (entryAction now h.m_lastPing h.heap)
        (entryAction_handle now h.m_lastPing h.heap) h.m_sessions (p.id, n) _ hd.1 hmem he
      rw [this]
      rfl
    · rw [hact] at ha
      obtain ⟨e, he, hfe⟩ := List.mem_filterMap.1 ha
      have hh := entryAction_handle now h.m_lastPing h.heap e a hfe
      unfold entryAction at hfe
      cases hm : h.heap e.2 with
      | none => simp [hm] at hfe
      | some p =>
        simp only [hm] at hfe
        by_cases hc : p.connected = true
        · refine ⟨e.1, p, ?_, ?_, hc⟩
          · rw [hh]
            exact he
          · rw [hh]
            exact hm
        · simp [hc] at hfe

/-- C23 on `tickedHost`, whose session last received at 0 and was pinged at
25 s: a tick at 30 s does nothing, a tick at 50 s disconnects the session with
`PingTimeout`; on `oneSessionHost`, whose last ping tick is 0, a tick at 30 s
pings the session. -/
theorem keepAlivePeers_actions_witness :
    (keepAlivePeers 30000 30000 tickedHost).2 = [] ∧
    (keepAlivePeers 50000 50000 tickedHost).2 = [.disconnect 0 .PingTimeout] ∧
    (keepAlivePeers 30000 30000 oneSessionHost).2 = [.ping 0] ∧
    (keepAlivePeers 50000 50000 tickedHost).2 =
      tickedHost.m_sessions.filterMap (entryAction 50000 tickedHost.m_lastPing tickedHost.heap) :=
  ⟨by decide, by decide, by decide,
    ((keepAlivePeers_actions tickedHost
      (Reachable.keepAlive oneSessionHost 25000 25000
        (Reachable.start dupHost dupEnv dupHello dupSocket
          (Reachable.fresh dupHost ⟨rfl, fun _ => rfl⟩)))
      50000 50000).2 (by decide)).1⟩

/-- C21, the code at the failing inputs: on `twoPeerHost`, which knows the
peers `10.0.0.2:30303` and `10.0.0.3:30303`, `reconnectAllNodes` runs past its
interval check. With an empty authorized list it hands `updateAllConnect` the
empty map; with the peer `10.0.0.2` as the only authorized entry it hands over a
map whose only key is `10.0.0.2:30303`, without the peer `10.0.0.3`; no
exception leaves the call. -/
theorem reconnect_publishes_partial_map :
    (twoPeerHost.m_peers.map fun e => e.2.endpoint.name) =
      ["10.0.0.2:30303", "10.0.0.3:30303"] ∧
    (reconnectAllNodes scenarioNet String.length (fun _ => 0) [] 60000 60000 60000 60000
      twoPeerHost).published = some [] ∧
    ((reconnectAllNodes scenarioNet String.length (fun _ => 0) authorizedPeer
      60000 60000 60000 60000 twoPeerHost).published.map fun m => m.map Prod.fst) =
        some ["10.0.0.2:30303"] ∧
    (reconnectAllNodes scenarioNet String.length (fun _ => 0) authorizedPeer
      60000 60000 60000 60000 twoPeerHost).threw = false := by
  decide

end HostSSL

namespace ChannelRPCServer

open Cpp

/-- C7, the code at the failing inputs: (first send) SDK session `1` sends a
topic request while no peer is subscribed, and the router hands no message to
anyone and keeps the request pending with the zero node id as target; (retry)
the only subscribed peer `7` answers the request with result 5, and the router
again hands no message to anyone. In neither case does session `1` get a `0x31`
with `REMOTE_PEER_UNAVAILIBLE`. -/
theorem no_peer_no_reply :
    (onClientChannelRequest noPeerEnv 0 1 topicRequest twoSessionRouter).sent = [] ∧
    (onClientChannelRequest noPeerEnv 0 1 topicRequest twoSessionRouter).ending = .returned ∧
    (mapFind "q" (onClientChannelRequest noPeerEnv 0 1 topicRequest
      twoSessionRouter).router._seq2MessageSession).map (fun e => (e.fromSession, e.toNodeID))
        = some (some 1, 0) ∧
    (onClientChannelRequest onePeerEnv 0 1 topicRequest twoSessionRouter).sent =
      [.toNode 7 topicRequest] ∧
    (onNodeChannelRequest onePeerEnv 0 7 failedResponse
      (onClientChannelRequest onePeerEnv 0 1 topicRequest twoSessionRouter).router).sent = [] ∧
    (onNodeChannelRequest onePeerEnv 0 7 failedResponse
      (onClientChannelRequest onePeerEnv 0 1 topicRequest twoSessionRouter).router).ending =
        .returned := by
  decide

theorem firstActive_some (r : Router) : ∀ (l : List (Nat × SessionPtr)) (s : SessionPtr),
    firstActive r l = some s → (∃ k, (k, s) ∈ l) ∧ (r.objs s).actived = true
  | [], s, h => by simp [firstActive] at h
  | e :: rest, s, h => by
    unfold firstActive at h
    by_cases ha : (r.objs e.2).actived = true
    · rw [if_pos ha] at h
      simp only [Option.some.injEq] at h
      subst h
      exact ⟨⟨e.1, List.mem_cons_self _ _⟩, ha⟩
    · rw [if_neg ha] at h
      obtain ⟨⟨k, hk⟩, hs⟩ := firstActive_some r rest s h
      exact ⟨⟨k, List.mem_cons_of_mem _ hk⟩, hs⟩

theorem firstActive_none (r : Router) : ∀ (l : List (Nat × SessionPtr)),
    firstActive r l = none → ∀ e ∈ l, (r.objs e.2).actived = false
  | [], _, e, he => by simp at he
  | e0 :: rest, h, e, he => by
    unfold firstActive at h
    by_cases ha : (r.objs e0.2).actived = true
    · rw [if_pos ha] at h; simp at h
    · rw [if_neg ha] at h
      rcases List.mem_cons.1 he with rfl | he
      · simpa using ha
      · exact firstActive_none r rest h e he

/-- C8, as stated, fails: a `0x21` message that carries a non-zero result
arrives from node `9` while no SDK session is registered, and the router hands
no message to anyone: it is not returned to the sending node. -/
theorem error_reply_not_returned :
    mapFind errorReply.seq noSessionRouter._seq2session = none ∧
    firstActive noSessionRouter noSessionRouter._sessions = none ∧
    errorReply.type = 0x21 ∧
    onNodeMessage noPeerEnv 9 errorReply noSessionRouter = [] := by
  decide

/-- C8, amended: for a message that arrives from a peer node, (a) if its seq
maps to an active SDK session the message is handed to that session and to no
other; (b) otherwise, if some registered session is active, it is handed to
exactly one session, registered and active; (c) otherwise, if the result of
the message is 0, it is returned to the sending node as type `0x21` with result
`REMOTE_CLIENT_PEER_UNAVAILBLE` and no payload; (d) otherwise nothing is sent. -/
theorem onNodeMessage_delivery (env : Env) (nodeID : NodeID) (message : Message) (r : Router) :
    (∀ s, mapFind message.seq r._seq2session = some s → (r.objs s).actived = true →
      onNodeMessage env nodeID message r = [.toSession s message]) ∧
    ((∀ s, mapFind message.seq r._seq2session = some s → (r.objs s).actived = false) →
      (∃ e ∈ r._sessions, (r.objs e.2).actived = true) →
      ∃ s, (∃ k, (k, s) ∈ r._sessions) ∧ (r.objs s).actived = true ∧
        onNodeMessage env nodeID message r = [.toSession s message]) ∧
    ((∀ s, mapFind message.seq r._seq2session = some s → (r.objs s).actived = false) →
      (∀ e ∈ r._sessions, (r.objs e.2).actived = false) → message.result = 0 →
      onNodeMessage env nodeID message r =
        [.toNode nodeID
          { message with result := REMOTE_CLIENT_PEER_UNAVAILBLE, type := 0x21, data := [] }]) ∧
    ((∀ s, mapFind message.seq r._seq2session = some s → (r.objs s).actived = false) →
      (∀ e ∈ r._sessions, (r.objs e.2).actived = false) → message.result ≠ 0 →
      onNodeMessage env nodeID message r = []) := by
  have hseq : (∀ s, mapFind message.seq r._seq2session = some s → (r.objs s).actived = false) →
      (match mapFind message.seq r._seq2session with
        | some s => if (r.objs s).actived then some s else none
        | none => none) = none := by
    intro h
    cases hf : mapFind message.seq r._seq2session with
    | none => rfl
    | some s => simp [h s hf]
  have hnone : (∀ e ∈ r._sessions, (r.objs e.2).actived = false) →
      firstActive r r._sessions = none := by
    intro h
    cases hf : firstActive r r._sessions with
    | none => rfl
    | some s =>
      obtain ⟨⟨k, hk⟩, hs⟩ := firstActive_some r _ s hf
      have := h (k, s) hk
      rw [hs] at this
      simp at this
  refine ⟨fun s hf ha => ?_, fun h1 h2 => ?_, fun h1 h2 h3 => ?_, fun h1 h2 h3 => ?_⟩
  · simp [onNodeMessage, hf, ha]
  · cases hf : firstActive r r._sessions with
    | none =>
      obtain ⟨e, he, hea⟩ := h2
      have := firstActive_none r _ hf e he
      rw [hea] at this
      simp at this
    | some s =>
      obtain ⟨hk, hs⟩ := firstActive_some r _ s hf
      refine ⟨s, hk, hs, ?_⟩
      simp only [onNodeMessage, hseq h1, hf]
  · simp only [onNodeMessage, hseq h1, hnone h2, h3, if_true]
  · simp only [onNodeMessage, hseq h1, hnone h2, if_neg h3]

set_option maxRecDepth 8000 in
/-- C9, the code at the failing input: SDK session `2` sends a `0x20` message
with seq `"q"`, which records `"q"` for session `2`; SDK session `1` then sends
an RPC request with the same seq, which leaves that record as it is; the
response to the RPC request is handed to session `2`, not to session `1`. -/
theorem rpc_response_to_other_session :
    (onClientMessage noPeerEnv 2 chainMessage twoSessionRouter).router._seq2session =
      [("q", 2)] ∧
    (onClientEthereumRequest 1 rpcRequest
      (onClientMessage noPeerEnv 2 chainMessage twoSessionRouter).router)._seq2session =
        [("q", 2)] ∧
    (SendResponse [111, 107] "q"
      (onClientEthereumRequest 1 rpcRequest
        (onClientMessage noPeerEnv 2 chainMessage twoSessionRouter).router)).2 =
      [.toSession 2 { seq := "q", type := 0x12, result := 0, data := [111, 107] }] := by
  decide

/-- C10, as stated, fails: the topic request `"q"` of SDK session `1` is
pending, the session is no longer active, and the `0x31` with result 0 from the
peer is handed to nobody; the pending entry is erased. -/
theorem response_dropped_for_inactive_origin :
    mapFind "q" inactiveOriginRouter._seq2MessageSession = some sdkPending ∧
    (onNodeChannelRequest onePeerEnv 0 7 goodResponse inactiveOriginRouter).sent = [] ∧
    mapFind "q" (onNodeChannelRequest onePeerEnv 0 7 goodResponse
      inactiveOriginRouter).router._seq2MessageSession = none := by
  decide

/-- A payload whose topic can be read has at least one byte. -/
theorem readTopic_ok_length (data : List Nat) (topic : String)
    (h : readTopic data = .ok topic) : ¬ data.length < 1 := by
  cases data with
  | nil => simp [readTopic] at h
  | cons a l => simp

/-- C10, amended: a topic request with seq `q` is pending and a `0x31` message
with seq `q`, result 0 and a readable topic header is handled. (a) Handled by
`onNodeChannelRequest` for a request that an SDK session originated, the
message is handed once, unchanged, to that session when the session is active
and to nobody when it is not, and `q` is absent from the pending-request table
afterwards. (b) Handled by `onClientChannelRequest`, the message is handed
once, unchanged, to `sendCustomMessage` for the originating node, and `q` is
absent from the pending-request table afterwards when that call returns. -/
theorem topic_response_forwarded (env : Env) (rnd : Nat) (message : Message) (r : Router)
    (e : ChannelMessageSession) (topic : String)
    (hfind : mapFind message.seq r._seq2MessageSession = some e)
    (htype : message.type = 0x31) (hres : message.result = 0)
    (htopic : readTopic message.data = .ok topic) :
    (∀ (origin : SessionPtr) (nodeID : NodeID), e.fromSession = some origin →
      (onNodeChannelRequest env rnd nodeID message r).sent =
        (if (r.objs origin).actived then [.toSession origin message] else []) ∧
      mapFind message.seq
        (onNodeChannelRequest env rnd nodeID message r).router._seq2MessageSession = none ∧
      (onNodeChannelRequest env rnd nodeID message r).ending = .returned) ∧
    (∀ session : SessionPtr,
      (onClientChannelRequest env rnd session message r).sent =
        [.toNode e.fromNodeID message] ∧
      (env.sendable e.fromNodeID = true →
        mapFind message.seq
          (onClientChannelRequest env rnd session message r).router._seq2MessageSession = none) ∧
      (onClientChannelRequest env rnd session message r).ending = .returned) := by
  have hlen := readTopic_ok_length _ _ htopic
  have h30 : ¬ ((0x31 : Nat) = 0x30) := by decide
  have hres' : ¬ message.result ≠ 0 := by simp [hres]
  refine ⟨fun origin nodeID ho => ?_, fun session => ?_⟩
  · simp only [onNodeChannelRequest, if_neg hlen, htopic, htype, if_neg h30, if_true, hfind,
      if_neg hres', ho]
    exact ⟨trivial, mapFind_mapErase_self _ _, trivial⟩
  · by_cases hs : env.sendable e.fromNodeID = true
    · simp only [onClientChannelRequest, if_neg hlen, htopic, htype, if_neg h30, if_true, hfind,
        if_neg hres', if_pos hs]
      exact ⟨trivial, fun _ => mapFind_mapErase_self _ _, trivial⟩
    · simp only [onClientChannelRequest, if_neg hlen, htopic, htype, if_neg h30, if_true, hfind,
        if_neg hres', if_neg hs]
      exact ⟨trivial, fun h => absurd h hs, trivial⟩

/-- The response to the pending request of the active SDK session `1` meets
the hypotheses of `topic_response_forwarded` and is handed to that session. -/
theorem topic_response_forwarded_witness :
    (onNodeChannelRequest onePeerEnv 0 7 goodResponse activeOriginRouter).sent =
      [.toSession 1 goodResponse] ∧
    mapFind "q" (onNodeChannelRequest onePeerEnv 0 7 goodResponse
      activeOriginRouter).router._seq2MessageSession = none := by
  have h := (topic_response_forwarded onePeerEnv 0 goodResponse activeOriginRouter sdkPending "t"
    (by decide) (by decide) (by decide) (by decide)).1 1 7 (by decide)
  exact ⟨h.1, h.2.1⟩

theorem mem_getSessionByTopic (r : Router) (topic : String) (s : SessionPtr)
    (h : s ∈ getSessionByTopic r topic) :
    (∃ k, (k, s) ∈ r._sessions) ∧ (r.objs s).actived = true ∧ topic ∈ (r.objs s).topics := by
  simp only [getSessionByTopic, List.mem_map, List.mem_filter] at h
  obtain ⟨e, ⟨he, hp⟩, rfl⟩ := h
  simp only [Bool.and_eq_true, Bool.not_eq_true', Bool.or_eq_false_iff, decide_eq_false_iff_not,
    Bool.not_eq_false', decide_eq_true_eq] at hp
  exact ⟨⟨e.1, he⟩, hp.1.2, hp.2⟩

/-- C11: whenever `sendChannelMessageToSession` hands the message to a session,
that session is registered, active, subscribed to the topic and outside the
exclusion set; whenever `sendChannelMessageToNode` hands the message to a node,
that node is among the peers subscribed to the topic and outside the exclusion
set; this holds for every draw of the random generator. -/
theorem send_target_subscribed_not_excluded :
    (∀ (r : Router) (rnd : Nat) (topic : String) (message : Message)
        (exclude : Finset SessionPtr) (s : SessionPtr) (ev : Sent),
      sendChannelMessageToSession r rnd topic message exclude = some (s, ev) →
      ev = .toSession s message ∧ (∃ k, (k, s) ∈ r._sessions) ∧ (r.objs s).actived = true ∧
        topic ∈ (r.objs s).topics ∧ s ∉ exclude) ∧
    (∀ (env : Env) (rnd : Nat) (topic : String) (message : Message) (exclude : Finset NodeID)
        (ev : Sent),
      ev ∈ (sendChannelMessageToNode env rnd topic message exclude).2 →
      ∃ n, ev = .toNode n message ∧ n ∈ env.getPeersByTopic topic ∧ n ∉ exclude) := by
  refine ⟨fun r rnd topic message exclude s ev h => ?_, fun env rnd topic message exclude ev h => ?_⟩
  · unfold sendChannelMessageToSession at h
    simp only at h
    cases hget : ((getSessionByTopic r topic).filter fun s => decide (s ∉ exclude))[rnd %
        ((getSessionByTopic r topic).filter fun s => decide (s ∉ exclude)).length]? with
    | none => rw [hget] at h; simp at h
    | some s0 =>
      rw [hget] at h
      simp only [Option.some.injEq, Prod.mk.injEq] at h
      obtain ⟨rfl, rfl⟩ := h
      have hmem := List.getElem?_mem hget
      simp only [List.mem_filter, decide_eq_true_eq] at hmem
      obtain ⟨h1, h2, h3⟩ := mem_getSessionByTopic r topic _ hmem.1
      exact ⟨rfl, h1, h2, h3, hmem.2⟩
  · unfold sendChannelMessageToNode at h
    simp only at h
    cases hget : ((env.getPeersByTopic topic).filter fun p => decide (p ∉ exclude))[rnd %
        ((env.getPeersByTopic topic).filter fun p => decide (p ∉ exclude)).length]? with
    | none => rw [hget] at h; simp at h
    | some n =>
      rw [hget] at h
      have hmem := List.getElem?_mem hget
      simp only [List.mem_filter, decide_eq_true_eq] at hmem
      refine ⟨n, ?_, hmem.1, hmem.2⟩
      by_cases hs : env.sendable n = true
      · simp only [hs, if_true, List.mem_singleton] at h; exact h
      · simp only [hs, Bool.false_eq_true, if_false, List.mem_singleton] at h; exact h

/-- On `subscribedRouter` with session `1` excluded, every draw hands the
message to session `2`: the inactive session `3` and the excluded session `1`
are never chosen. -/
theorem send_target_subscribed_not_excluded_witness :
    sendChannelMessageToSession subscribedRouter 0 "t" nodeRequest {1} =
      some (2, .toSession 2 nodeRequest) ∧
    ((subscribedRouter.objs 2).actived = true ∧ "t" ∈ (subscribedRouter.objs 2).topics ∧
      (2 : SessionPtr) ∉ ({1} : Finset SessionPtr)) := by
  have h := send_target_subscribed_not_excluded.1 subscribedRouter 0 "t" nodeRequest {1} 2
    (.toSession 2 nodeRequest) (by decide)
  exact ⟨by decide, h.2.2.1, h.2.2.2.1, h.2.2.2.2⟩

/-- When every subscribed active session is in the exclusion set,
`sendChannelMessageToSession` throws. -/
theorem sendChannelMessageToSession_none (r : Router) (rnd : Nat) (topic : String)
    (message : Message) (exclude : Finset SessionPtr)
    (h : ∀ s ∈ getSessionByTopic r topic, s ∈ exclude) :
    sendChannelMessageToSession r rnd topic message exclude = none := by
  have hnil : ((getSessionByTopic r topic).filter fun s => decide (s ∉ exclude)) = [] := by
    rw [List.filter_eq_nil_iff]
    intro s hs
    simp [h s hs]
  unfold sendChannelMessageToSession
  simp only [hnil]
  rfl

/-- C12: a message with a readable topic header is handled while no active
local session subscribed to its topic remains outside the failed sessions of
its seq. (a) As a `0x30` request from a node (first delivery),
`onNodeChannelRequest` hands the sending node that message as type `0x31` with
result `REMOTE_CLIENT_PEER_UNAVAILBLE` and the same seq. (b) As a `0x31` with
non-zero result from the session the pending request was delivered to (retry),
`onClientChannelRequest` hands the originating node of the pending request that
message as type `0x31` with result `REMOTE_CLIENT_PEER_UNAVAILBLE` and the same
seq. Nothing else is sent. -/
theorem no_session_reply_to_node (env : Env) (rnd : Nat) (message : Message) (r : Router)
    (topic : String) (htopic : readTopic message.data = .ok topic) :
    (∀ nodeID : NodeID, message.type = 0x30 →
      (∀ s ∈ getSessionByTopic r topic,
        ∃ e, mapFind message.seq r._seq2MessageSession = some e ∧ s ∈ e.failedSessions) →
      (onNodeChannelRequest env rnd nodeID message r).sent =
        [.toNode nodeID
          { message with result := REMOTE_CLIENT_PEER_UNAVAILBLE, type := 0x31 }] ∧
      (onNodeChannelRequest env rnd nodeID message r).ending = .returned) ∧
    (∀ (session : SessionPtr) (e : ChannelMessageSession) (failedSession : SessionPtr),
      message.type = 0x31 → message.result ≠ 0 →
      mapFind message.seq r._seq2MessageSession = some e → e.toSession = some failedSession →
      (∀ s ∈ getSessionByTopic r topic, s = failedSession ∨ s ∈ e.failedSessions) →
      (onClientChannelRequest env rnd session message r).sent =
        [.toNode e.fromNodeID
          { message with result := REMOTE_CLIENT_PEER_UNAVAILBLE, type := 0x31 }] ∧
      (onClientChannelRequest env rnd session message r).ending = .returned) := by
  have hlen := readTopic_ok_length _ _ htopic
  refine ⟨fun nodeID htype hnone => ?_, fun session e failedSession htype hres hfind hto hnone => ?_⟩
  · have hsend : sendChannelMessageToSession r rnd topic message
        (match mapFind message.seq r._seq2MessageSession with
          | some e => e
          | none =>
            { fromSession := none, fromNodeID := nodeID, toSession := none,
              failedSessions := ∅, message := message, toNodeID := 0,
              failedNodeIDs := ∅ }).failedSessions = none := by
      apply sendChannelMessageToSession_none
      intro s hs
      obtain ⟨e, he, hse⟩ := hnone s hs
      rw [he]
      exact hse
    simp only [onNodeChannelRequest, if_neg hlen, htopic, htype, if_true, hsend]
    exact ⟨trivial, trivial⟩
  · have h30 : ¬ ((0x31 : Nat) = 0x30) := by decide
    have hsend : sendChannelMessageToSession r rnd topic message
        (insert failedSession e.failedSessions) = none := by
      apply sendChannelMessageToSession_none
      intro s hs
      rcases hnone s hs with h | h
      · simp [h]
      · simp [h]
    simp only [onClientChannelRequest, if_neg hlen, htopic, htype, if_neg h30, if_true, hfind,
      if_pos hres, hto, hsend]
    exact ⟨trivial, trivial⟩

/-- Both cases of `no_session_reply_to_node` on concrete routers: a request
from node `7` for topic `"t"` meets no session at all, and the only subscribed
session answers the pending request of node `7` with result 5. -/
theorem no_session_reply_to_node_witness :
    (onNodeChannelRequest noPeerEnv 0 7 nodeRequest noSessionRouter).sent =
      [.toNode 7 { seq := "q", type := 0x31, result := 101, data := [2, 116, 1] }] ∧
    (onClientChannelRequest noPeerEnv 0 1 failedResponse retryRouter).sent =
      [.toNode 7 { seq := "q", type := 0x31, result := 101, data := [2, 116] }] := by
  have h1 := (no_session_reply_to_node noPeerEnv 0 nodeRequest noSessionRouter "t"
    (by decide)).1 7 (by decide) (by decide)
  have h2 := (no_session_reply_to_node noPeerEnv 0 failedResponse retryRouter "t"
    (by decide)).2 1 nodePending 1 (by decide) (by decide) (by decide) (by decide) (by decide)
  exact ⟨h1.1, h2.1⟩

theorem collectTopics_strings : ∀ l : List String,
    collectTopics (l.map some) = some l.toFinset
  | [] => rfl
  | a :: l => by
    simp only [List.map, collectTopics, collectTopics_strings l, List.toFinset_cons]

theorem foldl_union_mem (objs : SessionPtr → ChannelSession) (t : String) :
    ∀ (l : List (Nat × SessionPtr)) (acc : Finset String),
      t ∈ l.foldl (fun allTopics e => allTopics ∪ (objs e.2).topics) acc ↔
        t ∈ acc ∨ ∃ e ∈ l, t ∈ (objs e.2).topics
  | [], acc => by simp
  | e :: l, acc => by
    simp only [List.foldl, foldl_union_mem objs t l, Finset.mem_union, List.mem_cons,
      exists_eq_or_imp]
    tauto

/-- The set `updateHostTopics` hands to the host is the union of the topic sets
of the registered sessions. -/
theorem mem_updateHostTopics (r : Router) (t : String) :
    t ∈ updateHostTopics r ↔ ∃ e ∈ r._sessions, t ∈ (r.objs e.2).topics := by
  simp [updateHostTopics, foldl_union_mem]

/-- C13: when the payload of a `0x32` message parses to a JSON array of the
strings `l`, `onClientTopicRequest` leaves session `S` with exactly the set of
the strings of `l` as its topics (the empty set for the empty array), leaves
every other session object and the sessions' activity as they were, and hands the
host the union of the topic sets of all registered sessions; when the payload
fails to parse, the router and with it the topics of `S` are unchanged and the
host is handed nothing. -/
theorem onClientTopicRequest_topics (parse : List Nat → Option JsonRoot) (session : SessionPtr)
    (message : Message) (r : Router) :
    (∀ l : List String, parse message.data = some (.array (l.map some)) →
      ((onClientTopicRequest parse session message r).1.objs session).topics = l.toFinset ∧
      (∀ t, t ∈ ((onClientTopicRequest parse session message r).1.objs session).topics ↔ t ∈ l) ∧
      (∀ s, s ≠ session →
        (onClientTopicRequest parse session message r).1.objs s = r.objs s) ∧
      ((onClientTopicRequest parse session message r).1.objs session).actived =
        (r.objs session).actived ∧
      (onClientTopicRequest parse session message r).1._sessions = r._sessions ∧
      ∃ allTopics, (onClientTopicRequest parse session message r).2 = some allTopics ∧
        ∀ t, t ∈ allTopics ↔
          ∃ e ∈ r._sessions,
            t ∈ ((onClientTopicRequest parse session message r).1.objs e.2).topics) ∧
    (parse message.data = none →
      (onClientTopicRequest parse session message r).1 = r ∧
      (onClientTopicRequest parse session message r).2 = none) := by
  refine ⟨fun l hl => ?_, fun hnone => ?_⟩
  · have hout : onClientTopicRequest parse session message r =
        (setTopics session l.toFinset r,
          some (updateHostTopics (setTopics session l.toFinset r))) := by
      simp only [onClientTopicRequest, hl, topicsOfJson, collectTopics_strings]
    rw [hout]
    refine ⟨by simp [setTopics], fun t => by simp [setTopics], fun s hs => by simp [setTopics, hs],
      by simp [setTopics], rfl, _, rfl, fun t => ?_⟩
    rw [mem_updateHostTopics]
    rfl
  · simp only [onClientTopicRequest, hnone, and_self]

/-- The subscription `["a","b"]` of session `1` on `subscribedRouter` replaces
its topic `"t"`, and the host is handed the topics `"a"`, `"b"` and the `"t"` of
the other sessions; an unparsable payload changes nothing. -/
theorem onClientTopicRequest_topics_witness :
    ((onClientTopicRequest scenarioParse 1 subscribeMessage subscribedRouter).1.objs 1).topics =
      {"a", "b"} ∧
    (onClientTopicRequest scenarioParse 1 subscribeMessage subscribedRouter).2 =
      some {"a", "b", "t"} ∧
    ((onClientTopicRequest scenarioParse 1 brokenSubscribeMessage subscribedRouter).1.objs
      1).topics = {"t"} := by
  have h := (onClientTopicRequest_topics scenarioParse 1 subscribeMessage subscribedRouter).1
    ["a", "b"] (by decide)
  have h2 := (onClientTopicRequest_topics scenarioParse 1 brokenSubscribeMessage
    subscribedRouter).2 (by decide)
  refine ⟨by rw [h.1]; decide, by decide, by rw [h2.1]; decide⟩

/-- C25, the code at the failing input: for the `0x30` message whose payload is
the two bytes `[5, 't']`, the topic length 5 asks for four bytes after the
first, and one is there: both handlers read three bytes past the payload instead
of rejecting the message. Any topic length beyond the payload length does the
same. A topic length of 0 ends in `std::length_error`, which leaves
`onClientChannelRequest` and is caught in `onNodeChannelRequest`; no message is
sent and the router is unchanged. -/
theorem topic_read_past_payload :
    readTopic truncatedRequest.data = .outOfBounds ∧
    (onClientChannelRequest onePeerEnv 0 1 truncatedRequest twoSessionRouter).ending = .crashed ∧
    (onNodeChannelRequest onePeerEnv 0 7 truncatedRequest twoSessionRouter).ending = .crashed ∧
    (∀ (topicLen : Nat) (rest : List Nat), (topicLen :: rest).length < topicLen →
      readTopic (topicLen :: rest) = .outOfBounds) ∧
    (onClientChannelRequest onePeerEnv 0 1 emptyTopicRequest twoSessionRouter).ending = .threw ∧
    (onClientChannelRequest onePeerEnv 0 1 emptyTopicRequest twoSessionRouter).sent = [] ∧
    (onClientChannelRequest onePeerEnv 0 1 emptyTopicRequest
      twoSessionRouter).router._seq2MessageSession = [] ∧
    (onNodeChannelRequest onePeerEnv 0 7 emptyTopicRequest twoSessionRouter).ending = .returned ∧
    (onNodeChannelRequest onePeerEnv 0 7 emptyTopicRequest twoSessionRouter).sent = [] ∧
    (onNodeChannelRequest onePeerEnv 0 7 emptyTopicRequest
      twoSessionRouter).router._seq2MessageSession = [] := by
  refine ⟨by decide, by decide, by decide, fun topicLen rest hlen => ?_, by decide, by decide,
    by decide, by decide, by decide, by decide⟩
  simp only [List.length_cons] at hlen
  simp only [readTopic]
  rw [if_neg (by omega), if_neg (by omega)]

/-- C26, the code at the failing input: the request `"q"` of node `7` (type
`0x30`, payload `[2, 't', 1]`) is pending on session `1`; session `1` answers
with a `0x31` of result 5 while session `2` is active and subscribed. The router
adds session `1` to the failed sessions and records session `2` as the target,
but what it sends to session `2` is the `0x31` answer of session `1`, not the
stored request. The retry on the node side, for a request of an SDK session that
node `7` failed, does send the stored request, to node `8`. -/
theorem retry_sends_failed_response :
    (onClientChannelRequest onePeerEnv 0 1 failedResponse retryTwoRouter).sent =
      [.toSession 2 failedResponse] ∧
    failedResponse.type = 0x31 ∧ failedResponse.result = 5 ∧
    (mapFind "q" retryTwoRouter._seq2MessageSession).map (fun e => e.message) =
      some nodeRequest ∧
    (mapFind "q" (onClientChannelRequest onePeerEnv 0 1 failedResponse
      retryTwoRouter).router._seq2MessageSession).map
        (fun e => (e.failedSessions, e.toSession, e.message)) =
      some ({1}, some 2, nodeRequest) ∧
    (onNodeChannelRequest twoPeerEnv 0 7 failedResponse activeOriginRouter).sent =
      [.toNode 8 topicRequest] := by
  decide

/-- C28, the code at the failing inputs. (SDK side) SDK session `1` sends the
topic request `"q"`, which is recorded with an originating session and no target
session; a `0x31` with seq `"q"` and result 5 from the SDK side then reaches the
dereference of the target session, which is null. (Node side) node `7` sends the
topic request `"q"`, which is recorded without an originating session; a `0x31`
with seq `"q"` and result 0 from a node then reaches the dereference of the
originating session, which is null. -/
theorem response_dereferences_null :
    (mapFind "q" (onClientChannelRequest onePeerEnv 0 1 topicRequest
      twoSessionRouter).router._seq2MessageSession).map
        (fun e => (e.fromSession, e.toSession)) = some (some 1, none) ∧
    (onClientChannelRequest onePeerEnv 0 1 failedResponse
      (onClientChannelRequest onePeerEnv 0 1 topicRequest twoSessionRouter).router).ending =
        .crashed ∧
    (mapFind "q" (onNodeChannelRequest onePeerEnv 0 7 nodeRequest
      subscribedRouter).router._seq2MessageSession).map
        (fun e => (e.fromSession, e.toSession)) = some (none, some 1) ∧
    (onNodeChannelRequest onePeerEnv 0 7 goodResponse
      (onNodeChannelRequest onePeerEnv 0 7 nodeRequest subscribedRouter).router).ending =
        .crashed := by
  decide

/-- The tables of `busyReached`: session `1` has the seqs `"a"` and `"b"` in the
seq-to-session table and the topic requests `"p"` and `"q"` pending. -/
theorem busyReached_tables :
    busyReached._sessions = busyRouter._sessions ∧
    busyReached._seq2session = busyRouter._seq2session ∧
    busyReached._seq2MessageSession = busyRouter._seq2MessageSession := by
  have hq : ("q" : String) ≠ "p" := by decide
  have hb : ("b" : String) ≠ "a" := by decide
  refine ⟨rfl, ?_, ?_⟩
  · simp [busyReached, onClientChannelRequest, onClientEthereumRequest, mapInsertNew, mapFind,
      mapInsert, hb, topicRequest, topicRequestP, readTopic, twoSessionRouter, busyRouter,
      rpcRequest]
    decide
  · simp [busyReached, onClientChannelRequest, onClientEthereumRequest, topicRequest,
      topicRequestP, readTopic, mapFind, mapInsert, hq, sendChannelMessageToNode, onePeerEnv,
      busyRouter, sdkPending, bytesToString, twoSessionRouter]
    decide

/-- C29, the code at the failing input: SDK session `1` has sent two RPC
requests, seqs `"a"` and `"b"`, and two topic requests, seqs `"p"` and `"q"`,
none answered yet. After `onDisconnect` for session `1` the session is gone from
the session map, but each of the two tables has lost only its first entry of the
session: seq `"b"` still maps to session `1`, and the pending request `"q"`
still has session `1` as its originating session. -/
theorem disconnect_leaves_entries :
    busyReached._seq2session = [("a", 1), ("b", 1)] ∧
    (busyReached._seq2MessageSession.map fun e => (e.1, e.2.fromSession)) =
      [("p", some 1), ("q", some 1)] ∧
    (onDisconnect 1 busyReached).1._sessions = [(2, 2)] ∧
    (onDisconnect 1 busyReached).1._seq2session = [("b", 1)] ∧
    ((onDisconnect 1 busyReached).1._seq2MessageSession.map fun e => (e.1, e.2.fromSession)) =
      [("q", some 1)] := by
  obtain ⟨h1, h2, h3⟩ := busyReached_tables
  have e1 : (onDisconnect 1 busyReached).1._sessions =
      eraseFirstMatch (fun e => decide (e.2 = 1)) busyReached._sessions := rfl
  have e2 : (onDisconnect 1 busyReached).1._seq2session =
      eraseFirstMatch (fun e => decide (e.2 = 1)) busyReached._seq2session := rfl
  have e3 : (onDisconnect 1 busyReached).1._seq2MessageSession =
      eraseFirstMatch
        (fun e => decide (e.2.fromSession = some 1) || decide (e.2.toSession = some 1))
        busyReached._seq2MessageSession := rfl
  rw [e1, e2, e3, h1, h2, h3]
  decide

end ChannelRPCServer
